import Mathlib

/-!
Verification of the backup/restore subsystem of the paperkeep receipt-tracking
application (export/import services, password-based key derivation and the
XOR stream cipher, plus the record-store operations they rely on).

Modelling conventions:
* A JavaScript string is modelled as `Str := List Nat`, the list of its UTF-16
  code units (`charCodeAt` values).  JavaScript `Date` objects are modelled by
  their millisecond timestamp (an `Int`), which is exactly the information a
  `Date` carries.
* Byte buffers (`Buffer`) are lists of naturals `< 256`.
* Asynchronous functions with no true concurrency are modelled as pure
  functions; nondeterministic inputs (`Date.now()`, `Math.random()`) become
  explicit parameters.
* External library primitives used by the source (expo-crypto SHA-256, Node
  base64, JSON.parse/stringify, JavaScript Date) are modelled concretely and
  faithfully to their specified behaviour, since the source's behaviour is a
  composition of them.
-/

namespace Paperkeep

/-- A JavaScript string: the list of its UTF-16 code unit values. -/
abbrev Str := List Nat

/-! ## Section A: strings, the XOR cipher, base64 and latin1 transport

Source: `src/src/utils/encryption.ts` (functions `xorEncrypt`,
`encryptDataWithPassword`, `decryptDataWithPassword`, `deriveKey`) together
with the Node `Buffer` base64/latin1 conversions they invoke. -/

/-- Code unit of `key` at position `i % key.length`, as JavaScript's
`key.charCodeAt(i % key.length)` used by `xorEncrypt`; an out-of-range access
yields NaN which `^` coerces to 0, hence the default 0. -/
def keyCodeAt (key : Str) (i : Nat) : Nat := key.getD (i % key.length) 0

/-- Recursive worker for `xorEncrypt`: index-tracking XOR of the text against
the cycled key. -/
def xorEncryptAux (key : Str) : Nat → Str → Str
  | _, [] => []
  | i, c :: rest => (c ^^^ keyCodeAt key i) :: xorEncryptAux key (i + 1) rest

/-- Model of `xorEncrypt(text, key)` from `encryption.ts`: character `i` of the
result is `text.charCodeAt(i) ^ key.charCodeAt(i % key.length)`. -/
def xorEncrypt (text key : Str) : Str := xorEncryptAux key 0 text

/-- Model of `Buffer.from(s, 'binary')`: the latin1 encoding keeps the low
byte of every UTF-16 code unit. -/
def latin1Bytes (s : Str) : List Nat := s.map (fun c => c % 256)

/-- Base64 alphabet: sextet value to character code
(`A-Z`, `a-z`, `0-9`, `+`, `/`). -/
def b64Char (s : Nat) : Nat :=
  if s < 26 then 65 + s
  else if s < 52 then 71 + s
  else if s < 62 then s - 4
  else if s = 62 then 43
  else 47

/-- Partial inverse of the base64 alphabet; non-alphabet characters
(including padding `=`) map to `none` and are skipped by the lenient Node
decoder. -/
def b64DecChar (c : Nat) : Option Nat :=
  if 65 ≤ c ∧ c ≤ 90 then some (c - 65)
  else if 97 ≤ c ∧ c ≤ 122 then some (c - 71)
  else if 48 ≤ c ∧ c ≤ 57 then some (c + 4)
  else if c = 43 then some 62
  else if c = 47 then some 63
  else none

/-- Model of `buffer.toString('base64')`: standard padded base64 of a byte
list, produced three bytes at a time. -/
def base64Encode : List Nat → Str
  | b0 :: b1 :: b2 :: rest =>
    b64Char (b0 / 4) :: b64Char (b0 % 4 * 16 + b1 / 16) ::
      b64Char (b1 % 16 * 4 + b2 / 64) :: b64Char (b2 % 64) :: base64Encode rest
  | [b0, b1] => [b64Char (b0 / 4), b64Char (b0 % 4 * 16 + b1 / 16), b64Char (b1 % 16 * 4), 61]
  | [b0] => [b64Char (b0 / 4), b64Char (b0 % 4 * 16), 61, 61]
  | [] => []

/-- Reassemble bytes from a list of sextets, four at a time; a trailing group
of two or three sextets carries one or two bytes (Node's lenient decoder). -/
def sextetsToBytes : List Nat → List Nat
  | s0 :: s1 :: s2 :: s3 :: rest =>
    (s0 * 4 + s1 / 16) :: (s1 % 16 * 16 + s2 / 4) :: (s2 % 4 * 64 + s3) :: sextetsToBytes rest
  | [s0, s1, s2] => [s0 * 4 + s1 / 16, s1 % 16 * 16 + s2 / 4]
  | [s0, s1] => [s0 * 4 + s1 / 16]
  | _ => []

/-- Model of `Buffer.from(s, 'base64')`: drop non-alphabet characters, then
reassemble bytes from sextets. -/
def base64Decode (s : Str) : List Nat := sextetsToBytes (s.filterMap b64DecChar)

/-! ## Section B: SHA-256 (expo-crypto `digestStringAsync` with
`CryptoDigestAlgorithm.SHA256`), modelled per FIPS 180-4.  The digest of a
string is the SHA-256 of its UTF-8 encoding, rendered as 64 lowercase hex
characters, which is exactly what expo-crypto returns. -/

/-- Truncation to a 32-bit word. -/
def m32 (x : Nat) : Nat := x % 4294967296

/-- 32-bit right rotation (input assumed `< 2^32`). -/
def rotr32 (n x : Nat) : Nat := m32 ((x >>> n) ||| (x <<< (32 - n)))

/-- FIPS 180-4 big sigma 0. -/
def bsig0 (x : Nat) : Nat := rotr32 2 x ^^^ rotr32 13 x ^^^ rotr32 22 x

/-- FIPS 180-4 big sigma 1. -/
def bsig1 (x : Nat) : Nat := rotr32 6 x ^^^ rotr32 11 x ^^^ rotr32 25 x

/-- FIPS 180-4 small sigma 0. -/
def ssig0 (x : Nat) : Nat := rotr32 7 x ^^^ rotr32 18 x ^^^ (x >>> 3)

/-- FIPS 180-4 small sigma 1. -/
def ssig1 (x : Nat) : Nat := rotr32 17 x ^^^ rotr32 19 x ^^^ (x >>> 10)

/-- FIPS 180-4 choice function (bitwise complement taken inside 32 bits). -/
def chFn (x y z : Nat) : Nat := (x &&& y) ^^^ ((x ^^^ 4294967295) &&& z)

/-- FIPS 180-4 majority function. -/
def majFn (x y z : Nat) : Nat := (x &&& y) ^^^ (x &&& z) ^^^ (y &&& z)

/-- The 64 SHA-256 round constants. -/
def shaK : List Nat :=
  [1116352408, 1899447441, 3049323471, 3921009573, 961987163, 1508970993, 2453635748,
   2870763221, 3624381080, 310598401, 607225278, 1426881987, 1925078388, 2162078206,
   2614888103, 3248222580, 3835390401, 4022224774, 264347078, 604807628, 770255983,
   1249150122, 1555081692, 1996064986, 2554220882, 2821834349, 2952996808, 3210313671,
   3336571891, 3584528711, 113926993, 338241895, 666307205, 773529912, 1294757372,
   1396182291, 1695183700, 1986661051, 2177026350, 2456956037, 2730485921, 2820302411,
   3259730800, 3345764771, 3516065817, 3600352804, 4094571909, 275423344, 430227734,
   506948616, 659060556, 883997877, 958139571, 1322822218, 1537002063, 1747873779,
   1955562222, 2024104815, 2227730452, 2361852424, 2428436474, 2756734187, 3204031479,
   3329325298]

/-- The eight working variables of the SHA-256 compression function. -/
structure Hash8 where
  h0 : Nat
  h1 : Nat
  h2 : Nat
  h3 : Nat
  h4 : Nat
  h5 : Nat
  h6 : Nat
  h7 : Nat

/-- SHA-256 initial hash value. -/
def shaH0 : Hash8 :=
  ⟨1779033703, 3144134277, 1013904242, 2773480762, 1359893119, 2600822924, 528734635,
   1541459225⟩

/-- Big-endian 32-bit words from a byte list (length a multiple of 4). -/
def words4 : List Nat → List Nat
  | b0 :: b1 :: b2 :: b3 :: rest =>
    (b0 * 16777216 + b1 * 65536 + b2 * 256 + b3) :: words4 rest
  | _ => []

/-- Extend the message schedule: the accumulator holds the schedule so far in
reverse (most recent word first). -/
def scheduleExtend : Nat → List Nat → List Nat
  | 0, acc => acc
  | n + 1, acc =>
    scheduleExtend n
      (m32 (ssig1 (acc.getD 1 0) + acc.getD 6 0 + ssig0 (acc.getD 14 0) + acc.getD 15 0) :: acc)

/-- The 64-word message schedule of one 16-word chunk. -/
def schedule (first16 : List Nat) : List Nat := (scheduleExtend 48 first16.reverse).reverse

/-- One SHA-256 round with constant `k` and schedule word `w`. -/
def roundStep (st : Hash8) (kw : Nat × Nat) : Hash8 :=
  let t1 := m32 (st.h7 + bsig1 st.h4 + chFn st.h4 st.h5 st.h6 + kw.1 + kw.2)
  let t2 := m32 (bsig0 st.h0 + majFn st.h0 st.h1 st.h2)
  ⟨m32 (t1 + t2), st.h0, st.h1, st.h2, m32 (st.h3 + t1), st.h4, st.h5, st.h6⟩

/-- Compress one 64-byte chunk into the running hash. -/
def processChunk (h : Hash8) (chunk : List Nat) : Hash8 :=
  let st := ((shaK.zip (schedule (words4 chunk))).foldl roundStep h)
  ⟨m32 (h.h0 + st.h0), m32 (h.h1 + st.h1), m32 (h.h2 + st.h2), m32 (h.h3 + st.h3),
   m32 (h.h4 + st.h4), m32 (h.h5 + st.h5), m32 (h.h6 + st.h6), m32 (h.h7 + st.h7)⟩

/-- FIPS 180-4 padding: append `0x80`, zeros to 56 mod 64, then the bit length
as eight big-endian bytes. -/
def shaPad (msg : List Nat) : List Nat :=
  let bl := 8 * msg.length % 18446744073709551616
  msg ++ 128 :: List.replicate ((119 - msg.length % 64) % 64) 0 ++
    [bl / 72057594037927936 % 256, bl / 281474976710656 % 256, bl / 1099511627776 % 256,
     bl / 4294967296 % 256, bl / 16777216 % 256, bl / 65536 % 256, bl / 256 % 256, bl % 256]

/-- Split a byte list into 64-byte chunks (fuel-based so it reduces in the
kernel). -/
def chunksGo : Nat → List Nat → List (List Nat)
  | _, [] => []
  | 0, _ => []
  | fuel + 1, l => l.take 64 :: chunksGo fuel (l.drop 64)

/-- SHA-256 of a byte list, as the final eight-word state. -/
def sha256 (msg : List Nat) : Hash8 :=
  let padded := shaPad msg
  (chunksGo padded.length padded).foldl processChunk shaH0

/-- Lowercase hex digit of the low nibble of `n` (`0`-`9`, `a`-`f`). -/
def hexDigit (n : Nat) : Nat := if n % 16 < 10 then 48 + n % 16 else 87 + n % 16

/-- Two lowercase hex characters of a byte. -/
def hexByte (b : Nat) : Str := [hexDigit (b / 16), hexDigit b]

/-- The four big-endian bytes of a 32-bit word. -/
def wordBytes (w : Nat) : List Nat :=
  [w / 16777216 % 256, w / 65536 % 256, w / 256 % 256, w % 256]

/-- The 32 bytes of a SHA-256 state. -/
def bytesOfHash (h : Hash8) : List Nat :=
  wordBytes h.h0 ++ wordBytes h.h1 ++ wordBytes h.h2 ++ wordBytes h.h3 ++
    wordBytes h.h4 ++ wordBytes h.h5 ++ wordBytes h.h6 ++ wordBytes h.h7

/-- UTF-8 encoding of a UTF-16 code unit sequence (surrogate pairs combined,
lone surrogates replaced by U+FFFD), as JavaScript string-to-bytes coercion
does before hashing. -/
def utf8Encode : Str → List Nat
  | [] => []
  | c :: rest =>
    if c < 128 then c :: utf8Encode rest
    else if c < 2048 then (192 + c / 64) :: (128 + c % 64) :: utf8Encode rest
    else if 55296 ≤ c ∧ c < 56320 then
      match rest with
      | c2 :: rest2 =>
        if 56320 ≤ c2 ∧ c2 < 57344 then
          let cp := 65536 + (c - 55296) * 1024 + (c2 - 56320)
          (240 + cp / 262144) :: (128 + cp / 4096 % 64) :: (128 + cp / 64 % 64) ::
            (128 + cp % 64) :: utf8Encode rest2
        else 239 :: 191 :: 189 :: utf8Encode (c2 :: rest2)
      | [] => [239, 191, 189]
    else if 56320 ≤ c ∧ c < 57344 then 239 :: 191 :: 189 :: utf8Encode rest
    else (224 + c / 4096) :: (128 + c / 64 % 64) :: (128 + c % 64) :: utf8Encode rest

/-- Model of `Crypto.digestStringAsync(SHA256, s)`: SHA-256 of the UTF-8 bytes
of `s`, rendered as 64 lowercase hex characters. -/
def sha256HexString (s : Str) : Str := (bytesOfHash (sha256 (utf8Encode s))).flatMap hexByte

/-! ## Section C: key derivation and password encryption (`encryption.ts`). -/

/-- The iterated-hash loop of `deriveKey`: `n` further digest applications. -/
def hashLoop : Nat → Str → Str
  | 0, s => s
  | n + 1, s => hashLoop n (sha256HexString s)

/-- Model of `deriveKey(masterKey, salt)` from `encryption.ts`: hash
`masterKey + salt` once, re-hash the hex digest 9999 more times (the loop
`for (i = 1; i < 10000; i++)`), and take the first `keyLength * 2 = 64` hex
characters. -/
def deriveKey (masterKey salt : Str) : Str :=
  (hashLoop 9999 (sha256HexString (masterKey ++ salt))).take 64

/-- Model of `encryptDataWithPassword(data, password)`.  The source draws its
salt as `digest(Date.now().toString() + Math.random().toString())`; the
concatenated entropy string is the explicit parameter `seed`.  Returns the
`{ encrypted, salt }` pair: base64 of the latin1 bytes of the XOR transform,
plus the salt. -/
def encryptDataWithPassword (data password seed : Str) : Str × Str :=
  let salt := sha256HexString seed
  let key := deriveKey password salt
  let encrypted := xorEncrypt data key
  (base64Encode (latin1Bytes encrypted), salt)

/-- Digest-shaped strings: 64 ASCII hex characters. -/
def digestLike (s : Str) : Prop :=
  s.length = 64 ∧ ∀ c ∈ s, (48 ≤ c ∧ c ≤ 57) ∨ (97 ≤ c ∧ c ≤ 102)

/-- ASCII code of a lowercase hex digit (used to state the shape of derived
keys). -/
def isHexDigitCode (c : Nat) : Bool := (48 ≤ c && c ≤ 57) || (97 ≤ c && c ≤ 102)

/-- Model of `decryptDataWithPassword(encryptedBase64, password, salt)`:
derive the key, decode the base64 payload to bytes (read back as a latin1
string), and XOR again.  Total: no failure mode, exactly as in the source. -/
def decryptDataWithPassword (encryptedBase64 password salt : Str) : Str :=
  let key := deriveKey password salt
  let encrypted := base64Decode encryptedBase64
  xorEncrypt encrypted key


/-! ## Section D: the JavaScript Date model (ECMAScript proleptic Gregorian
calendar, `toISOString` and ISO parsing by `new Date`). -/

/-! Gregorian calendar model of the JavaScript `Date`, structured around
400-year eras (146097 days) with years starting March 1 internally. -/

/-- Day offset (from March 1 of year 0 of the era) at which internal year
`y` of an era starts. -/
def yearStartS (y : Nat) : Nat := 365 * y + y / 4 - y / 100

/-- Day offset within the internal (March-first) year at which internal month
`mp` (0 = March, ..., 11 = February) starts. -/
def monthStartS (mp : Nat) : Nat := (153 * mp + 2) / 5

/-- Greatest internal year `≤ bound` whose start is `≤ doe`, by countdown. -/
def findYoe (doe : Nat) : Nat → Nat
  | 0 => 0
  | y + 1 => if yearStartS (y + 1) ≤ doe then y + 1 else findYoe doe y

/-- Internal year of a day-of-era. -/
def yoeOf (doe : Nat) : Nat := findYoe doe 399

/-- Greatest internal month `≤ bound` whose start is `≤ doy`, by countdown. -/
def findMp (doy : Nat) : Nat → Nat
  | 0 => 0
  | m + 1 => if monthStartS (m + 1) ≤ doy then m + 1 else findMp doy m

/-- Internal month of a day-of-year. -/
def mpOf (doy : Nat) : Nat := findMp doy 11

/-- Proleptic-Gregorian leap-year predicate on astronomical year numbers,
as in ECMAScript's DaysInYear. -/
def isLeapY (y : Int) : Bool := decide ((y % 4 = 0 ∧ ¬ y % 100 = 0) ∨ y % 400 = 0)

/-- Calendar date (year, month 1-12, day 1-31) of an epoch day number, as
ECMAScript's YearFromTime/MonthFromTime/DateFromTime (the year is the
greatest one starting on or before the day; months likewise). -/
def civilFromDays (z : Int) : Int × Nat × Nat :=
  let zz := z + 719468
  let era := zz / 146097
  let doe := (zz % 146097).toNat
  let yoe := yoeOf doe
  let doy := doe - yearStartS yoe
  let mp := mpOf doy
  let d := doy - monthStartS mp + 1
  let m := if mp < 10 then mp + 3 else mp - 9
  (era * 400 + yoe + (if m ≤ 2 then 1 else 0), m, d)

/-- Epoch day number of a calendar date, as ECMAScript's MakeDay. -/
def daysFromCivil (y : Int) (m d : Nat) : Int :=
  let yy := y - (if m ≤ 2 then 1 else 0)
  let era := yy / 400
  let yoe := (yy % 400).toNat
  let mp := if m > 2 then m - 3 else m + 9
  (era * 146097 + (yearStartS yoe + (monthStartS mp + (d - 1)) : Nat)) - 719468

/-- Length in days of civil month `m` of year `y`. -/
def daysInMonth (y : Int) (m : Nat) : Nat :=
  if m = 2 then (if isLeapY y then 29 else 28)
  else if m = 4 ∨ m = 6 ∨ m = 9 ∨ m = 11 then 30 else 31

/-- Two-digit zero-padded decimal. -/
def pad2 (n : Nat) : Str := [48 + n / 10 % 10, 48 + n % 10]

/-- Three-digit zero-padded decimal. -/
def pad3 (n : Nat) : Str := [48 + n / 100 % 10, 48 + n / 10 % 10, 48 + n % 10]

/-- Four-digit zero-padded decimal. -/
def pad4 (n : Nat) : Str := [48 + n / 1000 % 10, 48 + n / 100 % 10, 48 + n / 10 % 10, 48 + n % 10]

/-- Six-digit zero-padded decimal. -/
def pad6 (n : Nat) : Str :=
  [48 + n / 100000 % 10, 48 + n / 10000 % 10, 48 + n / 1000 % 10, 48 + n / 100 % 10,
   48 + n / 10 % 10, 48 + n % 10]

/-- Year rendering of `Date.prototype.toISOString`: four digits for years
0-9999, otherwise the expanded six-digit form with an explicit sign. -/
def yearStr (y : Int) : Str :=
  if 0 ≤ y ∧ y ≤ 9999 then pad4 y.toNat
  else if y < 0 then 45 :: pad6 (-y).toNat
  else 43 :: pad6 y.toNat

/-- The full ISO-8601 rendering from calendar and time-of-day components:
`YYYY-MM-DDTHH:mm:ss.sssZ`. -/
def printIsoOf (y : Int) (m d hh mi ss ms : Nat) : Str :=
  yearStr y ++ [45] ++ pad2 m ++ [45] ++ pad2 d ++ [84] ++ pad2 hh ++ [58] ++ pad2 mi ++
    [58] ++ pad2 ss ++ [46] ++ pad3 ms ++ [90]

/-- Model of `Date.prototype.toISOString` (defined for timestamps within the
ECMAScript range of 8.64e15 milliseconds around the epoch). -/
def toISOString (t : Int) : Str :=
  let c := civilFromDays (t / 86400000)
  let msd := (t % 86400000).toNat
  printIsoOf c.1 c.2.1 c.2.2 (msd / 3600000) (msd / 60000 % 60) (msd / 1000 % 60) (msd % 1000)

/-- ASCII decimal digit test. -/
def isDigit (c : Nat) : Bool := 48 ≤ c && c ≤ 57

/-- Value of an ASCII decimal digit. -/
def digitVal (c : Nat) : Nat := c - 48

/-- Tail of the ISO date-time grammar after the year:
`-MM-DDTHH:mm:ss.sssZ`, validated and converted as ECMAScript's parser
(MakeDay/MakeTime composition followed by TimeClip). -/
def parseIsoTail (y : Int) : Str → Option Int
  | [sep1, m1, m2, sep2, d1, d2, tsep, h1, h2, c1, i1, i2, c2, s1, s2, dot, f1, f2, f3, zch] =>
    if sep1 = 45 ∧ sep2 = 45 ∧ tsep = 84 ∧ c1 = 58 ∧ c2 = 58 ∧ dot = 46 ∧ zch = 90 ∧
        isDigit m1 = true ∧ isDigit m2 = true ∧ isDigit d1 = true ∧ isDigit d2 = true ∧
        isDigit h1 = true ∧ isDigit h2 = true ∧ isDigit i1 = true ∧ isDigit i2 = true ∧
        isDigit s1 = true ∧ isDigit s2 = true ∧
        isDigit f1 = true ∧ isDigit f2 = true ∧ isDigit f3 = true then
      let m := digitVal m1 * 10 + digitVal m2
      let dd := digitVal d1 * 10 + digitVal d2
      let hh := digitVal h1 * 10 + digitVal h2
      let mi := digitVal i1 * 10 + digitVal i2
      let ss := digitVal s1 * 10 + digitVal s2
      let fff := digitVal f1 * 100 + digitVal f2 * 10 + digitVal f3
      if 1 ≤ m ∧ m ≤ 12 ∧ 1 ≤ dd ∧ dd ≤ daysInMonth y m ∧
          (hh ≤ 23 ∨ (hh = 24 ∧ mi = 0 ∧ ss = 0 ∧ fff = 0)) ∧ mi ≤ 59 ∧ ss ≤ 59 then
        let tt := daysFromCivil y m dd * 86400000 +
          ((hh * 3600000 + mi * 60000 + ss * 1000 + fff : Nat) : Int)
        if -8640000000000000 ≤ tt ∧ tt ≤ 8640000000000000 then some tt else none
      else none
    else none
  | _ => none

/-- Four-digit year head of the ISO grammar. -/
def parse4Digit : Str → Option Int
  | y1 :: y2 :: y3 :: y4 :: rest =>
    if isDigit y1 = true ∧ isDigit y2 = true ∧ isDigit y3 = true ∧ isDigit y4 = true then
      parseIsoTail
        ((digitVal y1 * 1000 + digitVal y2 * 100 + digitVal y3 * 10 + digitVal y4 : Nat) : Int)
        rest
    else none
  | _ => none

/-- Expanded six-digit year head of the ISO grammar (a negative zero year is
rejected, as in ECMAScript). -/
def parseExpandedYear (sign : Int) : Str → Option Int
  | y1 :: y2 :: y3 :: y4 :: y5 :: y6 :: rest =>
    if isDigit y1 = true ∧ isDigit y2 = true ∧ isDigit y3 = true ∧ isDigit y4 = true ∧
        isDigit y5 = true ∧ isDigit y6 = true then
      let v : Nat := digitVal y1 * 100000 + digitVal y2 * 10000 + digitVal y3 * 1000 +
        digitVal y4 * 100 + digitVal y5 * 10 + digitVal y6
      if sign = -1 ∧ v = 0 then none else parseIsoTail (sign * (v : Int)) rest
    else none
  | _ => none

/-- Model of `new Date(s)` for the full UTC ISO date-time format (the only
format the archive ever stores); other inputs yield `none`, standing for an
invalid date. -/
def parseJsDate (s : Str) : Option Int :=
  match s with
  | [] => none
  | c0 :: rest =>
    if c0 = 43 then parseExpandedYear 1 rest
    else if c0 = 45 then parseExpandedYear (-1) rest
    else parse4Digit (c0 :: rest)

/-! ## Section E: JSON (`JSON.stringify(v, null, 2)` and `JSON.parse`).

The value model carries integers for numbers: every number this archive
format ever serializes is an integer (amounts in cents, record counts), and
the parser rejects fractional or exponent forms, which the format never
emits. -/

/-- JSON values. -/
inductive JValue where
  | jnull : JValue
  | jbool : Bool → JValue
  | jnum : Int → JValue
  | jstr : Str → JValue
  | jarr : List JValue → JValue
  | jobj : List (Str × JValue) → JValue

/-- Decimal digits of a positive natural (fuel-based; `fuel ≥ n` suffices). -/
def natDigitsAux : Nat → Nat → Str
  | 0, _ => []
  | fuel + 1, n => if n = 0 then [] else natDigitsAux fuel (n / 10) ++ [48 + n % 10]

/-- Decimal rendering of a natural number. -/
def printNat (n : Nat) : Str := if n = 0 then [48] else natDigitsAux n n

/-- Decimal rendering of an integer, as `JSON.stringify` renders integral
numbers. -/
def printInt (i : Int) : Str := if i < 0 then 45 :: printNat (-i).toNat else printNat i.toNat

/-- JSON escaping of one UTF-16 code unit, as `JSON.stringify`: quote,
backslash, the five short escapes, `\u00XX` for other control characters,
everything else literal. -/
def escapeChar (c : Nat) : Str :=
  if c = 34 then [92, 34]
  else if c = 92 then [92, 92]
  else if c = 8 then [92, 98]
  else if c = 9 then [92, 116]
  else if c = 10 then [92, 110]
  else if c = 12 then [92, 102]
  else if c = 13 then [92, 114]
  else if c < 32 then [92, 117, 48, 48, hexDigit (c / 16), hexDigit c]
  else [c]

/-- JSON escaping of a string body. -/
def escapeStr (s : Str) : Str := s.flatMap escapeChar

/-- A quoted JSON string literal. -/
def quoteStr (s : Str) : Str := 34 :: escapeStr s ++ [34]

/-- Indentation: `n` spaces. -/
def spaces (n : Nat) : Str := List.replicate n 32

mutual

/-- Model of `JSON.stringify(v, null, 2)` at indentation level `ind`. -/
def printV (ind : Nat) : JValue → Str
  | .jnull => [110, 117, 108, 108]
  | .jbool true => [116, 114, 117, 101]
  | .jbool false => [102, 97, 108, 115, 101]
  | .jnum n => printInt n
  | .jstr s => quoteStr s
  | .jarr [] => [91, 93]
  | .jarr (v :: vs) => [91, 10] ++ printItems ind (v :: vs)
  | .jobj [] => [123, 125]
  | .jobj (kv :: kvs) => [123, 10] ++ printMembers ind (kv :: kvs)

/-- Array items, one per line at `ind + 2`, with the closing bracket at
`ind`. -/
def printItems (ind : Nat) : List JValue → Str
  | [] => []
  | [v] => spaces (ind + 2) ++ printV (ind + 2) v ++ [10] ++ spaces ind ++ [93]
  | v :: vs => spaces (ind + 2) ++ printV (ind + 2) v ++ [44, 10] ++ printItems ind vs

/-- Object members, one per line at `ind + 2`, with the closing brace at
`ind`. -/
def printMembers (ind : Nat) : List (Str × JValue) → Str
  | [] => []
  | [(k, v)] =>
    spaces (ind + 2) ++ quoteStr k ++ [58, 32] ++ printV (ind + 2) v ++ [10] ++ spaces ind ++ [125]
  | (k, v) :: kvs =>
    spaces (ind + 2) ++ quoteStr k ++ [58, 32] ++ printV (ind + 2) v ++ [44, 10] ++
      printMembers ind kvs

end

/-- Model of `JSON.stringify(v, null, 2)`. -/
def printJson (v : JValue) : Str := printV 0 v

/-- Whitespace skipping of `JSON.parse`. -/
def skipWs : Str → Str
  | [] => []
  | c :: rest => if c = 32 ∨ c = 9 ∨ c = 10 ∨ c = 13 then skipWs rest else c :: rest

/-- Hex digit value (both cases), for `\uXXXX` escapes. -/
def hexVal (c : Nat) : Option Nat :=
  if 48 ≤ c ∧ c ≤ 57 then some (c - 48)
  else if 97 ≤ c ∧ c ≤ 102 then some (c - 87)
  else if 65 ≤ c ∧ c ≤ 70 then some (c - 55)
  else none

/-- A `\uXXXX` escape body: four hex digits. -/
def parseHex4 : Str → Option (Nat × Str)
  | h1 :: h2 :: h3 :: h4 :: rest3 =>
    match hexVal h1, hexVal h2, hexVal h3, hexVal h4 with
    | some a, some b, some c2, some d => some (a * 4096 + b * 256 + c2 * 16 + d, rest3)
    | _, _, _, _ => none
  | _ => none

/-- One escape sequence after a backslash: the decoded code unit and the
remaining input. -/
def parseEscape : Str → Option (Nat × Str)
  | [] => none
  | e :: rest2 =>
    if e = 34 ∨ e = 92 ∨ e = 47 then some (e, rest2)
    else if e = 98 then some (8, rest2)
    else if e = 116 then some (9, rest2)
    else if e = 110 then some (10, rest2)
    else if e = 102 then some (12, rest2)
    else if e = 114 then some (13, rest2)
    else if e = 117 then parseHex4 rest2
    else none

/-- JSON string body parser (fueled; `length + 1` fuel always suffices):
consumes up to and including the closing quote, decoding escapes; raw
control characters are rejected as in JSON. -/
def parseStringBody : Nat → Str → Option (Str × Str)
  | 0, _ => none
  | _ + 1, [] => none
  | fuel + 1, c :: rest =>
    if c = 34 then some ([], rest)
    else if c = 92 then
      match parseEscape rest with
      | none => none
      | some p => (parseStringBody fuel p.2).map (fun q => (p.1 :: q.1, q.2))
    else if c < 32 then none
    else (parseStringBody fuel rest).map (fun p => (c :: p.1, p.2))

/-- Maximal leading run of decimal digits. -/
def takeDigits : Str → Str × Str
  | [] => ([], [])
  | c :: rest =>
    if isDigit c = true then
      let p := takeDigits rest
      (c :: p.1, p.2)
    else ([], c :: rest)

/-- Value of a digit string. -/
def digitsVal (ds : Str) : Nat := ds.foldl (fun acc c => acc * 10 + (c - 48)) 0

/-- Integer number parser (fractions and exponents, which the archive never
emits, are not modelled). -/
def parseNumber : Str → Option (Int × Str)
  | [] => none
  | c :: rest =>
    if c = 45 then
      let p := takeDigits rest
      if p.1 = [] then none else some (-(digitsVal p.1 : Int), p.2)
    else
      let p := takeDigits (c :: rest)
      if p.1 = [] then none else some ((digitsVal p.1 : Int), p.2)

/-- Head and tail of a nonempty string. -/
def headTail : Str → Option (Nat × Str)
  | [] => none
  | c :: t => some (c, t)

/-- Tail of the `null` keyword. -/
def parseNullTail : Str → Option (JValue × Str)
  | 117 :: 108 :: 108 :: r => some (.jnull, r)
  | _ => none

/-- Tail of the `true` keyword. -/
def parseTrueTail : Str → Option (JValue × Str)
  | 114 :: 117 :: 101 :: r => some (.jbool true, r)
  | _ => none

/-- Tail of the `false` keyword. -/
def parseFalseTail : Str → Option (JValue × Str)
  | 97 :: 108 :: 115 :: 101 :: r => some (.jbool false, r)
  | _ => none

mutual

/-- Fueled JSON value parser (model of `JSON.parse`; the fuel decreases on
every recursive call and `length + 1` is always sufficient). -/
def parseValue : Nat → Str → Option (JValue × Str)
  | 0, _ => none
  | fuel + 1, s => parseValueTok fuel (skipWs s)

/-- Dispatch on the first token character. -/
def parseValueTok : Nat → Str → Option (JValue × Str)
  | _, [] => none
  | fuel, c :: rest =>
    if c = 110 then parseNullTail rest
    else if c = 116 then parseTrueTail rest
    else if c = 102 then parseFalseTail rest
    else if c = 34 then (parseStringBody (rest.length + 1) rest).map (fun p => (.jstr p.1, p.2))
    else if c = 91 then
      (headTail (skipWs rest)).bind fun ct =>
        if ct.1 = 93 then some (.jarr [], ct.2) else parseElems fuel (ct.1 :: ct.2) []
    else if c = 123 then
      (headTail (skipWs rest)).bind fun ct =>
        if ct.1 = 125 then some (.jobj [], ct.2) else parseMembers fuel (ct.1 :: ct.2) []
    else (parseNumber (c :: rest)).map (fun p => (.jnum p.1, p.2))

/-- Comma-separated array elements up to the closing bracket. -/
def parseElems : Nat → Str → List JValue → Option (JValue × Str)
  | 0, _, _ => none
  | fuel + 1, s, acc =>
    (parseValue fuel s).bind fun vr =>
      (headTail (skipWs vr.2)).bind fun ct =>
        if ct.1 = 44 then parseElems fuel ct.2 (acc ++ [vr.1])
        else if ct.1 = 93 then some (.jarr (acc ++ [vr.1]), ct.2)
        else none

/-- Comma-separated object members up to the closing brace. -/
def parseMembers : Nat → Str → List (Str × JValue) → Option (JValue × Str)
  | 0, _, _ => none
  | fuel + 1, s, acc =>
    (headTail (skipWs s)).bind fun ct =>
      if ct.1 = 34 then
        (parseStringBody (ct.2.length + 1) ct.2).bind fun kr =>
          (headTail (skipWs kr.2)).bind fun ct3 =>
            if ct3.1 = 58 then
              (parseValue fuel ct3.2).bind fun vr =>
                (headTail (skipWs vr.2)).bind fun ct5 =>
                  if ct5.1 = 44 then parseMembers fuel ct5.2 (acc ++ [(kr.1, vr.1)])
                  else if ct5.1 = 125 then some (.jobj (acc ++ [(kr.1, vr.1)]), ct5.2)
                  else none
            else none
      else none

end

/-- Model of `JSON.parse`: parse one value and require only whitespace
afterwards. -/
def parseJson (s : Str) : Option JValue :=
  match parseValue (s.length + 1) s with
  | some (v, r) => match skipWs r with | [] => some v | _ => none
  | none => none

mutual

/-- Weight of a JSON value: an upper bound on the parser fuel its printed
form needs. -/
def jweight : JValue → Nat
  | .jnull => 1
  | .jbool _ => 1
  | .jnum _ => 1
  | .jstr _ => 1
  | .jarr vs => 2 + jweightList vs
  | .jobj kvs => 2 + jweightMembers kvs

def jweightList : List JValue → Nat
  | [] => 0
  | v :: vs => 1 + jweight v + jweightList vs

def jweightMembers : List (Str × JValue) → Nat
  | [] => 0
  | kv :: kvs => 1 + jweight kv.2 + jweightMembers kvs

end

/-- A head that no printed rest-continuation starts with a digit. -/
def nonDigitHead : Str → Prop
  | [] => True
  | c :: _ => ¬(48 ≤ c ∧ c ≤ 57)

/-- Printed values start with a token character (sign, digit, quote, bracket,
keyword initial, or brace). -/
def headOk (s : Str) : Prop :=
  ∃ c t, s = c :: t ∧ (c = 45 ∨ (48 ≤ c ∧ c ≤ 57) ∨ c = 34 ∨ c = 91 ∨ c = 110 ∨ c = 116 ∨
    c = 102 ∨ c = 123)

/-! ## Section F: the receipt store (`SQLiteStorage`), `ExportService` and
`ImportService`.

The SQLite `receipts` table is a list of rows in insertion order; file-system
side effects (copying image files, zipping, temp directories) are abstracted
away, and the archive produced by `exportData` / consumed by `importData` is
the zip contents: the two text entries plus the list of staged image URIs.
`Date.now()` and the random seed of salt generation enter as explicit
parameters. -/

/-- Code units of the object key id. -/
def strIdKey : Str := [105, 100]

/-- Code units of the object key storeName. -/
def strStoreNameKey : Str := [115, 116, 111, 114, 101, 78, 97, 109, 101]

/-- Code units of the object key date. -/
def strDateKey : Str := [100, 97, 116, 101]

/-- Code units of the object key totalAmount. -/
def strTotalAmountKey : Str := [116, 111, 116, 97, 108, 65, 109, 111, 117, 110, 116]

/-- Code units of the object key tags. -/
def strTagsKey : Str := [116, 97, 103, 115]

/-- Code units of the object key notes. -/
def strNotesKey : Str := [110, 111, 116, 101, 115]

/-- Code units of the object key ocrText. -/
def strOcrTextKey : Str := [111, 99, 114, 84, 101, 120, 116]

/-- Code units of the object key imageUri. -/
def strImageUriKey : Str := [105, 109, 97, 103, 101, 85, 114, 105]

/-- Code units of the object key createdAt. -/
def strCreatedAtKey : Str := [99, 114, 101, 97, 116, 101, 100, 65, 116]

/-- Code units of the object key updatedAt. -/
def strUpdatedAtKey : Str := [117, 112, 100, 97, 116, 101, 100, 65, 116]

/-- Code units of the object key version. -/
def strVersionKey : Str := [118, 101, 114, 115, 105, 111, 110]

/-- Code units of the object key exportDate. -/
def strExportDateKey : Str := [101, 120, 112, 111, 114, 116, 68, 97, 116, 101]

/-- Code units of the object key receiptCount. -/
def strReceiptCountKey : Str := [114, 101, 99, 101, 105, 112, 116, 67, 111, 117, 110, 116]

/-- Code units of the object key receipts. -/
def strReceiptsKey : Str := [114, 101, 99, 101, 105, 112, 116, 115]

/-- Code units of the version string 1.0.0. -/
def strVersionValue : Str := [49, 46, 48, 46, 48]

/-- Code units of: Invalid backup file: salt not found. -/
def strSaltNotFound : Str := [73, 110, 118, 97, 108, 105, 100, 32, 98, 97, 99, 107, 117, 112, 32, 102, 105, 108, 101, 58, 32, 115, 97, 108, 116, 32, 110, 111, 116, 32, 102, 111, 117, 110, 100]

/-- Code units of: Invalid backup file: metadata not found. -/
def strMetadataNotFound : Str := [73, 110, 118, 97, 108, 105, 100, 32, 98, 97, 99, 107, 117, 112, 32, 102, 105, 108, 101, 58, 32, 109, 101, 116, 97, 100, 97, 116, 97, 32, 110, 111, 116, 32, 102, 111, 117, 110, 100]

/-- Code units of: Invalid backup file: corrupted metadata. -/
def strCorruptedMetadata : Str := [73, 110, 118, 97, 108, 105, 100, 32, 98, 97, 99, 107, 117, 112, 32, 102, 105, 108, 101, 58, 32, 99, 111, 114, 114, 117, 112, 116, 101, 100, 32, 109, 101, 116, 97, 100, 97, 116, 97]

/-- Code units of: Invalid backup file: invalid structure. -/
def strInvalidStructure : Str := [73, 110, 118, 97, 108, 105, 100, 32, 98, 97, 99, 107, 117, 112, 32, 102, 105, 108, 101, 58, 32, 105, 110, 118, 97, 108, 105, 100, 32, 115, 116, 114, 117, 99, 116, 117, 114, 101]

/-- Code units of the user message: Incorrect password or corrupted backup file. -/
def strIncorrectPassword : Str := [73, 110, 99, 111, 114, 114, 101, 99, 116, 32, 112, 97, 115, 115, 119, 111, 114, 100, 32, 111, 114, 32, 99, 111, 114, 114, 117, 112, 116, 101, 100, 32, 98, 97, 99, 107, 117, 112, 32, 102, 105, 108, 101]

/-- Code units of: Decryption failed. -/
def strDecryptionFailed : Str := [68, 101, 99, 114, 121, 112, 116, 105, 111, 110, 32, 102, 97, 105, 108, 101, 100]

/-- Code units of: No receipts to export. -/
def strNoReceiptsMessage : Str := [78, 111, 32, 114, 101, 99, 101, 105, 112, 116, 115, 32, 116, 111, 32, 101, 120, 112, 111, 114, 116]

/-- Code units of: You have no receipts to export. -/
def strNoReceiptsUserMessage : Str := [89, 111, 117, 32, 104, 97, 118, 101, 32, 110, 111, 32, 114, 101, 99, 101, 105, 112, 116, 115, 32, 116, 111, 32, 101, 120, 112, 111, 114, 116]

/-- Code units of the per-record error prefix: Failed to import receipt with a
trailing colon and space. -/
def strFailedToImportReceipt : Str := [70, 97, 105, 108, 101, 100, 32, 116, 111, 32, 105, 109, 112, 111, 114, 116, 32, 114, 101, 99, 101, 105, 112, 116, 58, 32]

/-- Code units of: undefined. -/
def strUndefined : Str := [117, 110, 100, 101, 102, 105, 110, 101, 100]

/-- Code units of the wrapping prefix in importData: Import failed with a
trailing colon and space. -/
def strImportFailedPrefix : Str := [73, 109, 112, 111, 114, 116, 32, 102, 97, 105, 108, 101, 100, 58, 32]

/-- Code units of how a plain Error renders in a template literal: the word
Error, a colon and a space. -/
def strErrorPrefix : Str := [69, 114, 114, 111, 114, 58, 32]

/-- Code units of how a TypeError renders in a template literal. -/
def strTypeErrorPrefix : Str := [84, 121, 112, 101, 69, 114, 114, 111, 114, 58, 32]

/-- Code units of a representative engine message for reading the storeName
property off a null array entry; no claim depends on its exact text. -/
def strNullReadStoreName : Str := [67, 97, 110, 110, 111, 116, 32, 114, 101, 97, 100, 32, 112, 114, 111, 112, 101, 114, 116, 105, 101, 115, 32, 111, 102, 32, 110, 117, 108, 108, 32, 40, 114, 101, 97, 100, 105, 110, 103, 32, 39, 115, 116, 111, 114, 101, 78, 97, 109, 101, 39, 41]

/-- Code units of the error category import. -/
def strCategoryImport : Str := [105, 109, 112, 111, 114, 116]

/-- Code units of the file extensions known to getImageExtension, with the
leading dot, and the bare jpg fallback of the export staging loop. -/
def strDotJpg : Str := [46, 106, 112, 103]

/-- Code units of .jpeg. -/
def strDotJpeg : Str := [46, 106, 112, 101, 103]

/-- Code units of .png. -/
def strDotPng : Str := [46, 112, 110, 103]

/-- Code units of .gif. -/
def strDotGif : Str := [46, 103, 105, 102]

/-- Code units of .webp. -/
def strDotWebp : Str := [46, 119, 101, 98, 112]

/-- Code units of jpg without a dot. -/
def strJpg : Str := [106, 112, 103]

/-- Code units of the image directory prefix receipts/ relative to the
document directory. -/
def strReceiptsDir : Str := [114, 101, 99, 101, 105, 112, 116, 115, 47]

/-- The error codes that appear in the services under verification. -/
inductive ErrorCode where
  | EXPORT_CORRUPTED_DATA : ErrorCode
  | EXPORT_INSUFFICIENT_STORAGE : ErrorCode
  | STORAGE_FILE_SYSTEM_ERROR : ErrorCode
deriving DecidableEq

/-- `AppError` from types/errors.ts: message, code, category, recoverable
flag and user-facing message. -/
structure AppError where
  message : Str
  code : ErrorCode
  category : Str
  recoverable : Bool
  userMessage : Str
deriving DecidableEq

/-- `ImportStrategy` from types/export.ts. -/
inductive ImportStrategy where
  | merge : ImportStrategy
  | replace : ImportStrategy
  | skip : ImportStrategy
deriving DecidableEq

/-- `ImportResult` from types/export.ts. -/
structure ImportResult where
  success : Bool
  imported : Nat
  skipped : Nat
  errors : List Str
deriving DecidableEq

/-- One row of the SQLite `receipts` table. The `tags` column stores
`JSON.stringify` of a string array and every read parses it back, so the
column carries the array itself here. -/
structure Row where
  id : Str
  store_name : Str
  date : Int
  total_amount : Int
  tags : List Str
  notes : Option Str
  ocr_text : Str
  image_uri : Str
  created_at : Int
  updated_at : Int
deriving DecidableEq

/-- The JavaScript `Receipt` object. `notes` distinguishes an absent
property (`none`), a present `null` (`some none`) and a string
(`some (some s)`): the import loop builds receipts by spreading parsed JSON,
where all three occur and `updateReceipt` treats them differently. -/
structure Receipt where
  id : Str
  storeName : Str
  date : Int
  totalAmount : Int
  tags : List Str
  notes : Option (Option Str)
  ocrText : Str
  imageUri : Str
  createdAt : Int
  updatedAt : Int
deriving DecidableEq

/-- `mapRowToReceipt` of SQLiteStorage: a read row always carries the notes
property, possibly null. -/
def mapRowToReceipt (r : Row) : Receipt :=
  ⟨r.id, r.store_name, r.date, r.total_amount, r.tags, some r.notes,
    r.ocr_text, r.image_uri, r.created_at, r.updated_at⟩

/-- `validateReceipt` of StorageAdapter as a pass/fail check. Only the
emptiness of id, storeName and imageUri can fail here: the date fields are
Date objects (always truthy, even invalid ones), totalAmount and ocrText use
explicit undefined/null tests that present fields pass, and tags is an
array by construction. -/
def validateReceipt (r : Receipt) : Bool :=
  !r.id.isEmpty && !r.storeName.isEmpty && !r.imageUri.isEmpty

/-- The `receipt.notes || null` normalization of the INSERT in saveReceipt:
absent, null and the empty string all store NULL. -/
def normNotes : Option (Option Str) → Option Str
  | some (some s) => if s.isEmpty then none else some s
  | _ => none

/-- The row written by the INSERT of saveReceipt. -/
def rowOfReceipt (r : Receipt) : Row :=
  ⟨r.id, r.storeName, r.date, r.totalAmount, r.tags, normNotes r.notes,
    r.ocrText, r.imageUri, r.createdAt, r.updatedAt⟩

/-- `saveReceipt` of SQLiteStorage: validate, then INSERT. `none` models a
throw — a failed validation, or the PRIMARY KEY rejecting a duplicate id.
The thrown error is never inspected by the import loop, which catches it and
records its own message. -/
def saveReceipt (r : Receipt) (store : List Row) : Option (List Row) :=
  if !validateReceipt r then none
  else if store.any (fun row => decide (row.id = r.id)) then none
  else some (store ++ [rowOfReceipt r])

/-- The SET list of `updateReceipt` applied to one row: every field of the
update object is defined here except possibly notes, created_at has no
branch at all, and updated_at is always set to `Date.now()`. -/
def updateRow (now : Int) (upd : Receipt) (row : Row) : Row :=
  { id := row.id
    store_name := upd.storeName
    date := upd.date
    total_amount := upd.totalAmount
    tags := upd.tags
    notes := match upd.notes with
      | none => row.notes
      | some v => v
    ocr_text := upd.ocrText
    image_uri := upd.imageUri
    created_at := row.created_at
    updated_at := now }

/-- `updateReceipt` of SQLiteStorage: an UPDATE by id. A missing id affects
zero rows and is not an error. -/
def updateReceipt (id : Str) (upd : Receipt) (now : Int) (store : List Row) : List Row :=
  store.map (fun row => if row.id = id then updateRow now upd row else row)

/-- `deleteReceipt`: DELETE by id (PaperkeepStorage also deletes the stored
image file, a file-system effect outside the table). -/
def deleteReceipt (id : Str) (store : List Row) : List Row :=
  store.filter (fun row => decide (¬ row.id = id))

/-- ASCII lowercasing, as the i flag and toLowerCase act on the extension
characters in play. -/
def toLowerCode (c : Nat) : Nat := if 65 ≤ c ∧ c ≤ 90 then c + 32 else c

/-- `getImageExtension` of ImageStorage: the lowercased match of the
anchored extension pattern, defaulting to .jpg. None of the five known
extensions is a suffix of another, so testing them in any order matches the
regex alternation. -/
def getImageExtension (uri : Str) : Str :=
  let lower := uri.map toLowerCode
  if strDotJpg.isSuffixOf lower then strDotJpg
  else if strDotJpeg.isSuffixOf lower then strDotJpeg
  else if strDotPng.isSuffixOf lower then strDotPng
  else if strDotGif.isSuffixOf lower then strDotGif
  else if strDotWebp.isSuffixOf lower then strDotWebp
  else strDotJpg

/-- `saveImage` of ImageStorage: the returned destination URI
`receipts/<id><ext>`; the copy itself is a file-system effect. -/
def saveImage (uri id : Str) : Str :=
  strReceiptsDir ++ id ++ getImageExtension uri

/-- `getImage` of ImageStorage over the list of stored image files: the
first of the three probed extensions whose file exists. -/
def getImage (id : Str) (images : List Str) : Option Str :=
  [strReceiptsDir ++ id ++ strDotJpg,
   strReceiptsDir ++ id ++ strDotJpeg,
   strReceiptsDir ++ id ++ strDotPng].find? (fun u => images.contains u)

/-- The `split` on dots followed by `pop` of the export staging loop: the
segment after the last dot, or the whole string when it has none. -/
def afterLastDot (s : Str) : Str :=
  (s.reverse.takeWhile (fun c => c != 46)).reverse

/-- The staged extension `imageUri.split(dot).pop() || jpg`. -/
def stagedExtension (uri : Str) : Str :=
  let e := afterLastDot uri
  if e.isEmpty then strJpg else e

/-- The archive contents: the two text entries if present, and the listing
of the images directory if it exists. Import sees the staged files as full
URIs inside the temp directory. -/
structure Archive where
  salt? : Option Str
  metadataEnc? : Option Str
  imageFiles? : Option (List Str)
deriving DecidableEq

/-- One serialized receipt of the export metadata: the spread of the
receipt object with the three dates replaced by their ISO strings, keys in
property order. `JSON.stringify` drops an absent notes property and keeps a
null one. -/
def serializeReceipt (r : Receipt) : JValue :=
  .jobj ([(strIdKey, .jstr r.id), (strStoreNameKey, .jstr r.storeName),
    (strDateKey, .jstr (toISOString r.date)),
    (strTotalAmountKey, .jnum r.totalAmount),
    (strTagsKey, .jarr (r.tags.map .jstr))] ++
    (match r.notes with
      | none => []
      | some none => [(strNotesKey, .jnull)]
      | some (some s) => [(strNotesKey, .jstr s)]) ++
    [(strOcrTextKey, .jstr r.ocrText), (strImageUriKey, .jstr r.imageUri),
     (strCreatedAtKey, .jstr (toISOString r.createdAt)),
     (strUpdatedAtKey, .jstr (toISOString r.updatedAt))])

/-- The metadata object written by exportData. -/
def exportMetadata (receipts : List Receipt) (now : Int) : JValue :=
  .jobj [(strVersionKey, .jstr strVersionValue),
    (strExportDateKey, .jstr (toISOString now)),
    (strReceiptCountKey, .jnum receipts.length),
    (strReceiptsKey, .jarr (receipts.map serializeReceipt))]

/-- The AppError thrown by exportData on an empty store. -/
def noReceiptsError : AppError :=
  ⟨strNoReceiptsMessage, .EXPORT_CORRUPTED_DATA, strCategoryImport, false,
    strNoReceiptsUserMessage⟩

/-- `exportData` of ExportService: reject an empty store, else build the
metadata JSON, encrypt it under the password with a salt hashed from the
random seed, and stage each receipt image under `<id>.<ext>`. -/
def exportData (store : List Row) (images : List Str) (password seed : Str)
    (now : Int) : Except AppError Archive :=
  let receipts := store.map mapRowToReceipt
  if receipts.isEmpty then .error noReceiptsError
  else
    let metadataJson := printJson (exportMetadata receipts now)
    let es := encryptDataWithPassword metadataJson password seed
    .ok ⟨some es.2, some es.1,
      some (store.filterMap (fun r => (getImage r.id images).map
        (fun uri => r.id ++ 46 :: stagedExtension uri)))⟩

/-- The AppError built by the outer catch of importData around a non-AppError
throw: the rendered error appended to the Import failed prefix, recoverable,
with the thrown message as user message. -/
def importFailure (display message : Str) : AppError :=
  ⟨strImportFailedPrefix ++ display, .EXPORT_CORRUPTED_DATA,
    strCategoryImport, true, message⟩

/-- Property access on parsed JSON; `JSON.parse` keeps the last duplicate
key. -/
def jGet (v : JValue) (k : Str) : Option JValue :=
  match v with
  | .jobj kvs => (kvs.reverse.find? (fun kv => decide (kv.1 = k))).map (fun kv => kv.2)
  | _ => none

/-- A string-valued JSON field. -/
def jStrField : Option JValue → Option Str
  | some (.jstr s) => some s
  | _ => none

/-- A number-valued JSON field. -/
def jNumField : Option JValue → Option Int
  | some (.jnum n) => some n
  | _ => none

/-- A string-array-valued JSON field. -/
def jTagsField : Option JValue → Option (List Str)
  | some (.jarr vs) => vs.mapM (fun x => match x with | .jstr s => some s | _ => none)
  | _ => none

/-- The id of an archive entry, when it is a string: ids of other shapes
never match the existing-id set and their records fail at the insert. -/
def rawId (r : JValue) : Option Str := jStrField (jGet r strIdKey)

/-- The storeName rendered into the per-record error message. -/
def displayStoreName (r : JValue) : Str :=
  match jStrField (jGet r strStoreNameKey) with
  | some s => s
  | none => strUndefined

/-- The notes property of an archive entry: absent, null or a string. -/
def notesField (r : JValue) : Option (Option (Option Str)) :=
  match jGet r strNotesKey with
  | none => some none
  | some .jnull => some (some none)
  | some (.jstr s) => some (some (some s))
  | some _ => none

/-- Decoding one archive entry into the receipt the loop builds: the
serialized field shapes with the three dates parsed by the Date
constructor. An entry of any other shape takes the per-record failure path,
as it does in the code at its eventual insert or update. -/
def decodeReceipt (r : JValue) : Option Receipt :=
  (rawId r).bind fun id =>
  (jStrField (jGet r strStoreNameKey)).bind fun storeName =>
  (jStrField (jGet r strDateKey)).bind fun dateS =>
  (parseJsDate dateS).bind fun date =>
  (jNumField (jGet r strTotalAmountKey)).bind fun totalAmount =>
  (jTagsField (jGet r strTagsKey)).bind fun tags =>
  (notesField r).bind fun notes =>
  (jStrField (jGet r strOcrTextKey)).bind fun ocrText =>
  (jStrField (jGet r strImageUriKey)).bind fun imageUri =>
  (jStrField (jGet r strCreatedAtKey)).bind fun createdAtS =>
  (parseJsDate createdAtS).bind fun createdAt =>
  (jStrField (jGet r strUpdatedAtKey)).bind fun updatedAtS =>
  (parseJsDate updatedAtS).map fun updatedAt =>
  ⟨id, storeName, date, totalAmount, tags, notes, ocrText, imageUri,
    createdAt, updatedAt⟩

/-- The running state of the import loop. -/
structure LoopState where
  store : List Row
  imported : Nat
  skipped : Nat
  errors : List Str
deriving DecidableEq

/-- A null archive entry: reading its id throws, and the catch block throws
again rendering its storeName, so the loop aborts to the outer catch. -/
def isJNull : JValue → Bool
  | .jnull => true
  | _ => false

/-- The AppError surfacing a null archive entry. -/
def nullAbortError : AppError :=
  importFailure (strTypeErrorPrefix ++ strNullReadStoreName) strNullReadStoreName

/-- One non-null iteration of the import loop, in source order: the
existing-id test against the snapshot, the skip continue, the replace
delete (which persists even if the record then fails), the image rewrite by
the first staged URI containing the id as a substring, then update for an
existing id under merge or insert otherwise; any failure is caught, counted
as skipped and recorded. -/
def entryStore (strategy : ImportStrategy) (exids : List Str) (rid : Str)
    (store : List Row) : List Row :=
  if rid ∈ exids ∧ strategy = .replace then deleteReceipt rid store else store

/-- The receipt the loop goes on to write: the decoded entry, its imageUri
rewritten to the saved copy of the first staged file containing the id as a
substring, if any. -/
def entryReceipt (images? : Option (List Str)) (rid : Str) (rec0 : Receipt) : Receipt :=
  match images? with
  | none => rec0
  | some files =>
    match files.find? (fun uri => decide (rid <:+: uri)) with
    | some uri => { rec0 with imageUri := saveImage uri rid }
    | none => rec0

/-- One non-null iteration of the import loop, in source order: the
existing-id test against the snapshot, the skip continue, the replace
delete (via `entryStore` — it persists even if the record then fails), the
image rewrite (`entryReceipt`), then update for an existing id under merge
or insert otherwise; any failure is caught, counted as skipped and
recorded. -/
def processEntry (strategy : ImportStrategy) (images? : Option (List Str))
    (now : Int) (exids : List Str) (r : JValue) (st : LoopState) : LoopState :=
  match rawId r with
  | none =>
    { st with
      skipped := st.skipped + 1
      errors := st.errors ++ [strFailedToImportReceipt ++ displayStoreName r] }
  | some rid =>
    if rid ∈ exids ∧ strategy = .skip then
      { st with skipped := st.skipped + 1 }
    else
      match decodeReceipt r with
      | none =>
        { st with
          store := entryStore strategy exids rid st.store
          skipped := st.skipped + 1
          errors := st.errors ++ [strFailedToImportReceipt ++ displayStoreName r] }
      | some rec0 =>
        if rid ∈ exids ∧ strategy = .merge then
          { st with
            store := updateReceipt rid (entryReceipt images? rid rec0) now
              (entryStore strategy exids rid st.store)
            imported := st.imported + 1 }
        else
          match saveReceipt (entryReceipt images? rid rec0)
            (entryStore strategy exids rid st.store) with
          | some store2 =>
            { st with
              store := store2
              imported := st.imported + 1 }
          | none =>
            { st with
              store := entryStore strategy exids rid st.store
              skipped := st.skipped + 1
              errors := st.errors ++ [strFailedToImportReceipt ++ displayStoreName r] }

/-- The for loop of importData over `metadata.receipts`. A null entry
aborts with the state reached so far — earlier writes persist. -/
def processReceipts (strategy : ImportStrategy) (images? : Option (List Str))
    (now : Int) (exids : List Str) : List JValue → LoopState → Option AppError × LoopState
  | [], st => (none, st)
  | r :: rest, st =>
    if isJNull r then (some nullAbortError, st)
    else processReceipts strategy images? now exids rest
      (processEntry strategy images? now exids r st)

/-- The structure validation `metadata.receipts && Array.isArray(...)`: the
record list when the receipts property is an array (arrays are truthy, and
every other value — absent, falsy or non-array — fails the check). -/
def metadataReceipts (metadata : JValue) : Option (List JValue) :=
  match jGet metadata strReceiptsKey with
  | some (.jarr receiptList) => some receiptList
  | _ => none

/-- The end of importData: an aborting loop rethrows, a completed one
returns the counters with the success flag hard-coded to true; either way
the table holds the loop state reached. -/
def processEnd : Option AppError × LoopState → Except AppError ImportResult × List Row
  | (some e, st) => (.error e, st.store)
  | (none, st) => (.ok ⟨true, st.imported, st.skipped, st.errors⟩, st.store)

/-- `importData` of ImportService, returning the outcome together with the
table contents after the call (mutations before an abort persist). The
catch around decryption is omitted: `decryptDataWithPassword` is total, so
the branch reporting `strIncorrectPassword` is unreachable. -/
def importData (ar : Archive) (password : Str) (strategy : ImportStrategy)
    (store : List Row) (now : Int) : Except AppError ImportResult × List Row :=
  match ar.salt? with
  | none =>
    (.error (importFailure (strErrorPrefix ++ strSaltNotFound) strSaltNotFound), store)
  | some salt =>
    match ar.metadataEnc? with
    | none =>
      (.error (importFailure (strErrorPrefix ++ strMetadataNotFound) strMetadataNotFound), store)
    | some enc =>
      match parseJson (decryptDataWithPassword enc password salt) with
      | none =>
        (.error (importFailure (strErrorPrefix ++ strCorruptedMetadata) strCorruptedMetadata), store)
      | some metadata =>
        match metadataReceipts metadata with
        | some receiptList =>
          processEnd (processReceipts strategy ar.imageFiles? now
            (store.map (fun r => r.id)) receiptList ⟨store, 0, 0, []⟩)
        | none =>
          (.error (importFailure (strErrorPrefix ++ strInvalidStructure) strInvalidStructure), store)

/-- The TimeClip range of representable JavaScript dates: ISO serialization
round-trips exactly on it. -/
def timeClipRange (t : Int) : Prop :=
  -8640000000000000 ≤ t ∧ t ≤ 8640000000000000

/-- Field-for-field equality of table rows except for the image path,
which the import rewrites. -/
def rowEqExceptImage (a b : Row) : Prop :=
  a.id = b.id ∧ a.store_name = b.store_name ∧ a.date = b.date ∧
  a.total_amount = b.total_amount ∧ a.tags = b.tags ∧ a.notes = b.notes ∧
  a.ocr_text = b.ocr_text ∧ a.created_at = b.created_at ∧
  a.updated_at = b.updated_at

mutual

/-- Every string unit of the value is below 256, so the printed JSON
survives the latin1 byte narrowing of the cipher transport. -/
def latin1V : JValue → Bool
  | .jnull => true
  | .jbool _ => true
  | .jnum _ => true
  | .jstr s => s.all (fun c => decide (c < 256))
  | .jarr vs => latin1L vs
  | .jobj kvs => latin1M kvs

/-- `latin1V` on array elements. -/
def latin1L : List JValue → Bool
  | [] => true
  | v :: vs => latin1V v && latin1L vs

/-- `latin1V` on object members, keys included. -/
def latin1M : List (Str × JValue) → Bool
  | [] => true
  | kv :: kvs => kv.1.all (fun c => decide (c < 256)) && latin1V kv.2 && latin1M kvs

end

/-- Every string field of a row stays below code unit 256. -/
def rowLatin1 (r : Row) : Bool :=
  r.id.all (fun c => decide (c < 256)) &&
  r.store_name.all (fun c => decide (c < 256)) &&
  r.tags.all (fun t => t.all (fun c => decide (c < 256))) &&
  (match r.notes with
    | none => true
    | some s => s.all (fun c => decide (c < 256))) &&
  r.ocr_text.all (fun c => decide (c < 256)) &&
  r.image_uri.all (fun c => decide (c < 256))

/-- The epoch instant as an ISO string, for concrete archive entries. -/
def strEpochIso : Str := [49, 57, 55, 48, 45, 48, 49, 45, 48, 49, 84, 48, 48, 58, 48, 48, 58, 48, 48, 46, 48, 48, 48, 90]

/-- A concrete archive entry with id abc. -/
def entryAbc : JValue :=
  .jobj [(strIdKey, .jstr [97, 98, 99]), (strStoreNameKey, .jstr [65]),
    (strDateKey, .jstr strEpochIso), (strTotalAmountKey, .jnum 1),
    (strTagsKey, .jarr []), (strNotesKey, .jnull),
    (strOcrTextKey, .jstr []), (strImageUriKey, .jstr [97, 46, 112, 110, 103]),
    (strCreatedAtKey, .jstr strEpochIso), (strUpdatedAtKey, .jstr strEpochIso)]

/-- A concrete archive entry with id bc — a suffix of abc. -/
def entryBc : JValue :=
  .jobj [(strIdKey, .jstr [98, 99]), (strStoreNameKey, .jstr [66]),
    (strDateKey, .jstr strEpochIso), (strTotalAmountKey, .jnum 1),
    (strTagsKey, .jarr []), (strNotesKey, .jnull),
    (strOcrTextKey, .jstr []), (strImageUriKey, .jstr [98, 46, 112, 110, 103]),
    (strCreatedAtKey, .jstr strEpochIso), (strUpdatedAtKey, .jstr strEpochIso)]

/-- The staged image file of record abc as import sees it: a full URI inside
the timestamped temp directory, import_1699999/images/abc.jpg. -/
def stagedAbcUri : Str := [105, 109, 112, 111, 114, 116, 95, 49, 54, 57, 57, 57, 57, 57, 47, 105, 109, 97, 103, 101, 115, 47, 97, 98, 99, 46, 106, 112, 103]

/-- The instant one second past the epoch, as an ISO string. -/
def strOneSecIso : Str := [49, 57, 55, 48, 45, 48, 49, 45, 48, 49, 84, 48, 48, 58, 48, 48, 58, 48, 49, 46, 48, 48, 48, 90]

/-- The instant two seconds past the epoch, as an ISO string. -/
def strTwoSecIso : Str := [49, 57, 55, 48, 45, 48, 49, 45, 48, 49, 84, 48, 48, 58, 48, 48, 58, 48, 50, 46, 48, 48, 48, 90]

/-- A stored row with id x, both timestamps at the epoch. -/
def rowX0 : Row := ⟨[120], [83], 0, 1, [], none, [], [105], 0, 0⟩

/-- An archive version of record x carrying later timestamps. -/
def recX1 : Receipt :=
  ⟨[120], [84], 0, 2, [], some none, [], [106], 1000, 2000⟩

/-- The archive entry of record x with createdAt one second and updatedAt
two seconds past the epoch. -/
def entryX1 : JValue :=
  .jobj [(strIdKey, .jstr [120]), (strStoreNameKey, .jstr [84]),
    (strDateKey, .jstr strEpochIso), (strTotalAmountKey, .jnum 2),
    (strTagsKey, .jarr []), (strNotesKey, .jnull),
    (strOcrTextKey, .jstr []), (strImageUriKey, .jstr [106]),
    (strCreatedAtKey, .jstr strOneSecIso), (strUpdatedAtKey, .jstr strTwoSecIso)]

/-- A concrete archive entry with id q1. -/
def entryQ1 : JValue :=
  .jobj [(strIdKey, .jstr [113, 49]), (strStoreNameKey, .jstr [81]),
    (strDateKey, .jstr strEpochIso), (strTotalAmountKey, .jnum 1),
    (strTagsKey, .jarr []), (strNotesKey, .jnull),
    (strOcrTextKey, .jstr []), (strImageUriKey, .jstr [113, 49, 46, 112, 110, 103]),
    (strCreatedAtKey, .jstr strEpochIso), (strUpdatedAtKey, .jstr strEpochIso)]

/-- A concrete archive entry with id q2, whose staged attachment is absent. -/
def entryQ2 : JValue :=
  .jobj [(strIdKey, .jstr [113, 50]), (strStoreNameKey, .jstr [82]),
    (strDateKey, .jstr strEpochIso), (strTotalAmountKey, .jnum 1),
    (strTagsKey, .jarr []), (strNotesKey, .jnull),
    (strOcrTextKey, .jstr []), (strImageUriKey, .jstr [113, 50, 46, 112, 110, 103]),
    (strCreatedAtKey, .jstr strEpochIso), (strUpdatedAtKey, .jstr strEpochIso)]

/-- The single staged image of the q archive: a file for record q1 only. -/
def stagedQ1Uri : Str := [116, 109, 112, 95, 56, 56, 49, 50, 47, 105, 109, 97, 103, 101, 115, 47, 113, 49, 46, 106, 112, 103]

/-- The range test is decidable, for concrete witnesses. -/
instance (t : Int) : Decidable (timeClipRange t) :=
  inferInstanceAs (Decidable (-8640000000000000 ≤ t ∧ t ≤ 8640000000000000))

/-- Row equality away from the image path is decidable. -/
instance (a b : Row) : Decidable (rowEqExceptImage a b) :=
  inferInstanceAs (Decidable (_ ∧ _ ∧ _ ∧ _ ∧ _ ∧ _ ∧ _ ∧ _ ∧ _))

/-- A row whose store name uses code unit 321, outside the latin1 range the
cipher transport preserves: the byte narrowing turns it into 65. -/
def rowHi : Row := ⟨[120], [321], 0, 1, [], none, [], [105], 0, 0⟩

/-- The same row with the store name the cipher transport actually
delivers. -/
def rowLo : Row := ⟨[120], [65], 0, 1, [], none, [], [105], 0, 0⟩

/-- The ciphertext-salt pair of the counterexample export. -/
def esHi : Str × Str :=
  encryptDataWithPassword (printJson (exportMetadata [mapRowToReceipt rowHi] 0))
    [112] [115]

/-- A code unit whose escape the byte narrowing commutes with: either
already a byte, or one whose narrowed form needs no escaping. -/
def safeUnit (c : Nat) : Bool :=
  decide (c < 256) ||
    (decide (32 ≤ c % 256) && !decide (c % 256 = 34) && !decide (c % 256 = 92))

mutual

/-- Narrowing every string unit of a JSON value to a byte. -/
def jmap256 : JValue → JValue
  | .jnull => .jnull
  | .jbool b => .jbool b
  | .jnum n => .jnum n
  | .jstr s => .jstr (s.map (fun c => c % 256))
  | .jarr vs => .jarr (jmapL256 vs)
  | .jobj kvs => .jobj (jmapM256 kvs)

/-- `jmap256` on array elements. -/
def jmapL256 : List JValue → List JValue
  | [] => []
  | v :: vs => jmap256 v :: jmapL256 vs

/-- `jmap256` on object members. -/
def jmapM256 : List (Str × JValue) → List (Str × JValue)
  | [] => []
  | kv :: kvs => (kv.1.map (fun c => c % 256), jmap256 kv.2) :: jmapM256 kvs

end

mutual

/-- Every string unit of the value is escape-safe under byte narrowing. -/
def jsafe : JValue → Bool
  | .jnull => true
  | .jbool _ => true
  | .jnum _ => true
  | .jstr s => s.all safeUnit
  | .jarr vs => jsafeL vs
  | .jobj kvs => jsafeM kvs

/-- `jsafe` on array elements. -/
def jsafeL : List JValue → Bool
  | [] => true
  | v :: vs => jsafe v && jsafeL vs

/-- `jsafe` on object members, keys included. -/
def jsafeM : List (Str × JValue) → Bool
  | [] => true
  | kv :: kvs => kv.1.all safeUnit && jsafe kv.2 && jsafeM kvs

end

end Paperkeep

namespace Paperkeep

/-! ## Theorems: base64, XOR and key-derivation groundwork. -/

/-- The base64 alphabet decodes its own encoding of any sextet. -/
theorem b64DecChar_b64Char {s : Nat} (h : s < 64) : b64DecChar (b64Char s) = some s := by
  unfold b64Char b64DecChar
  split_ifs <;> simp_all <;> omega

/-- The padding character `=` (code 61) is not in the base64 alphabet. -/
theorem b64DecChar_pad : b64DecChar 61 = none := by decide

/-- Decoding inverts encoding on genuine byte lists. -/
theorem base64Decode_base64Encode (bs : List Nat) (h : ∀ b ∈ bs, b < 256) :
    base64Decode (base64Encode bs) = bs := by
  induction bs using base64Encode.induct with
  | case1 b0 b1 b2 rest ih =>
    have hb0 : b0 < 256 := h b0 (by simp)
    have hb1 : b1 < 256 := h b1 (by simp)
    have hb2 : b2 < 256 := h b2 (by simp)
    have ih2 := ih (fun b hb => h b (by simp [hb]))
    rw [base64Encode]
    unfold base64Decode at ih2 ⊢
    rw [List.filterMap_cons_some (b64DecChar_b64Char (by omega)),
        List.filterMap_cons_some (b64DecChar_b64Char (by omega)),
        List.filterMap_cons_some (b64DecChar_b64Char (by omega)),
        List.filterMap_cons_some (b64DecChar_b64Char (by omega))]
    rw [sextetsToBytes]
    rw [List.cons_eq_cons, List.cons_eq_cons, List.cons_eq_cons]
    refine ⟨by omega, by omega, by omega, ih2⟩
  | case2 b0 b1 =>
    have hb0 : b0 < 256 := h b0 (by simp)
    have hb1 : b1 < 256 := h b1 (by simp)
    rw [base64Encode]
    unfold base64Decode
    rw [List.filterMap_cons_some (b64DecChar_b64Char (by omega)),
        List.filterMap_cons_some (b64DecChar_b64Char (by omega)),
        List.filterMap_cons_some (b64DecChar_b64Char (by omega)),
        List.filterMap_cons_none b64DecChar_pad, List.filterMap_nil]
    rw [sextetsToBytes]
    rw [List.cons_eq_cons, List.cons_eq_cons]
    exact ⟨by omega, by omega, rfl⟩
  | case3 b0 =>
    have hb0 : b0 < 256 := h b0 (by simp)
    rw [base64Encode]
    unfold base64Decode
    rw [List.filterMap_cons_some (b64DecChar_b64Char (by omega)),
        List.filterMap_cons_some (b64DecChar_b64Char (by omega)),
        List.filterMap_cons_none b64DecChar_pad,
        List.filterMap_cons_none b64DecChar_pad, List.filterMap_nil]
    rw [sextetsToBytes]
    rw [List.cons_eq_cons]
    exact ⟨by omega, rfl⟩
  | case4 => rfl

/-- Every cycled-key lookup is bounded when the key's characters are. -/
theorem keyCodeAt_lt (key : Str) (hk : ∀ c ∈ key, c < 256) (i : Nat) : keyCodeAt key i < 256 := by
  unfold keyCodeAt
  rcases key with _ | ⟨a, l⟩
  · simp
  · refine hk _ ?_
    have hlen : i % (a :: l).length < (a :: l).length := Nat.mod_lt _ (by simp)
    rw [List.getD_eq_getElem?_getD, List.getElem?_eq_getElem hlen, Option.getD_some]
    exact List.getElem_mem hlen

/-- XOR with a byte-sized key survives truncation to the low byte. -/
theorem xor_mod256 (c k : Nat) (hk : k < 256) : ((c ^^^ k) % 256) ^^^ k = c % 256 := by
  have h256 : (256 : Nat) = 2 ^ 8 := by norm_num
  apply Nat.eq_of_testBit_eq
  intro i
  rw [h256, Nat.testBit_xor, Nat.testBit_mod_two_pow, Nat.testBit_mod_two_pow, Nat.testBit_xor]
  by_cases hi : i < 8
  · simp [hi, Bool.xor_assoc]
  · have hkb : k.testBit i = false := by
      apply Nat.testBit_lt_two_pow
      calc k < 2 ^ 8 := by omega
        _ ≤ 2 ^ i := Nat.pow_le_pow_right (by norm_num) (by omega)
    simp [hi, hkb]

/-- Double application of the cycled XOR with a byte truncation in between
recovers the low bytes of the original text. -/
theorem xorEncryptAux_latin1 (key : Str) (hk : ∀ c ∈ key, c < 256) :
    ∀ (t : Str) (i : Nat),
      xorEncryptAux key i ((xorEncryptAux key i t).map (fun c => c % 256)) =
        t.map (fun c => c % 256) := by
  intro t
  induction t with
  | nil => intro i; rfl
  | cons c rest ih =>
    intro i
    simp only [xorEncryptAux, List.map_cons]
    rw [xor_mod256 c (keyCodeAt key i) (keyCodeAt_lt key hk i)]
    rw [ih (i + 1)]

/-- Latin1 bytes are bytes. -/
theorem latin1Bytes_lt (s : Str) : ∀ b ∈ latin1Bytes s, b < 256 := by
  intro b hb
  rcases List.mem_map.mp hb with ⟨c, _, rfl⟩
  exact Nat.mod_lt _ (by norm_num)

/-- Hex digits are hex digits, and ASCII. -/
theorem hexDigit_spec (n : Nat) : (48 ≤ hexDigit n ∧ hexDigit n ≤ 57) ∨
    (97 ≤ hexDigit n ∧ hexDigit n ≤ 102) := by
  unfold hexDigit
  have : n % 16 < 16 := Nat.mod_lt _ (by norm_num)
  split <;> omega

/-- Every character of a digest hex string is an ASCII hex digit. -/
theorem sha256HexString_chars (s : Str) :
    ∀ c ∈ sha256HexString s, (48 ≤ c ∧ c ≤ 57) ∨ (97 ≤ c ∧ c ≤ 102) := by
  intro c hc
  rcases List.mem_flatMap.mp hc with ⟨b, _, hcb⟩
  unfold hexByte at hcb
  simp only [List.mem_cons, List.not_mem_nil, or_false] at hcb
  rcases hcb with rfl | rfl
  · exact hexDigit_spec (b / 16)
  · exact hexDigit_spec b

/-- A digest hex string has exactly 64 characters. -/
theorem sha256HexString_length (s : Str) : (sha256HexString s).length = 64 := by
  unfold sha256HexString bytesOfHash wordBytes
  rw [List.length_flatMap]
  simp [hexByte]

/-- Digests are digest-shaped. -/
theorem digestLike_sha256HexString (s : Str) : digestLike (sha256HexString s) :=
  ⟨sha256HexString_length s, sha256HexString_chars s⟩

/-- The iterated-hash loop preserves digest shape. -/
theorem hashLoop_digestLike : ∀ (n : Nat) (s : Str), digestLike s → digestLike (hashLoop n s)
  | 0, _, h => h
  | n + 1, s, _ => hashLoop_digestLike n (sha256HexString s) (digestLike_sha256HexString s)

/-- The loop is iteration of the digest. -/
theorem hashLoop_eq_iterate : ∀ (n : Nat) (s : Str), hashLoop n s = sha256HexString^[n] s := by
  intro n
  induction n with
  | zero => intro s; rfl
  | succ m ih =>
    intro s
    rw [hashLoop, ih, Function.iterate_succ_apply]

/-- The derived key is digest-shaped: 64 ASCII hex characters. -/
theorem deriveKey_digestLike (mk salt : Str) : digestLike (deriveKey mk salt) := by
  unfold deriveKey
  have h := hashLoop_digestLike 9999 (sha256HexString (mk ++ salt))
    (digestLike_sha256HexString (mk ++ salt))
  rw [show (64 : Nat) = (hashLoop 9999 (sha256HexString (mk ++ salt))).length from h.1.symm,
    List.take_length]
  exact h

/-- Characters of the derived key are below 256 (they are ASCII hex). -/
theorem deriveKey_chars_lt (mk salt : Str) : ∀ c ∈ deriveKey mk salt, c < 256 := by
  intro c hc
  rcases (deriveKey_digestLike mk salt).2 c hc with h | h <;> omega

/-- Decryption of an encryption recovers exactly the low byte of every UTF-16
code unit of the plaintext: the latin1 `Buffer` conversion inside
`encryptDataWithPassword` truncates each XOR-ed code unit to one byte. -/
theorem decrypt_encrypt_mod (data password seed : Str) :
    decryptDataWithPassword (encryptDataWithPassword data password seed).1 password
      (encryptDataWithPassword data password seed).2 = data.map (fun c => c % 256) := by
  unfold decryptDataWithPassword encryptDataWithPassword
  simp only []
  rw [base64Decode_base64Encode _ (latin1Bytes_lt _)]
  unfold latin1Bytes xorEncrypt
  exact xorEncryptAux_latin1 _ (deriveKey_chars_lt password (sha256HexString seed)) data 0

end Paperkeep

namespace Paperkeep

/-! ## Claims C2 and C8. -/

/-- C2 (corrected): for every plaintext whose UTF-16 code units are all below
256 (i.e. any latin1-representable plaintext), every password, and every salt
the source can generate (the digest of its entropy seed),
`decryptDataWithPassword` applied to the ciphertext produced by
`encryptDataWithPassword` under the same password and salt returns the
original plaintext exactly.  (The unrestricted claim is false: the latin1
`Buffer` conversion truncates XOR-ed code units above 255 — see the
counterexample.) -/
theorem c2_encrypt_decrypt_roundtrip (data password seed : Str)
    (h : ∀ c ∈ data, c < 256) :
    decryptDataWithPassword (encryptDataWithPassword data password seed).1 password
      (encryptDataWithPassword data password seed).2 = data := by
  rw [decrypt_encrypt_mod]
  have : data.map (fun c => c % 256) = data.map id :=
    List.map_congr_left fun c hc => Nat.mod_eq_of_lt (h c hc)
  rw [this, List.map_id]

/-- Witness for C2 at the concrete plaintext "hi", password "p", seed "s". -/
theorem c2_encrypt_decrypt_roundtrip_witness :
    (∀ c ∈ ([104, 105] : Str), c < 256) ∧
      decryptDataWithPassword (encryptDataWithPassword [104, 105] [112] [115]).1 [112]
        (encryptDataWithPassword [104, 105] [112] [115]).2 = [104, 105] :=
  ⟨by decide, c2_encrypt_decrypt_roundtrip [104, 105] [112] [115] (by decide)⟩

/-- C2 counterexample: the claim as stated fails for the one-character
plaintext U+0100 (code unit 256): the round trip returns code unit 0 instead,
because the latin1 conversion inside encryption drops the high byte. -/
theorem c2_counterexample :
    decryptDataWithPassword (encryptDataWithPassword [256] [112] [115]).1 [112]
      (encryptDataWithPassword [256] [112] [115]).2 ≠ [256] := by
  rw [decrypt_encrypt_mod]
  decide

/-- C8 (confirmed): `deriveKey` is deterministic (it is a pure function, and
equal inputs give equal outputs), equals the 10000-fold iterated SHA-256 hex
digest of `secret ++ salt` (one application to the seed, then 9999
re-hashings of the previous digest), and always returns a 64-hex-character
(256-bit) key; it has no error conditions (it is total by construction). -/
theorem c8_deriveKey_spec (s salt : Str) :
    deriveKey s salt = sha256HexString^[10000] (s ++ salt) ∧
    (deriveKey s salt).length = 64 ∧
    (∀ c ∈ deriveKey s salt, isHexDigitCode c = true) ∧
    (∀ s2 salt2, s = s2 → salt = salt2 → deriveKey s salt = deriveKey s2 salt2) := by
  have hiter : deriveKey s salt = sha256HexString^[10000] (s ++ salt) := by
    unfold deriveKey
    rw [hashLoop_eq_iterate, ← Function.iterate_succ_apply]
    have hd : digestLike (sha256HexString^[9999 + 1] (s ++ salt)) := by
      rw [Function.iterate_succ_apply']
      exact digestLike_sha256HexString _
    rw [show (64 : Nat) = (sha256HexString^[9999 + 1] (s ++ salt)).length from hd.1.symm,
      List.take_length]
  refine ⟨hiter, (deriveKey_digestLike s salt).1, ?_, ?_⟩
  · intro c hc
    have := (deriveKey_digestLike s salt).2 c hc
    unfold isHexDigitCode
    rcases this with h | h <;> simp <;> omega
  · intro s2 salt2 h1 h2
    rw [h1, h2]

/-- Witness for C8 at secret "a" and salt "b". -/
theorem c8_deriveKey_spec_witness :
    deriveKey [97] [98] = sha256HexString^[10000] ([97] ++ [98]) ∧
      (deriveKey [97] [98]).length = 64 ∧
      (∀ c ∈ deriveKey [97] [98], isHexDigitCode c = true) ∧
      (∀ s2 salt2, [97] = s2 → [98] = salt2 → deriveKey [97] [98] = deriveKey s2 salt2) :=
  c8_deriveKey_spec [97] [98]

end Paperkeep

namespace Paperkeep

/-! ## Theorems: calendar and ISO date round trip. -/

theorem findYoe_le (doe : Nat) : ∀ y, findYoe doe y ≤ y := by
  intro y
  induction y with
  | zero => simp [findYoe]
  | succ n ih =>
    rw [findYoe]
    split
    · exact Nat.le_refl _
    · exact Nat.le_succ_of_le ih

theorem findYoe_start_le (doe : Nat) : ∀ y, yearStartS (findYoe doe y) ≤ doe := by
  intro y
  induction y with
  | zero => simp [findYoe, yearStartS]
  | succ n ih =>
    rw [findYoe]
    split
    · assumption
    · exact ih

theorem findYoe_maximal (doe : Nat) : ∀ y z, z ≤ y → yearStartS z ≤ doe → z ≤ findYoe doe y := by
  intro y
  induction y with
  | zero => intro z hz _; omega
  | succ n ih =>
    intro z hz hs
    rw [findYoe]
    split
    · exact hz
    · rename_i hns
      rcases Nat.lt_or_ge z (n + 1) with h | h
      · exact ih z (by omega) hs
      · exfalso; have : z = n + 1 := by omega
        subst this; exact hns hs

theorem findMp_le (doy : Nat) : ∀ y, findMp doy y ≤ y := by
  intro y
  induction y with
  | zero => simp [findMp]
  | succ n ih =>
    rw [findMp]
    split
    · exact Nat.le_refl _
    · exact Nat.le_succ_of_le ih

theorem findMp_start_le (doy : Nat) : ∀ y, monthStartS (findMp doy y) ≤ doy := by
  intro y
  induction y with
  | zero => simp [findMp, monthStartS]
  | succ n ih =>
    rw [findMp]
    split
    · assumption
    · exact ih

theorem findMp_maximal (doy : Nat) : ∀ y z, z ≤ y → monthStartS z ≤ doy → z ≤ findMp doy y := by
  intro y
  induction y with
  | zero => intro z hz _; omega
  | succ n ih =>
    intro z hz hs
    rw [findMp]
    split
    · exact hz
    · rename_i hns
      rcases Nat.lt_or_ge z (n + 1) with h | h
      · exact ih z (by omega) hs
      · exfalso; have : z = n + 1 := by omega
        subst this; exact hns hs

/-- The year search stays within the era. -/
theorem yoeOf_le (doe : Nat) : yoeOf doe ≤ 399 := findYoe_le doe 399

/-- The found year starts on or before the day. -/
theorem yoeOf_start_le (doe : Nat) : yearStartS (yoeOf doe) ≤ doe := findYoe_start_le doe 399

/-- The found year is the greatest with that property. -/
theorem yoeOf_maximal (doe : Nat) {z : Nat} (hz : z ≤ 399) (hs : yearStartS z ≤ doe) :
    z ≤ yoeOf doe := findYoe_maximal doe 399 z hz hs

/-- The day lies before the start of the next year (day-of-era version for
the last year of the era). -/
theorem yoeOf_upper (doe : Nat) (h : doe < 146097) :
    doe - yearStartS (yoeOf doe) <
      (if yoeOf doe = 399 then 146097 else yearStartS (yoeOf doe + 1)) - yearStartS (yoeOf doe) := by
  have hle := yoeOf_le doe
  have hstart := yoeOf_start_le doe
  split
  · omega
  · rename_i hne
    by_cases hc : yearStartS (yoeOf doe + 1) ≤ doe
    · exfalso
      have := yoeOf_maximal doe (z := yoeOf doe + 1) (by omega) hc
      omega
    · omega

/-- The month search stays within the year. -/
theorem mpOf_le (doy : Nat) : mpOf doy ≤ 11 := findMp_le doy 11

/-- The found month starts on or before the day. -/
theorem mpOf_start_le (doy : Nat) : monthStartS (mpOf doy) ≤ doy := findMp_start_le doy 11

/-- The day lies before the start of the next month (for months before
February). -/
theorem mpOf_upper (doy : Nat) (hlt : mpOf doy < 11) : doy < monthStartS (mpOf doy + 1) := by
  by_cases hc : monthStartS (mpOf doy + 1) ≤ doy
  · exfalso
    have := findMp_maximal doy 11 (mpOf doy + 1) (by omega) hc
    unfold mpOf at this
    omega
  · omega

/-- Any month is at most 31 days. -/
theorem daysInMonth_le (y : Int) (m : Nat) : daysInMonth y m ≤ 31 := by
  unfold daysInMonth
  split_ifs <;> omega

/-- Dividing a year written as `era * 400 + x` back out recovers the era and
the year-of-era. -/
theorem eraYoe_div (era : Int) (x : Nat) (hx : x < 400) :
    (era * 400 + (x : Int)) / 400 = era ∧ ((era * 400 + (x : Int)) % 400).toNat = x := by
  omega

/-- Leap years repeat with period 400: leapness of `era * 400 + (x + 1)`
matches the year-of-era pattern. -/
theorem isLeapY_shift (era : Int) (x : Nat) :
    isLeapY (era * 400 + (x : Int) + 1) = true ↔
      (((x + 1) % 4 = 0 ∧ ¬(x + 1) % 100 = 0) ∨ (x + 1) % 400 = 0) := by
  unfold isLeapY
  rw [decide_eq_true_eq]
  omega

/-- Length of internal year `x` (for `x < 399`) when the following civil year
pattern is leap. -/
theorem yearLen_leap_pos (x : Nat) (hx : x < 399)
    (h : ((x + 1) % 4 = 0 ∧ ¬(x + 1) % 100 = 0) ∨ (x + 1) % 400 = 0) :
    yearStartS (x + 1) - yearStartS x = 366 := by
  unfold yearStartS
  omega

/-- Length of internal year `x` (for `x < 399`) when the following civil year
pattern is not leap. -/
theorem yearLen_leap_neg (x : Nat) (hx : x < 399)
    (h : ¬((((x + 1) % 4 = 0 ∧ ¬(x + 1) % 100 = 0) ∨ (x + 1) % 400 = 0))) :
    yearStartS (x + 1) - yearStartS x = 365 := by
  unfold yearStartS
  omega

/-- Internal months other than February are never shorter than the distance
to the next internal month start. -/
theorem monthLen_fits (y : Int) (mp : Nat) (h : mp ≤ 10) :
    monthStartS (mp + 1) - monthStartS mp ≤ daysInMonth y (if mp < 10 then mp + 3 else mp - 9) := by
  interval_cases mp <;>
    · unfold monthStartS daysInMonth
      split_ifs <;> omega

/-- Core inversion: extracting the calendar date of day-of-era `doe` within
era `era` and rebuilding the epoch day via `daysFromCivil` recovers
`era * 146097 + doe - 719468`, with every component in its civil range. -/
theorem roundtrip_core (era : Int) (doe yoe doy mp m d : Nat) (y : Int)
    (hdoe : doe < 146097)
    (hyoe : yoe = yoeOf doe) (hdoy : doy = doe - yearStartS yoe)
    (hmp : mp = mpOf doy)
    (hm : m = if mp < 10 then mp + 3 else mp - 9)
    (hd : d = doy - monthStartS mp + 1)
    (hy : y = era * 400 + (yoe : Int) + (if m ≤ 2 then 1 else 0)) :
    1 ≤ m ∧ m ≤ 12 ∧ 1 ≤ d ∧ d ≤ daysInMonth y m ∧
      daysFromCivil y m d = era * 146097 + (doe : Int) - 719468 := by
  have hyoele : yoe ≤ 399 := hyoe ▸ yoeOf_le doe
  have hyoestart : yearStartS yoe ≤ doe := hyoe ▸ yoeOf_start_le doe
  have hylen : (yoe = 399 ∧ doy < 146097 - yearStartS yoe) ∨
      (yoe < 399 ∧ doy < yearStartS (yoe + 1) - yearStartS yoe) := by
    have h := yoeOf_upper doe hdoe
    rw [← hyoe] at h
    rw [hdoy]
    split at h
    · left; constructor <;> omega
    · right; constructor <;> omega
  have hdoy365 : doy ≤ 365 := by
    have h365 : yearStartS (yoe + 1) - yearStartS yoe ≤ 366 := by
      unfold yearStartS; omega
    have h399 : yoe = 399 → (146097 : Nat) - yearStartS yoe = 366 := by
      intro h; subst h; unfold yearStartS; omega
    rcases hylen with ⟨h1, h2⟩ | ⟨h1, h2⟩
    · have := h399 h1; omega
    · omega
  have hmple : mp ≤ 11 := hmp ▸ mpOf_le doy
  have hmpstart : monthStartS mp ≤ doy := hmp ▸ mpOf_start_le doy
  have hmpupper : mp < 11 → doy < monthStartS (mp + 1) := fun hlt =>
    hmp ▸ mpOf_upper doy (hmp ▸ hlt)
  -- range of the civil month
  have hm112 : 1 ≤ m ∧ m ≤ 12 := by
    rw [hm]; split <;> omega
  -- the year adjustment added in `civilFromDays` is subtracted back first
  have hyy : y - (if m ≤ 2 then (1 : Int) else 0) = era * 400 + (yoe : Int) := by
    rw [hy]; ring
  -- the internal month is recovered from the civil month
  have hmp2 : (if m > 2 then m - 3 else m + 9) = mp := by
    rcases Nat.lt_or_ge mp 10 with hc | hc
    · have hmval : m = mp + 3 := by rw [hm, if_pos hc]
      rw [hmval, if_pos (by omega)]
      omega
    · have hmval : m = mp - 9 := by rw [hm, if_neg (by omega)]
      rw [hmval, if_neg (by omega)]
      omega
  -- reconstruction of the epoch day
  have hrecon : daysFromCivil y m d = era * 146097 + (doe : Int) - 719468 := by
    unfold daysFromCivil
    simp only [hyy, hmp2, (eraYoe_div era yoe (by omega)).1, (eraYoe_div era yoe (by omega)).2]
    have : yearStartS yoe + (monthStartS mp + (d - 1)) = doe := by omega
    rw [this]
  refine ⟨hm112.1, hm112.2, by omega, ?_, hrecon⟩
  -- the day fits in its civil month
  by_cases hfeb : mp = 11
  · -- February: length depends on the leap rule for the adjusted year
    subst hfeb
    have hm2 : m = 2 := by rw [hm]; norm_num
    have hys399 : yearStartS 399 = 145731 := by unfold yearStartS; norm_num
    have hms : monthStartS 11 = 337 := by unfold monthStartS; norm_num
    have hy1 : y = era * 400 + (yoe : Int) + 1 := by rw [hy, hm2]; norm_num
    by_cases hlp : (((yoe + 1) % 4 = 0 ∧ ¬(yoe + 1) % 100 = 0) ∨ (yoe + 1) % 400 = 0)
    · have hleap : isLeapY y = true := by rw [hy1]; exact (isLeapY_shift era yoe).mpr hlp
      have hdim : daysInMonth y m = 29 := by
        rw [hm2]; unfold daysInMonth; rw [hleap]; norm_num
      rw [hdim]
      rcases hylen with ⟨h1, h2⟩ | ⟨h1, h2⟩
      · subst h1; omega
      · have := yearLen_leap_pos yoe h1 hlp
        omega
    · have hleap : isLeapY y = false := by
        rw [hy1]
        rcases Bool.eq_false_or_eq_true (isLeapY (era * 400 + (yoe : Int) + 1)) with h | h
        · exact absurd ((isLeapY_shift era yoe).mp h) hlp
        · exact h
      have hdim : daysInMonth y m = 28 := by
        rw [hm2]; unfold daysInMonth; rw [hleap]; norm_num
      rw [hdim]
      rcases hylen with ⟨h1, h2⟩ | ⟨h1, h2⟩
      · exfalso; exact hlp (by omega)
      · have := yearLen_leap_neg yoe h1 hlp
        omega

  · -- other months: the day is below the next month start, which fits
    have hup : doy < monthStartS (mp + 1) := hmpupper (by omega)
    have := monthLen_fits y mp (by omega)
    rw [← hm] at this
    omega

/-- Zero-padded digits are digits. -/
theorem isDigit_pad (a : Nat) : isDigit (48 + a % 10) = true := by
  simp only [isDigit, Bool.and_eq_true, decide_eq_true_eq]
  omega

/-- Parsing the printed tail (`-MM-DDTHH:mm:ss.sssZ`) recovers the timestamp. -/
theorem parseIsoTail_print (y : Int) (m d hh mi ss ms : Nat) (t : Int)
    (hm1 : 1 ≤ m) (hm2 : m ≤ 12) (hd1 : 1 ≤ d) (hd2 : d ≤ daysInMonth y m)
    (hhh : hh ≤ 23) (hmi : mi ≤ 59) (hss : ss ≤ 59) (hms : ms ≤ 999)
    (ht : t = daysFromCivil y m d * 86400000 +
      ((hh * 3600000 + mi * 60000 + ss * 1000 + ms : Nat) : Int))
    (htr1 : -8640000000000000 ≤ t) (htr2 : t ≤ 8640000000000000) :
    parseIsoTail y
      ([45] ++ pad2 m ++ [45] ++ pad2 d ++ [84] ++ pad2 hh ++ [58] ++ pad2 mi ++ [58] ++
        pad2 ss ++ [46] ++ pad3 ms ++ [90]) = some t := by
  simp only [pad2, pad3, List.cons_append, List.nil_append]
  simp only [parseIsoTail]
  rw [if_pos ⟨trivial, trivial, trivial, trivial, trivial, trivial, trivial,
    isDigit_pad _, isDigit_pad _, isDigit_pad _, isDigit_pad _, isDigit_pad _, isDigit_pad _,
    isDigit_pad _, isDigit_pad _, isDigit_pad _, isDigit_pad _, isDigit_pad _, isDigit_pad _,
    isDigit_pad _⟩]
  have hd31 : daysInMonth y m ≤ 31 := daysInMonth_le y m
  have hm' : digitVal (48 + m / 10 % 10) * 10 + digitVal (48 + m % 10) = m := by
    simp only [digitVal]; omega
  have hd' : digitVal (48 + d / 10 % 10) * 10 + digitVal (48 + d % 10) = d := by
    simp only [digitVal]; omega
  have hhh' : digitVal (48 + hh / 10 % 10) * 10 + digitVal (48 + hh % 10) = hh := by
    simp only [digitVal]; omega
  have hmi' : digitVal (48 + mi / 10 % 10) * 10 + digitVal (48 + mi % 10) = mi := by
    simp only [digitVal]; omega
  have hss' : digitVal (48 + ss / 10 % 10) * 10 + digitVal (48 + ss % 10) = ss := by
    simp only [digitVal]; omega
  have hms' : digitVal (48 + ms / 100 % 10) * 100 + digitVal (48 + ms / 10 % 10) * 10 +
      digitVal (48 + ms % 10) = ms := by
    simp only [digitVal]; omega
  rw [hm', hd', hhh', hmi', hss', hms']
  rw [if_pos ⟨hm1, hm2, hd1, hd2, Or.inl hhh, hmi, hss⟩]
  rw [← ht]
  rw [if_pos ⟨htr1, htr2⟩]

set_option maxHeartbeats 3200000 in
/-- Parsing the full printed ISO string recovers the timestamp. -/
theorem parseJsDate_printIsoOf (y : Int) (m d hh mi ss ms : Nat) (t : Int)
    (hm1 : 1 ≤ m) (hm2 : m ≤ 12) (hd1 : 1 ≤ d) (hd2 : d ≤ daysInMonth y m)
    (hhh : hh ≤ 23) (hmi : mi ≤ 59) (hss : ss ≤ 59) (hms : ms ≤ 999)
    (hy1 : -1000000 < y) (hy2 : y < 1000000)
    (ht : t = daysFromCivil y m d * 86400000 +
      ((hh * 3600000 + mi * 60000 + ss * 1000 + ms : Nat) : Int))
    (htr1 : -8640000000000000 ≤ t) (htr2 : t ≤ 8640000000000000) :
    parseJsDate (printIsoOf y m d hh mi ss ms) = some t := by
  have htail := parseIsoTail_print y m d hh mi ss ms t hm1 hm2 hd1 hd2 hhh hmi hss hms ht htr1 htr2
  simp only [pad2, pad3, List.cons_append, List.nil_append] at htail
  unfold printIsoOf yearStr
  by_cases hc1 : 0 ≤ y ∧ y ≤ 9999
  · rw [if_pos hc1]
    simp only [pad4, pad2, pad3, List.cons_append, List.nil_append]
    simp only [parseJsDate]
    rw [if_neg (by omega), if_neg (by omega)]
    simp only [parse4Digit]
    rw [if_pos ⟨isDigit_pad _, isDigit_pad _, isDigit_pad _, isDigit_pad _⟩]
    have hyv : ((digitVal (48 + y.toNat / 1000 % 10) * 1000 + digitVal (48 + y.toNat / 100 % 10) * 100 +
        digitVal (48 + y.toNat / 10 % 10) * 10 + digitVal (48 + y.toNat % 10) : Nat) : Int) = y := by
      simp only [digitVal]; omega
    rw [hyv]
    exact htail
  · by_cases hc2 : y < 0
    · rw [if_neg hc1, if_pos hc2]
      simp only [pad6, pad2, pad3, List.cons_append, List.nil_append]
      simp only [parseJsDate]
      rw [if_neg (by omega), if_pos trivial]
      simp only [parseExpandedYear]
      rw [if_pos ⟨isDigit_pad _, isDigit_pad _, isDigit_pad _, isDigit_pad _, isDigit_pad _,
        isDigit_pad _⟩]
      rw [if_neg (by
        simp only [digitVal, not_and]
        intro _
        omega)]
      have hyv : (-1 : Int) * ((digitVal (48 + (-y).toNat / 100000 % 10) * 100000 +
          digitVal (48 + (-y).toNat / 10000 % 10) * 10000 +
          digitVal (48 + (-y).toNat / 1000 % 10) * 1000 +
          digitVal (48 + (-y).toNat / 100 % 10) * 100 +
          digitVal (48 + (-y).toNat / 10 % 10) * 10 + digitVal (48 + (-y).toNat % 10) : Nat) : Int)
          = y := by
        simp only [digitVal]; omega
      rw [hyv]
      exact htail
    · rw [if_neg hc1, if_neg hc2]
      simp only [pad6, pad2, pad3, List.cons_append, List.nil_append]
      simp only [parseJsDate]
      rw [if_pos trivial]
      simp only [parseExpandedYear]
      rw [if_pos ⟨isDigit_pad _, isDigit_pad _, isDigit_pad _, isDigit_pad _, isDigit_pad _,
        isDigit_pad _⟩]
      rw [if_neg (by
        simp only [not_and]
        intro hcontra
        exact absurd hcontra (by omega))]
      have hyv : (1 : Int) * ((digitVal (48 + y.toNat / 100000 % 10) * 100000 +
          digitVal (48 + y.toNat / 10000 % 10) * 10000 +
          digitVal (48 + y.toNat / 1000 % 10) * 1000 +
          digitVal (48 + y.toNat / 100 % 10) * 100 +
          digitVal (48 + y.toNat / 10 % 10) * 10 + digitVal (48 + y.toNat % 10) : Nat) : Int)
          = y := by
        simp only [digitVal]; omega
      rw [hyv]
      exact htail

/-- Specification of `civilFromDays`: components are in civil range and
`daysFromCivil` inverts it; the year stays within 400 years of the era
base. -/
theorem civilFromDays_spec (z : Int) :
    1 ≤ (civilFromDays z).2.1 ∧ (civilFromDays z).2.1 ≤ 12 ∧
    1 ≤ (civilFromDays z).2.2 ∧
    (civilFromDays z).2.2 ≤ daysInMonth (civilFromDays z).1 (civilFromDays z).2.1 ∧
    daysFromCivil (civilFromDays z).1 (civilFromDays z).2.1 (civilFromDays z).2.2 = z ∧
    400 * ((z + 719468) / 146097) ≤ (civilFromDays z).1 ∧
    (civilFromDays z).1 ≤ 400 * ((z + 719468) / 146097) + 400 := by
  have hdoe : ((z + 719468) % 146097).toNat < 146097 := by omega
  obtain ⟨h1, h2, h3, h4, h5⟩ := roundtrip_core ((z + 719468) / 146097)
    (((z + 719468) % 146097).toNat)
    _ _ _ _ _ _ hdoe rfl rfl rfl rfl rfl rfl
  have hyoeb := yoeOf_le (((z + 719468) % 146097).toNat)
  simp only [civilFromDays]
  refine ⟨h1, h2, h3, h4, ?_, ?_, ?_⟩
  · rw [h5]; omega
  · split <;> omega
  · split <;> omega

/-- Round trip of the JavaScript date serialization: parsing the ISO-8601
rendering of any representable timestamp recovers it exactly. -/
theorem parseJsDate_toISOString (t : Int)
    (h1 : -8640000000000000 ≤ t) (h2 : t ≤ 8640000000000000) :
    parseJsDate (toISOString t) = some t := by
  obtain ⟨hm1, hm2, hd1, hd2, hrec, hy1, hy2⟩ := civilFromDays_spec (t / 86400000)
  unfold toISOString
  apply parseJsDate_printIsoOf _ _ _ _ _ _ _ _ hm1 hm2 hd1 hd2 (by omega) (by omega) (by omega)
    (by omega) (by omega) (by omega) _ h1 h2
  rw [hrec]
  omega

/-! ## Theorems: JSON printer and parser. -/

/-! Whitespace and primitive-token lemmas. -/

theorem skipWs_lit (c : Nat) (h : ¬(c = 32 ∨ c = 9 ∨ c = 10 ∨ c = 13)) (s : Str) :
    skipWs (c :: s) = c :: s := by
  rw [skipWs, if_neg h]

theorem skipWs_lf (s : Str) : skipWs (10 :: s) = skipWs s := by
  rw [skipWs, if_pos (by omega)]

theorem skipWs_sp (s : Str) : skipWs (32 :: s) = skipWs s := by
  rw [skipWs, if_pos (by omega)]

theorem skipWs_spaces (k : Nat) (s : Str) : skipWs (spaces k ++ s) = skipWs s := by
  induction k with
  | zero => rfl
  | succ n ih =>
    show skipWs (List.replicate (n + 1) 32 ++ s) = skipWs s
    rw [List.replicate_succ, List.cons_append, skipWs_sp]
    exact ih

theorem digitsVal_append (a : Str) (d : Nat) :
    digitsVal (a ++ [d]) = digitsVal a * 10 + (d - 48) := by
  unfold digitsVal
  rw [List.foldl_append]
  rfl

theorem natDigitsAux_digits : ∀ fuel n, ∀ c ∈ natDigitsAux fuel n, 48 ≤ c ∧ c ≤ 57 := by
  intro fuel
  induction fuel with
  | zero => intro n c hc; cases hc
  | succ f ih =>
    intro n c hc
    rw [natDigitsAux] at hc
    split at hc
    · cases hc
    · rcases List.mem_append.mp hc with h | h
      · exact ih _ c h
      · simp only [List.mem_singleton] at h
        omega

theorem natDigitsAux_val : ∀ fuel n, n ≤ fuel → digitsVal (natDigitsAux fuel n) = n := by
  intro fuel
  induction fuel with
  | zero => intro n h; interval_cases n; rfl
  | succ f ih =>
    intro n h
    rw [natDigitsAux]
    split
    · subst ‹n = 0›; rfl
    · rw [digitsVal_append, ih (n / 10) (by omega)]
      omega

theorem printNat_ne_nil (n : Nat) : printNat n ≠ [] := by
  unfold printNat
  split
  · simp
  · rename_i hn
    rcases n with _ | m
    · exact absurd rfl hn
    · rw [natDigitsAux, if_neg hn]
      simp

theorem printNat_digits (n : Nat) : ∀ c ∈ printNat n, 48 ≤ c ∧ c ≤ 57 := by
  unfold printNat
  split
  · intro c hc; simp only [List.mem_singleton] at hc; omega
  · exact natDigitsAux_digits n n

theorem printNat_val (n : Nat) : digitsVal (printNat n) = n := by
  unfold printNat
  split
  · subst ‹n = 0›; rfl
  · exact natDigitsAux_val n n (Nat.le_refl n)

theorem takeDigits_spec (ds : Str) (rest : Str) (hds : ∀ c ∈ ds, 48 ≤ c ∧ c ≤ 57)
    (hrest : nonDigitHead rest) : takeDigits (ds ++ rest) = (ds, rest) := by
  induction ds with
  | nil =>
    rcases rest with _ | ⟨c, t⟩
    · rfl
    · rw [List.nil_append, takeDigits]
      rw [if_neg]
      simp only [isDigit, Bool.and_eq_true, decide_eq_true_eq]
      unfold nonDigitHead at hrest
      omega
  | cons c t ih =>
    rw [List.cons_append, takeDigits, if_pos]
    · rw [ih (fun x hx => hds x (by simp [hx]))]
    · have := hds c (by simp)
      simp only [isDigit, Bool.and_eq_true, decide_eq_true_eq]
      omega

theorem parseNumber_printInt (i : Int) (rest : Str) (hrest : nonDigitHead rest) :
    parseNumber (printInt i ++ rest) = some (i, rest) := by
  unfold printInt
  split
  · rename_i hneg
    rw [List.cons_append, parseNumber, if_pos rfl]
    simp only [takeDigits_spec (printNat (-i).toNat) rest (printNat_digits _) hrest]
    rw [if_neg (printNat_ne_nil _)]
    rw [printNat_val]
    have : -((((-i).toNat : Nat) : Int)) = i := by omega
    rw [this]
  · rename_i hpos
    have hne := printNat_ne_nil i.toNat
    rcases hpn : printNat i.toNat with _ | ⟨c, t⟩
    · exact absurd hpn hne
    · have hdig : 48 ≤ c ∧ c ≤ 57 := printNat_digits i.toNat c (by rw [hpn]; simp)
      rw [List.cons_append, parseNumber, if_neg (by omega)]
      rw [show c :: (t ++ rest) = (c :: t) ++ rest from rfl, ← hpn]
      simp only [takeDigits_spec (printNat i.toNat) rest (printNat_digits _) hrest]
      rw [if_neg hne, printNat_val]
      have : ((i.toNat : Nat) : Int) = i := by omega
      rw [this]

theorem hexVal_hexDigit (n : Nat) : hexVal (hexDigit n) = some (n % 16) := by
  unfold hexVal hexDigit
  have : n % 16 < 16 := Nat.mod_lt _ (by norm_num)
  split_ifs <;> simp_all <;> omega

/-- Escaped strings are at least as long as their sources. -/
theorem escapeStr_length (s : Str) : s.length ≤ (escapeStr s).length := by
  induction s with
  | nil => simp [escapeStr]
  | cons c t ih =>
    show (c :: t).length ≤ (escapeChar c ++ escapeStr t).length
    rw [List.length_append, List.length_cons]
    have : 1 ≤ (escapeChar c).length := by
      unfold escapeChar
      split_ifs <;> simp
    omega

/-- Parsing the escaped body of a printed string recovers it. -/
theorem parseStringBody_escape (s : Str) : ∀ (fuel : Nat) (rest : Str), s.length + 1 ≤ fuel →
    parseStringBody fuel (escapeStr s ++ 34 :: rest) = some (s, rest) := by
  induction s with
  | nil =>
    intro fuel rest hfuel
    rcases fuel with _ | f
    · omega
    · show parseStringBody (f + 1) (34 :: rest) = some ([], rest)
      rw [parseStringBody, if_pos rfl]
  | cons c t ih =>
    intro fuel rest hfuel
    rcases fuel with _ | f
    · omega
    have iht := ih f rest (by simp only [List.length_cons] at hfuel; omega)
    show parseStringBody (f + 1) (escapeChar c ++ escapeStr t ++ 34 :: rest) = some (c :: t, rest)
    rw [List.append_assoc]
    unfold escapeChar
    by_cases h34 : c = 34
    · subst h34
      rw [if_pos rfl]
      show parseStringBody (f + 1) (92 :: 34 :: (escapeStr t ++ 34 :: rest)) = _
      rw [parseStringBody, if_neg (by omega), if_pos rfl]
      rw [parseEscape, if_pos (Or.inl rfl)]
      show Option.map (fun q => ((34 : Nat) :: q.1, q.2)) (parseStringBody f (escapeStr t ++ 34 :: rest)) = some (34 :: t, rest)
      rw [iht]; rfl
    · rw [if_neg h34]
      by_cases h92 : c = 92
      · subst h92
        rw [if_pos rfl]
        show parseStringBody (f + 1) (92 :: 92 :: (escapeStr t ++ 34 :: rest)) = _
        rw [parseStringBody, if_neg (by omega), if_pos rfl]
        rw [parseEscape, if_pos (Or.inr (Or.inl rfl))]
        show Option.map (fun q => ((92 : Nat) :: q.1, q.2)) (parseStringBody f (escapeStr t ++ 34 :: rest)) = some (92 :: t, rest)
        rw [iht]; rfl
      · rw [if_neg h92]
        by_cases h8 : c = 8
        · subst h8
          rw [if_pos rfl]
          show parseStringBody (f + 1) (92 :: 98 :: (escapeStr t ++ 34 :: rest)) = _
          rw [parseStringBody, if_neg (by omega), if_pos rfl]
          rw [parseEscape, if_neg (by omega), if_pos rfl]
          show Option.map (fun q => ((8 : Nat) :: q.1, q.2)) (parseStringBody f (escapeStr t ++ 34 :: rest)) = some (8 :: t, rest)
          rw [iht]; rfl
        · rw [if_neg h8]
          by_cases h9 : c = 9
          · subst h9
            rw [if_pos rfl]
            show parseStringBody (f + 1) (92 :: 116 :: (escapeStr t ++ 34 :: rest)) = _
            rw [parseStringBody, if_neg (by omega), if_pos rfl]
            rw [parseEscape, if_neg (by omega), if_neg (by omega), if_pos rfl]
            show Option.map (fun q => ((9 : Nat) :: q.1, q.2)) (parseStringBody f (escapeStr t ++ 34 :: rest)) = some (9 :: t, rest)
            rw [iht]; rfl
          · rw [if_neg h9]
            by_cases h10 : c = 10
            · subst h10
              rw [if_pos rfl]
              show parseStringBody (f + 1) (92 :: 110 :: (escapeStr t ++ 34 :: rest)) = _
              rw [parseStringBody, if_neg (by omega), if_pos rfl]
              rw [parseEscape, if_neg (by omega), if_neg (by omega), if_neg (by omega),
                if_pos rfl]
              show Option.map (fun q => ((10 : Nat) :: q.1, q.2)) (parseStringBody f (escapeStr t ++ 34 :: rest)) = some (10 :: t, rest)
              rw [iht]; rfl
            · rw [if_neg h10]
              by_cases h12 : c = 12
              · subst h12
                rw [if_pos rfl]
                show parseStringBody (f + 1) (92 :: 102 :: (escapeStr t ++ 34 :: rest)) = _
                rw [parseStringBody, if_neg (by omega), if_pos rfl]
                rw [parseEscape, if_neg (by omega), if_neg (by omega), if_neg (by omega),
                  if_neg (by omega), if_pos rfl]
                show Option.map (fun q => ((12 : Nat) :: q.1, q.2)) (parseStringBody f (escapeStr t ++ 34 :: rest)) = some (12 :: t, rest)
                rw [iht]; rfl
              · rw [if_neg h12]
                by_cases h13 : c = 13
                · subst h13
                  rw [if_pos rfl]
                  show parseStringBody (f + 1) (92 :: 114 :: (escapeStr t ++ 34 :: rest)) = _
                  rw [parseStringBody, if_neg (by omega), if_pos rfl]
                  rw [parseEscape, if_neg (by omega), if_neg (by omega), if_neg (by omega),
                    if_neg (by omega), if_neg (by omega), if_pos rfl]
                  show Option.map (fun q => ((13 : Nat) :: q.1, q.2)) (parseStringBody f (escapeStr t ++ 34 :: rest)) = some (13 :: t, rest)
                  rw [iht]; rfl
                · rw [if_neg h13]
                  by_cases hctl : c < 32
                  · rw [if_pos hctl]
                    show parseStringBody (f + 1)
                      (92 :: 117 :: 48 :: 48 :: hexDigit (c / 16) :: hexDigit c ::
                        (escapeStr t ++ 34 :: rest)) = _
                    rw [parseStringBody, if_neg (by omega), if_pos rfl]
                    rw [parseEscape, if_neg (by omega), if_neg (by omega), if_neg (by omega),
                      if_neg (by omega), if_neg (by omega), if_neg (by omega), if_pos rfl]
                    rw [parseHex4]
                    rw [show hexVal 48 = some 0 from rfl, hexVal_hexDigit, hexVal_hexDigit]
                    show Option.map
                      (fun q => ((0 % 16 * 4096 + 0 % 16 * 256 + c / 16 % 16 * 16 + c % 16) ::
                        q.1, q.2))
                      (parseStringBody f (escapeStr t ++ 34 :: rest)) = some (c :: t, rest)
                    rw [iht]
                    show some ((0 % 16 * 4096 + 0 % 16 * 256 + c / 16 % 16 * 16 + c % 16) :: t,
                      rest) = some (c :: t, rest)
                    have harith : 0 % 16 * 4096 + 0 % 16 * 256 + c / 16 % 16 * 16 + c % 16 = c := by
                      omega
                    rw [harith]
                  · rw [if_neg hctl]
                    show parseStringBody (f + 1) (c :: (escapeStr t ++ 34 :: rest)) = _
                    rw [parseStringBody, if_neg h34, if_neg h92, if_neg (by omega)]
                    rw [iht]; rfl

theorem printInt_head (i : Int) :
    ∃ c t, printInt i = c :: t ∧ (c = 45 ∨ (48 ≤ c ∧ c ≤ 57)) := by
  unfold printInt
  split
  · exact ⟨45, _, rfl, Or.inl rfl⟩
  · rcases hpn : printNat i.toNat with _ | ⟨c, t⟩
    · exact absurd hpn (printNat_ne_nil _)
    · have := printNat_digits i.toNat c (by rw [hpn]; simp)
      exact ⟨c, t, rfl, Or.inr this⟩

theorem printInt_headOk (i : Int) : headOk (printInt i) := by
  obtain ⟨c, t, he, hc⟩ := printInt_head i
  exact ⟨c, t, he, by omega⟩

theorem printV_headOk (ind : Nat) (v : JValue) : headOk (printV ind v) := by
  cases v with
  | jnull => exact ⟨110, _, rfl, by omega⟩
  | jbool b => cases b with
    | true => exact ⟨116, _, rfl, by omega⟩
    | false => exact ⟨102, _, rfl, by omega⟩
  | jnum n => exact printInt_headOk n
  | jstr s => exact ⟨34, _, rfl, by omega⟩
  | jarr vs => cases vs with
    | nil => exact ⟨91, _, rfl, by omega⟩
    | cons v vs => exact ⟨91, _, rfl, by omega⟩
  | jobj kvs => cases kvs with
    | nil => exact ⟨123, _, rfl, by omega⟩
    | cons kv kvs => exact ⟨123, _, rfl, by omega⟩

theorem parseValue_lf (fuel : Nat) (s : Str) : parseValue fuel (10 :: s) = parseValue fuel s := by
  cases fuel with
  | zero => simp only [parseValue]
  | succ f => simp only [parseValue, skipWs_lf]

theorem parseValue_spaces (fuel : Nat) (k : Nat) (s : Str) :
    parseValue fuel (spaces k ++ s) = parseValue fuel s := by
  cases fuel with
  | zero => simp only [parseValue]
  | succ f => simp only [parseValue, skipWs_spaces]

theorem parseElems_lf (fuel : Nat) (s : Str) (acc : List JValue) :
    parseElems fuel (10 :: s) acc = parseElems fuel s acc := by
  cases fuel with
  | zero => simp only [parseElems]
  | succ f => simp only [parseElems, parseValue_lf]

theorem parseMembers_lf (fuel : Nat) (s : Str) (acc : List (Str × JValue)) :
    parseMembers fuel (10 :: s) acc = parseMembers fuel s acc := by
  cases fuel with
  | zero => simp only [parseMembers]
  | succ f => simp only [parseMembers, skipWs_lf]

theorem skipWs_headOk (s : Str) (h : headOk s) : skipWs s = s := by
  obtain ⟨c, t, rfl, hc⟩ := h
  exact skipWs_lit c (by omega) t

theorem skipWs_idem (s : Str) : skipWs (skipWs s) = skipWs s := by
  induction s with
  | nil => rfl
  | cons c t ih =>
    rw [skipWs]
    split
    · exact ih
    · rename_i h
      rw [skipWs_lit c h]

theorem parseValue_skipWs (fuel : Nat) (s : Str) :
    parseValue fuel (skipWs s) = parseValue fuel s := by
  cases fuel with
  | zero => simp only [parseValue]
  | succ f => simp only [parseValue, skipWs_idem]

theorem parseElems_skipWs (fuel : Nat) (s : Str) (acc : List JValue) :
    parseElems fuel (skipWs s) acc = parseElems fuel s acc := by
  cases fuel with
  | zero => simp only [parseElems]
  | succ f => simp only [parseElems, parseValue_skipWs]

theorem parseMembers_skipWs (fuel : Nat) (s : Str) (acc : List (Str × JValue)) :
    parseMembers fuel (skipWs s) acc = parseMembers fuel s acc := by
  cases fuel with
  | zero => simp only [parseMembers]
  | succ f => simp only [parseMembers, skipWs_idem]

/-- Completeness of the JSON parser on printed output, stated for all three
mutual parsers at once and proved by induction on the fuel. -/
theorem parse_print_complete : ∀ fuel : Nat,
    (∀ v ind rest, jweight v ≤ fuel → nonDigitHead rest →
      parseValue fuel (printV ind v ++ rest) = some (v, rest)) ∧
    (∀ vs acc ind rest, vs ≠ [] → jweightList vs + 1 ≤ fuel → nonDigitHead rest →
      parseElems fuel (printItems ind vs ++ rest) acc = some (.jarr (acc ++ vs), rest)) ∧
    (∀ kvs acc ind rest, kvs ≠ [] → jweightMembers kvs + 1 ≤ fuel → nonDigitHead rest →
      parseMembers fuel (printMembers ind kvs ++ rest) acc = some (.jobj (acc ++ kvs), rest)) := by
  intro fuel
  induction fuel with
  | zero =>
    refine ⟨?_, ?_, ?_⟩
    · intro v ind rest hw _
      cases v <;> simp [jweight] at hw
    · intro vs acc ind rest hne hw _
      omega
    · intro kvs acc ind rest hne hw _
      omega
  | succ f ih =>
    obtain ⟨ihP, ihQ, ihR⟩ := ih
    refine ⟨?_, ?_, ?_⟩
    · -- parseValue on printV
      intro v ind rest hw hrest
      rw [parseValue, skipWs_headOk _ (by
        obtain ⟨c, t, he, hc⟩ := printV_headOk ind v
        exact ⟨c, t ++ rest, by rw [he]; rfl, hc⟩)]
      cases v with
      | jnull =>
        show parseValueTok f (110 :: 117 :: 108 :: 108 :: rest) = _
        rw [parseValueTok, if_pos rfl]
        rfl
      | jbool b =>
        cases b with
        | true =>
          show parseValueTok f (116 :: 114 :: 117 :: 101 :: rest) = _
          rw [parseValueTok, if_neg (by omega), if_pos rfl]
          rfl
        | false =>
          show parseValueTok f (102 :: 97 :: 108 :: 115 :: 101 :: rest) = _
          rw [parseValueTok, if_neg (by omega), if_neg (by omega), if_pos rfl]
          rfl
      | jnum n =>
        show parseValueTok f (printInt n ++ rest) = _
        obtain ⟨c, t, he, hc⟩ := printInt_head n
        have hnum := parseNumber_printInt n rest hrest
        rw [he] at hnum ⊢
        rw [List.cons_append] at hnum ⊢
        rw [parseValueTok, if_neg (by omega), if_neg (by omega), if_neg (by omega),
          if_neg (by omega), if_neg (by omega), if_neg (by omega)]
        rw [hnum]
        rfl
      | jstr s =>
        show parseValueTok f (34 :: (escapeStr s ++ [34]) ++ rest) = _
        rw [show (34 :: (escapeStr s ++ [34])) ++ rest = 34 :: (escapeStr s ++ 34 :: rest) by
          simp]
        rw [parseValueTok, if_neg (by omega), if_neg (by omega), if_neg (by omega), if_pos rfl]
        rw [parseStringBody_escape s _ rest (by
          have h1 := escapeStr_length s
          rw [List.length_append, List.length_cons]
          omega)]
        rfl
      | jarr vs =>
        cases vs with
        | nil =>
          show parseValueTok f (91 :: 93 :: rest) = _
          rw [parseValueTok, if_neg (by omega), if_neg (by omega), if_neg (by omega),
            if_neg (by omega), if_pos rfl]
          rw [skipWs_lit 93 (by omega), headTail]
          rw [Option.some_bind]
          rw [if_pos rfl]
        | cons v vs =>
          show parseValueTok f (91 :: 10 :: (printItems ind (v :: vs) ++ rest)) = _
          rw [parseValueTok, if_neg (by omega), if_neg (by omega), if_neg (by omega),
            if_neg (by omega), if_pos rfl]
          rw [skipWs_lf]
          obtain ⟨c, t, he, hc⟩ := printV_headOk (ind + 2) v
          have hshape : ∃ u, printItems ind (v :: vs) ++ rest =
              spaces (ind + 2) ++ (c :: u) := by
            cases vs with
            | nil =>
              refine ⟨t ++ ([10] ++ spaces ind ++ [93] ++ rest), ?_⟩
              show (spaces (ind + 2) ++ printV (ind + 2) v ++ [10] ++ spaces ind ++ [93]) ++
                rest = _
              rw [he]
              simp [List.append_assoc]
            | cons v2 vs2 =>
              refine ⟨t ++ ([44, 10] ++ printItems ind (v2 :: vs2) ++ rest), ?_⟩
              show (spaces (ind + 2) ++ printV (ind + 2) v ++ [44, 10] ++
                printItems ind (v2 :: vs2)) ++ rest = _
              rw [he]
              simp [List.append_assoc]
          obtain ⟨u, hshape⟩ := hshape
          rw [hshape, skipWs_spaces, skipWs_lit c (by omega), headTail, Option.some_bind]
          rw [if_neg (by omega)]
          rw [show (c :: u : Str) = skipWs (printItems ind (v :: vs) ++ rest) by
              rw [hshape, skipWs_spaces, skipWs_lit c (by omega)]]
          rw [parseElems_skipWs]
          rw [ihQ (v :: vs) [] ind rest (by simp) (by
            simp only [jweight] at hw
            omega) hrest]
          simp
      | jobj kvs =>
        cases kvs with
        | nil =>
          show parseValueTok f (123 :: 125 :: rest) = _
          rw [parseValueTok, if_neg (by omega), if_neg (by omega), if_neg (by omega),
            if_neg (by omega), if_neg (by omega), if_pos rfl]
          rw [skipWs_lit 125 (by omega), headTail]
          rw [Option.some_bind]
          rw [if_pos rfl]
        | cons kv kvs =>
          show parseValueTok f (123 :: 10 :: (printMembers ind (kv :: kvs) ++ rest)) = _
          rw [parseValueTok, if_neg (by omega), if_neg (by omega), if_neg (by omega),
            if_neg (by omega), if_neg (by omega), if_pos rfl]
          rw [skipWs_lf]
          have hshape : ∃ u, printMembers ind (kv :: kvs) ++ rest =
              spaces (ind + 2) ++ (34 :: u) := by
            cases kvs with
            | nil =>
              refine ⟨escapeStr kv.1 ++ ([34, 58, 32] ++ printV (ind + 2) kv.2 ++ [10] ++
                spaces ind ++ [125] ++ rest), ?_⟩
              show (spaces (ind + 2) ++ quoteStr kv.1 ++ [58, 32] ++ printV (ind + 2) kv.2 ++
                [10] ++ spaces ind ++ [125]) ++ rest = _
              simp [quoteStr, List.append_assoc]
            | cons kv2 kvs2 =>
              refine ⟨escapeStr kv.1 ++ ([34, 58, 32] ++ printV (ind + 2) kv.2 ++ [44, 10] ++
                printMembers ind (kv2 :: kvs2) ++ rest), ?_⟩
              show (spaces (ind + 2) ++ quoteStr kv.1 ++ [58, 32] ++ printV (ind + 2) kv.2 ++
                [44, 10] ++ printMembers ind (kv2 :: kvs2)) ++ rest = _
              simp [quoteStr, List.append_assoc]
          obtain ⟨u, hshape⟩ := hshape
          rw [hshape, skipWs_spaces, skipWs_lit 34 (by omega), headTail, Option.some_bind]
          rw [if_neg (by omega)]
          rw [show (34 :: u : Str) = skipWs (printMembers ind (kv :: kvs) ++ rest) by
              rw [hshape, skipWs_spaces, skipWs_lit 34 (by omega)]]
          rw [parseMembers_skipWs]
          rw [ihR (kv :: kvs) [] ind rest (by simp) (by
            simp only [jweight] at hw
            omega) hrest]
          simp
    · -- parseElems on printItems
      intro vs acc ind rest hne hw hrest
      rcases vs with _ | ⟨v, vs⟩
      · exact absurd rfl hne
      rw [parseElems]
      cases vs with
      | nil =>
        show (parseValue f ((spaces (ind + 2) ++ printV (ind + 2) v ++ [10] ++ spaces ind ++
          [93]) ++ rest)).bind _ = _
        rw [show (spaces (ind + 2) ++ printV (ind + 2) v ++ [10] ++ spaces ind ++ [93]) ++ rest =
          spaces (ind + 2) ++ (printV (ind + 2) v ++ (10 :: (spaces ind ++ 93 :: rest))) by
            simp [List.append_assoc]]
        rw [parseValue_spaces]
        rw [ihP v (ind + 2) (10 :: (spaces ind ++ 93 :: rest)) (by
          simp only [jweightList] at hw; omega) (by
          show ¬(48 ≤ 10 ∧ 10 ≤ 57); omega)]
        rw [Option.some_bind]
        rw [show skipWs (10 :: (spaces ind ++ 93 :: rest)) = 93 :: rest by
          rw [skipWs_lf, skipWs_spaces, skipWs_lit 93 (by omega)]]
        rw [headTail, Option.some_bind]
        rw [if_neg (by omega), if_pos rfl]
      | cons v2 vs2 =>
        show (parseValue f ((spaces (ind + 2) ++ printV (ind + 2) v ++ [44, 10] ++
          printItems ind (v2 :: vs2)) ++ rest)).bind _ = _
        rw [show (spaces (ind + 2) ++ printV (ind + 2) v ++ [44, 10] ++
          printItems ind (v2 :: vs2)) ++ rest =
          spaces (ind + 2) ++ (printV (ind + 2) v ++ (44 :: 10 ::
            (printItems ind (v2 :: vs2) ++ rest))) by simp [List.append_assoc]]
        rw [parseValue_spaces]
        rw [ihP v (ind + 2) (44 :: 10 :: (printItems ind (v2 :: vs2) ++ rest)) (by
          simp only [jweightList] at hw; omega) (by
          show ¬(48 ≤ 44 ∧ 44 ≤ 57); omega)]
        rw [Option.some_bind]
        rw [skipWs_lit 44 (by omega), headTail, Option.some_bind]
        rw [if_pos rfl]
        rw [parseElems_lf]
        rw [ihQ (v2 :: vs2) (acc ++ [v]) ind rest (by simp) (by
          simp only [jweightList] at hw ⊢; omega) hrest]
        simp
    · -- parseMembers on printMembers
      intro kvs acc ind rest hne hw hrest
      rcases kvs with _ | ⟨⟨k, v⟩, kvs⟩
      · exact absurd rfl hne
      rw [parseMembers]
      cases kvs with
      | nil =>
        show (headTail (skipWs ((spaces (ind + 2) ++ quoteStr k ++ [58, 32] ++
          printV (ind + 2) v ++ [10] ++ spaces ind ++ [125]) ++ rest))).bind _ = _
        rw [show (spaces (ind + 2) ++ quoteStr k ++ [58, 32] ++ printV (ind + 2) v ++ [10] ++
          spaces ind ++ [125]) ++ rest =
          spaces (ind + 2) ++ (34 :: (escapeStr k ++ 34 :: 58 :: 32 ::
            (printV (ind + 2) v ++ (10 :: (spaces ind ++ 125 :: rest))))) by
            simp [quoteStr, List.append_assoc]]
        rw [skipWs_spaces, skipWs_lit 34 (by omega), headTail, Option.some_bind]
        rw [if_pos rfl]
        rw [show escapeStr k ++ 34 :: 58 :: 32 :: (printV (ind + 2) v ++ (10 :: (spaces ind ++
          125 :: rest))) = escapeStr k ++ 34 :: (58 :: 32 :: (printV (ind + 2) v ++ (10 ::
          (spaces ind ++ 125 :: rest)))) from rfl]
        rw [parseStringBody_escape k _ _ (by
          have h1 := escapeStr_length k
          simp only [List.length_append, List.length_cons]
          omega)]
        rw [Option.some_bind]
        rw [skipWs_lit 58 (by omega), headTail, Option.some_bind]
        rw [if_pos rfl]
        rw [show (32 : Nat) :: (printV (ind + 2) v ++ (10 :: (spaces ind ++ 125 :: rest))) =
          spaces 1 ++ (printV (ind + 2) v ++ (10 :: (spaces ind ++ 125 :: rest))) from rfl]
        rw [parseValue_spaces]
        rw [ihP v (ind + 2) (10 :: (spaces ind ++ 125 :: rest)) (by
          simp only [jweightMembers] at hw; omega) (by
          show ¬(48 ≤ 10 ∧ 10 ≤ 57); omega)]
        rw [Option.some_bind]
        rw [show skipWs (10 :: (spaces ind ++ 125 :: rest)) = 125 :: rest by
          rw [skipWs_lf, skipWs_spaces, skipWs_lit 125 (by omega)]]
        rw [headTail, Option.some_bind]
        rw [if_neg (by omega), if_pos rfl]
      | cons kv2 kvs2 =>
        show (headTail (skipWs ((spaces (ind + 2) ++ quoteStr k ++ [58, 32] ++
          printV (ind + 2) v ++ [44, 10] ++ printMembers ind (kv2 :: kvs2)) ++ rest))).bind _ =
          _
        rw [show (spaces (ind + 2) ++ quoteStr k ++ [58, 32] ++ printV (ind + 2) v ++ [44, 10] ++
          printMembers ind (kv2 :: kvs2)) ++ rest =
          spaces (ind + 2) ++ (34 :: (escapeStr k ++ 34 :: 58 :: 32 ::
            (printV (ind + 2) v ++ (44 :: 10 :: (printMembers ind (kv2 :: kvs2) ++ rest))))) by
            simp [quoteStr, List.append_assoc]]
        rw [skipWs_spaces, skipWs_lit 34 (by omega), headTail, Option.some_bind]
        rw [if_pos rfl]
        rw [show escapeStr k ++ 34 :: 58 :: 32 :: (printV (ind + 2) v ++ (44 :: 10 ::
          (printMembers ind (kv2 :: kvs2) ++ rest))) = escapeStr k ++ 34 :: (58 :: 32 ::
          (printV (ind + 2) v ++ (44 :: 10 :: (printMembers ind (kv2 :: kvs2) ++ rest))))
          from rfl]
        rw [parseStringBody_escape k _ _ (by
          have h1 := escapeStr_length k
          simp only [List.length_append, List.length_cons]
          omega)]
        rw [Option.some_bind]
        rw [skipWs_lit 58 (by omega), headTail, Option.some_bind]
        rw [if_pos rfl]
        rw [show (32 : Nat) :: (printV (ind + 2) v ++ (44 :: 10 :: (printMembers ind
          (kv2 :: kvs2) ++ rest))) = spaces 1 ++ (printV (ind + 2) v ++ (44 :: 10 ::
          (printMembers ind (kv2 :: kvs2) ++ rest))) from rfl]
        rw [parseValue_spaces]
        rw [ihP v (ind + 2) (44 :: 10 :: (printMembers ind (kv2 :: kvs2) ++ rest)) (by
          simp only [jweightMembers] at hw; omega) (by
          show ¬(48 ≤ 44 ∧ 44 ≤ 57); omega)]
        rw [Option.some_bind]
        rw [skipWs_lit 44 (by omega), headTail, Option.some_bind]
        rw [if_pos rfl]
        rw [parseMembers_lf]
        rw [ihR (kv2 :: kvs2) (acc ++ [(k, v)]) ind rest (by simp) (by
          simp only [jweightMembers] at hw ⊢; omega) hrest]
        simp

theorem jweight_pos (v : JValue) : 1 ≤ jweight v := by
  cases v <;> simp [jweight] <;> omega

/-- The printed size of a value dominates its structural weight, so the
printed length is always enough fuel for the parser. -/
theorem jweight_le_printLen : ∀ n : Nat,
    (∀ v ind, jweight v ≤ n → jweight v ≤ (printV ind v).length) ∧
    (∀ vs ind, vs ≠ [] → jweightList vs + 1 ≤ n →
      jweightList vs + 1 ≤ (printItems ind vs).length) ∧
    (∀ kvs ind, kvs ≠ [] → jweightMembers kvs + 1 ≤ n →
      jweightMembers kvs + 1 ≤ (printMembers ind kvs).length) := by
  intro n
  induction n with
  | zero =>
    refine ⟨?_, ?_, ?_⟩
    · intro v ind hw
      have := jweight_pos v
      omega
    · intro vs ind hne hw
      omega
    · intro kvs ind hne hw
      omega
  | succ n ih =>
    obtain ⟨ihP, ihQ, ihR⟩ := ih
    refine ⟨?_, ?_, ?_⟩
    · intro v ind hw
      cases v with
      | jnull => simp [printV, jweight]
      | jbool b => cases b <;> simp [printV, jweight]
      | jnum m =>
        obtain ⟨c, t, he, _⟩ := printInt_head m
        simp [printV, he, jweight]
      | jstr s => simp [printV, quoteStr, jweight]
      | jarr vs =>
        cases vs with
        | nil => simp [printV, jweight, jweightList]
        | cons v vs =>
          have hq := ihQ (v :: vs) ind (by simp) (by
            simp only [jweight] at hw; omega)
          simp only [printV, jweight, List.length_append, List.length_cons] at hq ⊢
          omega
      | jobj kvs =>
        cases kvs with
        | nil => simp [printV, jweight, jweightMembers]
        | cons kv kvs =>
          have hr := ihR (kv :: kvs) ind (by simp) (by
            simp only [jweight] at hw; omega)
          simp only [printV, jweight, List.length_append, List.length_cons] at hr ⊢
          omega
    · intro vs ind hne hw
      rcases vs with _ | ⟨v, vs⟩
      · exact absurd rfl hne
      cases vs with
      | nil =>
        have hp := ihP v (ind + 2) (by simp only [jweightList] at hw; omega)
        simp only [printItems, jweightList, List.length_append, List.length_cons,
          List.length_nil, spaces, List.length_replicate] at hp ⊢
        omega
      | cons v2 vs2 =>
        have h1 := jweight_pos v
        have hp := ihP v (ind + 2) (by simp only [jweightList] at hw; omega)
        have hq := ihQ (v2 :: vs2) ind (by simp) (by
          simp only [jweightList] at hw ⊢; omega)
        simp only [printItems, jweightList, List.length_append, List.length_cons,
          List.length_nil, spaces, List.length_replicate] at hp hq ⊢
        omega
    · intro kvs ind hne hw
      rcases kvs with _ | ⟨⟨k, v⟩, kvs⟩
      · exact absurd rfl hne
      cases kvs with
      | nil =>
        have hp := ihP v (ind + 2) (by simp only [jweightMembers] at hw; omega)
        simp only [printMembers, jweightMembers, quoteStr, List.length_append,
          List.length_cons, List.length_nil, spaces, List.length_replicate] at hp ⊢
        omega
      | cons kv2 kvs2 =>
        have h1 := jweight_pos v
        have hp := ihP v (ind + 2) (by simp only [jweightMembers] at hw; omega)
        have hr := ihR (kv2 :: kvs2) ind (by simp) (by
          simp only [jweightMembers] at hw ⊢; omega)
        simp only [printMembers, jweightMembers, quoteStr, List.length_append,
          List.length_cons, List.length_nil, spaces, List.length_replicate] at hp hr ⊢
        omega

/-- `JSON.parse` recovers every value produced by `JSON.stringify(v, null, 2)`. -/
theorem parseJson_printJson (v : JValue) : parseJson (printJson v) = some v := by
  have hlen := (jweight_le_printLen (jweight v)).1 v 0 le_rfl
  have h := (parse_print_complete ((printV 0 v).length + 1)).1 v 0 []
    (by omega) trivial
  rw [List.append_nil] at h
  show (match parseValue ((printV 0 v).length + 1) (printV 0 v) with
    | some (w, r) => match skipWs r with | [] => some w | _ => none
    | none => none) = some v
  rw [h]
  rfl

/-! ## Theorems: the export and import services. -/

/-- The import loop can only abort through a null entry. -/
theorem processReceipts_abort (strategy : ImportStrategy) (images? : Option (List Str))
    (now : Int) (exids : List Str) :
    ∀ (entries : List JValue) (st : LoopState),
      match (processReceipts strategy images? now exids entries st).1 with
      | some e => e = nullAbortError
      | none => True := by
  intro entries
  induction entries with
  | nil => intro st; trivial
  | cons r rest ih =>
    intro st
    rw [processReceipts]
    by_cases h : isJNull r = true
    · rw [if_pos h]
    · rw [if_neg h]
      exact ih _

/-- Each non-null entry advances imported + skipped by exactly one and never
adds more error strings than skips. -/
theorem processEntry_step (strategy : ImportStrategy) (images? : Option (List Str))
    (now : Int) (exids : List Str) (r : JValue) (st : LoopState) :
    (processEntry strategy images? now exids r st).imported +
      (processEntry strategy images? now exids r st).skipped =
      st.imported + st.skipped + 1 ∧
    (processEntry strategy images? now exids r st).errors.length + st.skipped ≤
      st.errors.length + (processEntry strategy images? now exids r st).skipped := by
  cases hraw : rawId r with
  | none =>
    simp only [processEntry, hraw]
    refine ⟨?_, ?_⟩ <;>
      (try simp only [List.length_append, List.length_cons, List.length_nil]) <;> omega
  | some rid =>
    simp only [processEntry, hraw]
    by_cases h1 : rid ∈ exids ∧ strategy = ImportStrategy.skip
    · rw [if_pos h1]
      refine ⟨?_, ?_⟩ <;> (try simp only []) <;> omega
    · rw [if_neg h1]
      cases hdec : decodeReceipt r with
      | none =>
        simp only [hdec]
        refine ⟨?_, ?_⟩ <;>
          (try simp only [List.length_append, List.length_cons, List.length_nil]) <;> omega
      | some rec0 =>
        simp only [hdec]
        by_cases h2 : rid ∈ exids ∧ strategy = ImportStrategy.merge
        · rw [if_pos h2]
          refine ⟨?_, ?_⟩ <;> (try simp only []) <;> omega
        · rw [if_neg h2]
          cases hsave : saveReceipt (entryReceipt images? rid rec0)
            (entryStore strategy exids rid st.store) with
          | none =>
            simp only [hsave]
            refine ⟨?_, ?_⟩ <;>
              (try simp only [List.length_append, List.length_cons, List.length_nil]) <;> omega
          | some store2 =>
            simp only [hsave]
            refine ⟨?_, ?_⟩ <;> omega

/-- The loop invariant behind the returned counters. -/
theorem processReceipts_counts (strategy : ImportStrategy) (images? : Option (List Str))
    (now : Int) (exids : List Str) :
    ∀ (entries : List JValue) (st : LoopState),
      match processReceipts strategy images? now exids entries st with
      | (none, st2) => st2.imported + st2.skipped = st.imported + st.skipped + entries.length ∧
          st2.errors.length + st.skipped ≤ st.errors.length + st2.skipped
      | (some _, _) => True := by
  intro entries
  induction entries with
  | nil =>
    intro st
    rw [processReceipts]
    exact ⟨by simp, by omega⟩
  | cons r rest ih =>
    intro st
    rw [processReceipts]
    by_cases h : isJNull r = true
    · rw [if_pos h]
      trivial
    · rw [if_neg h]
      have hs := processEntry_step strategy images? now exids r st
      have hr := ih (processEntry strategy images? now exids r st)
      revert hr
      cases processReceipts strategy images? now exids rest
        (processEntry strategy images? now exids r st) with
      | mk e? st2 =>
        cases e? with
        | none =>
          intro hr
          simp only [List.length_cons]
          exact ⟨by omega, by omega⟩
        | some e => intro hr; trivial

/-- C6: exporting with zero receipts stored always fails, for every
password, with the distinct no-receipts AppError — non-recoverable, with its
own user-facing message — and produces no archive. -/
theorem c6_empty_export_rejected (images : List Str) (password seed : Str) (now : Int) :
    exportData [] images password seed now = .error noReceiptsError ∧
    noReceiptsError.message = strNoReceiptsMessage ∧
    noReceiptsError.recoverable = false ∧
    noReceiptsError.userMessage = strNoReceiptsUserMessage := by
  exact ⟨rfl, rfl, rfl, rfl⟩

/-- C7: an archive missing the salt entry or the ciphertext entry is
rejected with the corresponding structural error before any decryption: the
outcome does not depend on the password, and the store is untouched. -/
theorem c7_structural_rejection (ar : Archive) (password password2 : Str)
    (strategy : ImportStrategy) (store : List Row) (now : Int)
    (h : ar.salt? = none ∨ ar.metadataEnc? = none) :
    importData ar password strategy store now =
      importData ar password2 strategy store now ∧
    (importData ar password strategy store now).2 = store ∧
    ((importData ar password strategy store now).1 =
        .error (importFailure (strErrorPrefix ++ strSaltNotFound) strSaltNotFound) ∨
      (importData ar password strategy store now).1 =
        .error (importFailure (strErrorPrefix ++ strMetadataNotFound) strMetadataNotFound)) := by
  obtain ⟨s?, e?, i?⟩ := ar
  rcases h with h | h
  · simp only at h
    subst h
    exact ⟨rfl, rfl, Or.inl rfl⟩
  · simp only at h
    subst h
    cases s? with
    | none => exact ⟨rfl, rfl, Or.inl rfl⟩
    | some s => exact ⟨rfl, rfl, Or.inr rfl⟩

/-- Witness for C7 at a concrete archive with a salt entry but no
ciphertext entry. -/
theorem c7_structural_rejection_witness :
    ((Archive.mk (some [97]) none none).salt? = none ∨
      (Archive.mk (some [97]) none none).metadataEnc? = none) ∧
    (importData (Archive.mk (some [97]) none none) [112] .merge [] 0 =
      importData (Archive.mk (some [97]) none none) [113] .merge [] 0 ∧
    (importData (Archive.mk (some [97]) none none) [112] .merge [] 0).2 = [] ∧
    ((importData (Archive.mk (some [97]) none none) [112] .merge [] 0).1 =
        .error (importFailure (strErrorPrefix ++ strSaltNotFound) strSaltNotFound) ∨
      (importData (Archive.mk (some [97]) none none) [112] .merge [] 0).1 =
        .error (importFailure (strErrorPrefix ++ strMetadataNotFound) strMetadataNotFound))) :=
  ⟨Or.inr rfl,
    c7_structural_rejection (Archive.mk (some [97]) none none) [112] [113] .merge [] 0
      (Or.inr rfl)⟩

/-- A loop failure is only ever the null-entry abort. -/
theorem processReceipts_error_eq {strategy : ImportStrategy} {images? : Option (List Str)}
    {now : Int} {exids : List Str} {entries : List JValue} {st0 : LoopState}
    {e : AppError} {st : LoopState}
    (heq : processReceipts strategy images? now exids entries st0 = (some e, st)) :
    e = nullAbortError := by
  have h := processReceipts_abort strategy images? now exids entries st0
  rw [heq] at h
  exact h

/-- The counters a completed loop run starting from zero ends with. -/
theorem processReceipts_ok_counts {strategy : ImportStrategy} {images? : Option (List Str)}
    {now : Int} {exids : List Str} {entries : List JValue} {store0 : List Row}
    {st : LoopState}
    (heq : processReceipts strategy images? now exids entries ⟨store0, 0, 0, []⟩ = (none, st)) :
    st.imported + st.skipped = entries.length ∧ st.errors.length ≤ st.skipped := by
  have h := processReceipts_counts strategy images? now exids entries ⟨store0, 0, 0, []⟩
  rw [heq] at h
  simp only [List.length_nil] at h
  exact ⟨by omega, by omega⟩

/-- C3: the advertised incorrect-password error is unreachable. Whatever
archive, password, strategy and store are given, an importData failure never
carries the incorrect-password user message or the Decryption-failed
message, and is always recoverable — unlike the error the dead catch around
the total decryption routine would construct. A wrong password instead
surfaces as a downstream parse or structure failure. -/
theorem c3_incorrect_password_error_unreachable (ar : Archive) (password : Str)
    (strategy : ImportStrategy) (store : List Row) (now : Int) :
    match importData ar password strategy store now with
    | (.error e, _) => ¬ e.userMessage = strIncorrectPassword ∧
        ¬ e.message = strDecryptionFailed ∧ e.recoverable = true
    | (.ok _, _) => True := by
  obtain ⟨s?, e?, i?⟩ := ar
  cases s? with
  | none => exact ⟨by decide, by decide, rfl⟩
  | some salt =>
  cases e? with
  | none => exact ⟨by decide, by decide, rfl⟩
  | some enc =>
  simp only [importData]
  cases hpj : parseJson (decryptDataWithPassword enc password salt) with
  | none => exact ⟨by decide, by decide, rfl⟩
  | some metadata =>
  simp only []
  cases hm : metadataReceipts metadata with
  | none => exact ⟨by decide, by decide, rfl⟩
  | some receiptList =>
  simp only []
  rcases hp : processReceipts strategy i? now (store.map (fun r => r.id))
    receiptList ⟨store, 0, 0, []⟩ with ⟨eo, st⟩
  rw [hp]
  cases eo with
  | none =>
    simp only [processEnd]
  | some e =>
    have he := processReceipts_error_eq hp
    subst he
    simp only [processEnd]
    exact ⟨by decide, by decide, rfl⟩

/-- C9: the import loop accounts for every entry of the record list exactly
once — on normal completion imported + skipped equals the number of
entries, at most one error string is recorded per skip — and every
ImportResult importData returns has its success flag hard-coded to true,
even when nothing was imported. -/
theorem c9_import_result_invariants :
    (∀ (strategy : ImportStrategy) (images? : Option (List Str)) (now : Int)
      (exids : List Str) (entries : List JValue) (store : List Row) (st : LoopState),
      processReceipts strategy images? now exids entries ⟨store, 0, 0, []⟩ = (none, st) →
        st.imported + st.skipped = entries.length ∧ st.errors.length ≤ st.skipped) ∧
    (∀ (ar : Archive) (password : Str) (strategy : ImportStrategy)
      (store : List Row) (now : Int),
      match importData ar password strategy store now with
      | (.ok res, _) => res.success = true ∧ res.errors.length ≤ res.skipped
      | (.error _, _) => True) := by
  refine ⟨fun _ _ _ _ _ _ _ heq => processReceipts_ok_counts heq, ?_⟩
  intro ar password strategy store now
  obtain ⟨s?, e?, i?⟩ := ar
  cases s? with
  | none => trivial
  | some salt =>
  cases e? with
  | none => trivial
  | some enc =>
  simp only [importData]
  cases hpj : parseJson (decryptDataWithPassword enc password salt) with
  | none => trivial
  | some metadata =>
  simp only []
  cases hm : metadataReceipts metadata with
  | none => trivial
  | some receiptList =>
  simp only []
  rcases hp : processReceipts strategy i? now (store.map (fun r => r.id))
    receiptList ⟨store, 0, 0, []⟩ with ⟨eo, st⟩
  rw [hp]
  cases eo with
  | some e =>
    simp only [processEnd]
  | none =>
    have h := processReceipts_ok_counts hp
    simp only [processEnd]
    exact ⟨by trivial, h.2⟩

/-- C10: the staged attachment chosen for a record is the first staged file
whose URI contains the record id as a substring. Concretely: the archive
stages exactly one image, named for record abc, yet importing records abc
and bc assigns that same file to both — record bc, whose own attachment is
absent from the staging area, has its archived imageUri b.png replaced by a
copy of the abc file. -/
theorem c10_substring_image_matching :
    (processReceipts .replace (some [stagedAbcUri]) 0 [] [entryAbc, entryBc]
      ⟨[], 0, 0, []⟩).2.store.map (fun r => (r.id, r.image_uri)) =
      [([97, 98, 99], strReceiptsDir ++ [97, 98, 99] ++ strDotJpg),
       ([98, 99], strReceiptsDir ++ [98, 99] ++ strDotJpg)] ∧
    jStrField (jGet entryBc strImageUriKey) = some [98, 46, 112, 110, 103] ∧
    ¬ strReceiptsDir ++ [98, 99] ++ strDotJpg = [98, 46, 112, 110, 103] := by
  decide

/-- Reading back a mapped tags array. -/
theorem jTagsField_map (l : List Str) :
    jTagsField (some (.jarr (l.map JValue.jstr))) = some l := by
  simp only [jTagsField]
  induction l with
  | nil => rfl
  | cons s t ih =>
    simp only [List.map_cons, List.mapM_cons]
    simp only [jTagsField] at ih
    rw [ih]
    rfl

/-- The serialized object yields its id field back. -/
theorem jGet_serialize_id (r : Receipt) :
    jGet (serializeReceipt r) strIdKey = some (.jstr r.id) := by
  obtain ⟨i, sn, d, ta, tg, notes, oc, im, ca, ua⟩ := r
  rcases notes with _ | (_ | s) <;> rfl

/-- The serialized object yields its storeName field back. -/
theorem jGet_serialize_storeName (r : Receipt) :
    jGet (serializeReceipt r) strStoreNameKey = some (.jstr r.storeName) := by
  obtain ⟨i, sn, d, ta, tg, notes, oc, im, ca, ua⟩ := r
  rcases notes with _ | (_ | s) <;> rfl

/-- The serialized object yields the ISO rendering of its date. -/
theorem jGet_serialize_date (r : Receipt) :
    jGet (serializeReceipt r) strDateKey = some (.jstr (toISOString r.date)) := by
  obtain ⟨i, sn, d, ta, tg, notes, oc, im, ca, ua⟩ := r
  rcases notes with _ | (_ | s) <;> rfl

/-- The serialized object yields its totalAmount field back. -/
theorem jGet_serialize_totalAmount (r : Receipt) :
    jGet (serializeReceipt r) strTotalAmountKey = some (.jnum r.totalAmount) := by
  obtain ⟨i, sn, d, ta, tg, notes, oc, im, ca, ua⟩ := r
  rcases notes with _ | (_ | s) <;> rfl

/-- The serialized object yields its tags field back. -/
theorem jGet_serialize_tags (r : Receipt) :
    jGet (serializeReceipt r) strTagsKey = some (.jarr (r.tags.map .jstr)) := by
  obtain ⟨i, sn, d, ta, tg, notes, oc, im, ca, ua⟩ := r
  rcases notes with _ | (_ | s) <;> rfl

/-- The three notes shapes survive serialization. -/
theorem notesField_serialize (r : Receipt) :
    notesField (serializeReceipt r) = some r.notes := by
  obtain ⟨i, sn, d, ta, tg, notes, oc, im, ca, ua⟩ := r
  rcases notes with _ | (_ | s) <;> rfl

/-- The serialized object yields its ocrText field back. -/
theorem jGet_serialize_ocrText (r : Receipt) :
    jGet (serializeReceipt r) strOcrTextKey = some (.jstr r.ocrText) := by
  obtain ⟨i, sn, d, ta, tg, notes, oc, im, ca, ua⟩ := r
  rcases notes with _ | (_ | s) <;> rfl

/-- The serialized object yields its imageUri field back. -/
theorem jGet_serialize_imageUri (r : Receipt) :
    jGet (serializeReceipt r) strImageUriKey = some (.jstr r.imageUri) := by
  obtain ⟨i, sn, d, ta, tg, notes, oc, im, ca, ua⟩ := r
  rcases notes with _ | (_ | s) <;> rfl

/-- The serialized object yields the ISO rendering of its createdAt. -/
theorem jGet_serialize_createdAt (r : Receipt) :
    jGet (serializeReceipt r) strCreatedAtKey = some (.jstr (toISOString r.createdAt)) := by
  obtain ⟨i, sn, d, ta, tg, notes, oc, im, ca, ua⟩ := r
  rcases notes with _ | (_ | s) <;> rfl

/-- The serialized object yields the ISO rendering of its updatedAt. -/
theorem jGet_serialize_updatedAt (r : Receipt) :
    jGet (serializeReceipt r) strUpdatedAtKey = some (.jstr (toISOString r.updatedAt)) := by
  obtain ⟨i, sn, d, ta, tg, notes, oc, im, ca, ua⟩ := r
  rcases notes with _ | (_ | s) <;> rfl

/-- Round trip: the loop decodes a serialized receipt back to itself when
its three timestamps are in the representable range. -/
theorem decodeReceipt_serializeReceipt (r : Receipt) (hd : timeClipRange r.date)
    (hc : timeClipRange r.createdAt) (hu : timeClipRange r.updatedAt) :
    decodeReceipt (serializeReceipt r) = some r := by
  have h1 := parseJsDate_toISOString r.date hd.1 hd.2
  have h2 := parseJsDate_toISOString r.createdAt hc.1 hc.2
  have h3 := parseJsDate_toISOString r.updatedAt hu.1 hu.2
  simp only [decodeReceipt, rawId, jGet_serialize_id, jGet_serialize_storeName,
    jGet_serialize_date, jGet_serialize_totalAmount, jGet_serialize_tags,
    notesField_serialize, jGet_serialize_ocrText, jGet_serialize_imageUri,
    jGet_serialize_createdAt, jGet_serialize_updatedAt, jStrField, jNumField,
    jTagsField_map, h1, h2, h3, Option.some_bind]
  rfl

/-- A serialized receipt is never the null value. -/
theorem isJNull_serializeReceipt (r : Receipt) : isJNull (serializeReceipt r) = false := by
  obtain ⟨i, sn, d, ta, tg, notes, oc, im, ca, ua⟩ := r
  rcases notes with _ | (_ | s) <;> rfl

/-- The loop reads the id of a serialized receipt back. -/
theorem rawId_serializeReceipt (r : Receipt) :
    rawId (serializeReceipt r) = some r.id := by
  simp only [rawId, jGet_serialize_id, jStrField]

/-- Without a staged images directory the decoded receipt is kept as is. -/
theorem entryReceipt_none (rid : Str) (rec0 : Receipt) :
    entryReceipt none rid rec0 = rec0 := rfl

/-- Inserting a fresh, valid receipt appends its row. -/
theorem saveReceipt_insert (y : Receipt) (store : List Row)
    (hval : validateReceipt y = true) (hfresh : ∀ r ∈ store, ¬ r.id = y.id) :
    saveReceipt y store = some (store ++ [rowOfReceipt y]) := by
  unfold saveReceipt
  rw [hval]
  have hany : store.any (fun row => decide (row.id = y.id)) = false := by
    simp only [List.any_eq_false, decide_eq_true_eq]
    exact hfresh
  rw [hany]
  rfl

/-- DELETE by id removes exactly the one row carrying it. -/
theorem deleteReceipt_split (rid : Str) (s1 s2 : List Row) (rowX : Row)
    (h1 : ∀ r ∈ s1, ¬ r.id = rid) (h2 : ∀ r ∈ s2, ¬ r.id = rid)
    (hX : rowX.id = rid) :
    deleteReceipt rid (s1 ++ [rowX] ++ s2) = s1 ++ s2 := by
  unfold deleteReceipt
  have e1 : s1.filter (fun row => decide (¬ row.id = rid)) = s1 :=
    List.filter_eq_self.2 (by intro r hr; simpa using h1 r hr)
  have e2 : s2.filter (fun row => decide (¬ row.id = rid)) = s2 :=
    List.filter_eq_self.2 (by intro r hr; simpa using h2 r hr)
  have eX : List.filter (fun row => decide (¬ row.id = rid)) [rowX] = [] := by
    simp [hX]
  rw [List.filter_append, List.filter_append, e1, e2, eX]
  simp

/-- UPDATE by id rewrites exactly the one row carrying it. -/
theorem updateReceipt_split (rid : Str) (y : Receipt) (now : Int)
    (s1 s2 : List Row) (rowX : Row)
    (h1 : ∀ r ∈ s1, ¬ r.id = rid) (h2 : ∀ r ∈ s2, ¬ r.id = rid)
    (hX : rowX.id = rid) :
    updateReceipt rid y now (s1 ++ [rowX] ++ s2) =
      s1 ++ [updateRow now y rowX] ++ s2 := by
  unfold updateReceipt
  have e1 : s1.map (fun row => if row.id = rid then updateRow now y row else row) = s1 := by
    have h : s1.map (fun row => if row.id = rid then updateRow now y row else row) =
        s1.map id :=
      List.map_congr_left (by intro r hr; simp only [id]; rw [if_neg (h1 r hr)])
    rw [List.map_id] at h
    exact h
  have e2 : s2.map (fun row => if row.id = rid then updateRow now y row else row) = s2 := by
    have h : s2.map (fun row => if row.id = rid then updateRow now y row else row) =
        s2.map id :=
      List.map_congr_left (by intro r hr; simp only [id]; rw [if_neg (h2 r hr)])
    rw [List.map_id] at h
    exact h
  have eX : List.map (fun row => if row.id = rid then updateRow now y row else row) [rowX] =
      [updateRow now y rowX] := by
    simp [hX]
  rw [List.map_append, List.map_append, e1, e2, eX]

/-- C4: one archived record against a store holding a row with the same id.
Skip leaves the store unchanged and counts one skip. Replace deletes the
existing row and inserts the archive version as a new row carrying the
archived timestamps. Merge updates the row in place: every archived field
is written except createdAt, which keeps the store value, while updatedAt is
regenerated to the import-time clock — so the merged row does not carry the
archive timestamps. A record whose id is not in the snapshot is inserted as
new under every strategy. -/
theorem c4_conflict_strategies (s1 s2 : List Row) (rowX : Row) (y : Receipt)
    (now : Int)
    (hid : y.id = rowX.id)
    (hval : validateReceipt y = true)
    (hd : timeClipRange y.date) (hc : timeClipRange y.createdAt)
    (hu : timeClipRange y.updatedAt)
    (h1 : ∀ r ∈ s1, ¬ r.id = rowX.id) (h2 : ∀ r ∈ s2, ¬ r.id = rowX.id) :
    processReceipts .skip none now ((s1 ++ [rowX] ++ s2).map (fun r => r.id))
        [serializeReceipt y] ⟨s1 ++ [rowX] ++ s2, 0, 0, []⟩ =
      (none, ⟨s1 ++ [rowX] ++ s2, 0, 1, []⟩) ∧
    processReceipts .replace none now ((s1 ++ [rowX] ++ s2).map (fun r => r.id))
        [serializeReceipt y] ⟨s1 ++ [rowX] ++ s2, 0, 0, []⟩ =
      (none, ⟨(s1 ++ s2) ++ [rowOfReceipt y], 1, 0, []⟩) ∧
    processReceipts .merge none now ((s1 ++ [rowX] ++ s2).map (fun r => r.id))
        [serializeReceipt y] ⟨s1 ++ [rowX] ++ s2, 0, 0, []⟩ =
      (none, ⟨s1 ++ [updateRow now y rowX] ++ s2, 1, 0, []⟩) ∧
    (updateRow now y rowX).created_at = rowX.created_at ∧
    (updateRow now y rowX).updated_at = now ∧
    (rowOfReceipt y).created_at = y.createdAt ∧
    (rowOfReceipt y).updated_at = y.updatedAt ∧
    (∀ (strategy : ImportStrategy) (store : List Row),
      (∀ r ∈ store, ¬ r.id = y.id) →
      processReceipts strategy none now (store.map (fun r => r.id))
          [serializeReceipt y] ⟨store, 0, 0, []⟩ =
        (none, ⟨store ++ [rowOfReceipt y], 1, 0, []⟩)) := by
  have hdec := decodeReceipt_serializeReceipt y hd hc hu
  have hmem : y.id ∈ (s1 ++ [rowX] ++ s2).map (fun r => r.id) := by
    rw [hid]
    simp
  refine ⟨?_, ?_, ?_, rfl, rfl, rfl, rfl, ?_⟩
  · rw [processReceipts, if_neg (by rw [isJNull_serializeReceipt]; exact Bool.false_ne_true),
      processReceipts]
    simp only [processEntry, rawId_serializeReceipt]
    rw [if_pos ⟨hmem, trivial⟩]
  · rw [processReceipts, if_neg (by rw [isJNull_serializeReceipt]; exact Bool.false_ne_true),
      processReceipts]
    simp only [processEntry, rawId_serializeReceipt]
    rw [if_neg (fun h => by cases h.2), hdec]
    simp only []
    rw [if_neg (fun h => by cases h.2)]
    rw [entryReceipt_none]
    have hst : entryStore .replace ((s1 ++ [rowX] ++ s2).map (fun r => r.id)) y.id
        (s1 ++ [rowX] ++ s2) = s1 ++ s2 := by
      unfold entryStore
      rw [if_pos ⟨hmem, rfl⟩]
      exact deleteReceipt_split rowX.id s1 s2 rowX h1 h2 rfl ▸ (by rw [hid])
    rw [hst]
    rw [saveReceipt_insert y (s1 ++ s2) hval (by
      intro r hr
      rw [hid]
      rcases List.mem_append.1 hr with h | h
      · exact h1 r h
      · exact h2 r h)]
  · rw [processReceipts, if_neg (by rw [isJNull_serializeReceipt]; exact Bool.false_ne_true),
      processReceipts]
    simp only [processEntry, rawId_serializeReceipt]
    rw [if_neg (fun h => by cases h.2), hdec]
    simp only []
    rw [if_pos ⟨hmem, trivial⟩]
    rw [entryReceipt_none]
    have hst : entryStore .merge ((s1 ++ [rowX] ++ s2).map (fun r => r.id)) y.id
        (s1 ++ [rowX] ++ s2) = s1 ++ [rowX] ++ s2 := by
      unfold entryStore
      rw [if_neg (fun h => by cases h.2)]
    rw [hst]
    rw [updateReceipt_split y.id y now s1 s2 rowX
      (by intro r hr; rw [hid]; exact h1 r hr)
      (by intro r hr; rw [hid]; exact h2 r hr) hid.symm]
  · intro strategy store hfresh
    rw [processReceipts, if_neg (by rw [isJNull_serializeReceipt]; exact Bool.false_ne_true),
      processReceipts]
    simp only [processEntry, rawId_serializeReceipt]
    have hnmem : ¬ y.id ∈ store.map (fun r => r.id) := by
      simp only [List.mem_map]
      rintro ⟨r, hr, he⟩
      exact hfresh r hr he
    rw [if_neg (fun h => hnmem h.1), hdec]
    simp only []
    rw [if_neg (fun h => hnmem h.1)]
    rw [entryReceipt_none]
    have hst : entryStore strategy (store.map (fun r => r.id)) y.id store = store := by
      unfold entryStore
      rw [if_neg (fun h => hnmem h.1)]
    rw [hst]
    rw [saveReceipt_insert y store hval hfresh]

/-- Witness for C4 at a one-row store and a same-id archive record. -/
theorem c4_conflict_strategies_witness :
    (recX1.id = rowX0.id ∧ validateReceipt recX1 = true ∧
      timeClipRange recX1.date ∧ timeClipRange recX1.createdAt ∧
      timeClipRange recX1.updatedAt ∧
      (∀ r : Row, r ∈ ([] : List Row) → ¬ r.id = rowX0.id) ∧
      (∀ r : Row, r ∈ ([] : List Row) → ¬ r.id = rowX0.id)) ∧
    processReceipts .skip none 42
        (([] ++ [rowX0] ++ [] : List Row).map (fun r => r.id))
        [serializeReceipt recX1] ⟨([] ++ [rowX0] ++ [] : List Row), 0, 0, []⟩ =
      (none, ⟨([] ++ [rowX0] ++ [] : List Row), 0, 1, []⟩) :=
  ⟨by decide,
    (c4_conflict_strategies [] [] rowX0 recX1 42 (by decide) (by decide)
      (by decide) (by decide) (by decide) (by decide) (by decide)).1⟩

/-- Counterexample to the claim that merge leaves the stored record equal to
the archive version: merging the entry of record x — whose archived
createdAt is one second and updatedAt two seconds past the epoch — into a
store whose row has both at the epoch keeps createdAt at the stored epoch
value and sets updatedAt to the import-time clock, matching neither
archived timestamp. -/
theorem c4_merge_counterexample :
    (processReceipts .merge none 42 [[120]] [entryX1]
        ⟨[rowX0], 0, 0, []⟩).2.store.map (fun r => (r.created_at, r.updated_at)) =
      [((0 : Int), (42 : Int))] ∧
    (decodeReceipt entryX1).map (fun r => (r.createdAt, r.updatedAt)) =
      some ((1000 : Int), (2000 : Int)) ∧
    ¬ ((0 : Int) = 1000 ∨ (42 : Int) = 2000) := by
  decide

/-- A rewritten image path never fails validation. -/
theorem validateReceipt_setImage (y : Receipt) (u i : Str)
    (hval : validateReceipt y = true) :
    validateReceipt { y with imageUri := saveImage u i } = true := by
  simp only [validateReceipt, saveImage, strReceiptsDir] at hval ⊢
  simp only [List.cons_append, List.isEmpty_cons, Bool.not_false, Bool.and_true]
  revert hval
  cases y.id.isEmpty <;> cases y.storeName.isEmpty <;> simp

/-- C5: a record whose staged attachment is missing still imports — with its
archived image path left as is — alongside the record whose attachment is
present; nothing is recorded in the error list and nothing is skipped. -/
theorem c5_missing_attachment (y1 y2 : Receipt) (f1 : Str)
    (strategy : ImportStrategy) (now : Int)
    (hval1 : validateReceipt y1 = true) (hval2 : validateReceipt y2 = true)
    (hd1 : timeClipRange y1.date) (hc1 : timeClipRange y1.createdAt)
    (hu1 : timeClipRange y1.updatedAt)
    (hd2 : timeClipRange y2.date) (hc2 : timeClipRange y2.createdAt)
    (hu2 : timeClipRange y2.updatedAt)
    (hne : ¬ y2.id = y1.id)
    (hmatch : y1.id <:+: f1) (hmiss : ¬ y2.id <:+: f1) :
    processReceipts strategy (some [f1]) now []
        [serializeReceipt y1, serializeReceipt y2] ⟨[], 0, 0, []⟩ =
      (none, ⟨[rowOfReceipt { y1 with imageUri := saveImage f1 y1.id },
        rowOfReceipt y2], 2, 0, []⟩) := by
  have hdec1 := decodeReceipt_serializeReceipt y1 hd1 hc1 hu1
  have hdec2 := decodeReceipt_serializeReceipt y2 hd2 hc2 hu2
  rw [processReceipts,
    if_neg (by rw [isJNull_serializeReceipt]; exact Bool.false_ne_true)]
  have he1 : processEntry strategy (some [f1]) now [] (serializeReceipt y1)
      ⟨[], 0, 0, []⟩ =
      ⟨[rowOfReceipt { y1 with imageUri := saveImage f1 y1.id }], 1, 0, []⟩ := by
    simp only [processEntry, rawId_serializeReceipt]
    rw [if_neg (fun h => List.not_mem_nil _ h.1), hdec1]
    simp only []
    rw [if_neg (fun h => List.not_mem_nil _ h.1)]
    have him : entryReceipt (some [f1]) y1.id y1 =
        { y1 with imageUri := saveImage f1 y1.id } := by
      simp only [entryReceipt]
      rw [List.find?_cons_of_pos _ (by simpa using hmatch)]
    rw [him]
    have hst : entryStore strategy [] y1.id [] = [] := by
      unfold entryStore
      rw [if_neg (fun h => List.not_mem_nil _ h.1)]
    rw [hst]
    rw [saveReceipt_insert _ [] (validateReceipt_setImage y1 f1 y1.id hval1)
      (by intro r hr; cases hr)]
    rfl
  rw [he1, processReceipts,
    if_neg (by rw [isJNull_serializeReceipt]; exact Bool.false_ne_true)]
  have he2 : processEntry strategy (some [f1]) now [] (serializeReceipt y2)
      ⟨[rowOfReceipt { y1 with imageUri := saveImage f1 y1.id }], 1, 0, []⟩ =
      ⟨[rowOfReceipt { y1 with imageUri := saveImage f1 y1.id },
        rowOfReceipt y2], 2, 0, []⟩ := by
    simp only [processEntry, rawId_serializeReceipt]
    rw [if_neg (fun h => List.not_mem_nil _ h.1), hdec2]
    simp only []
    rw [if_neg (fun h => List.not_mem_nil _ h.1)]
    have him : entryReceipt (some [f1]) y2.id y2 = y2 := by
      simp only [entryReceipt]
      rw [List.find?_cons_of_neg _ (by simpa using hmiss), List.find?_nil]
    rw [him]
    have hst : entryStore strategy [] y2.id
        [rowOfReceipt { y1 with imageUri := saveImage f1 y1.id }] =
        [rowOfReceipt { y1 with imageUri := saveImage f1 y1.id }] := by
      unfold entryStore
      rw [if_neg (fun h => List.not_mem_nil _ h.1)]
    rw [hst]
    rw [saveReceipt_insert _ _ hval2 (by
      intro r hr
      rw [List.mem_singleton] at hr
      subst hr
      exact fun h => hne h.symm)]
    rfl
  rw [he2, processReceipts]

/-- Witness for C5 at the q archive: record q1 has a staged file, record q2
does not. -/
theorem c5_missing_attachment_witness :
    (validateReceipt (mapRowToReceipt ⟨[113, 49], [81], 0, 1, [], none, [],
        [113, 49, 46, 112, 110, 103], 0, 0⟩) = true ∧
      ¬ ([113, 50] : Str) = [113, 49] ∧
      ([113, 49] : Str) <:+: stagedQ1Uri ∧ ¬ ([113, 50] : Str) <:+: stagedQ1Uri) ∧
    processReceipts .merge (some [stagedQ1Uri]) 0 []
        [serializeReceipt (mapRowToReceipt ⟨[113, 49], [81], 0, 1, [], none, [],
          [113, 49, 46, 112, 110, 103], 0, 0⟩),
         serializeReceipt (mapRowToReceipt ⟨[113, 50], [82], 0, 1, [], none, [],
          [113, 50, 46, 112, 110, 103], 0, 0⟩)] ⟨[], 0, 0, []⟩ =
      (none, ⟨[rowOfReceipt { mapRowToReceipt ⟨[113, 49], [81], 0, 1, [], none, [],
          [113, 49, 46, 112, 110, 103], 0, 0⟩ with
            imageUri := saveImage stagedQ1Uri [113, 49] },
        rowOfReceipt (mapRowToReceipt ⟨[113, 50], [82], 0, 1, [], none, [],
          [113, 50, 46, 112, 110, 103], 0, 0⟩)], 2, 0, []⟩) :=
  ⟨by decide,
    c5_missing_attachment
      (mapRowToReceipt ⟨[113, 49], [81], 0, 1, [], none, [],
        [113, 49, 46, 112, 110, 103], 0, 0⟩)
      (mapRowToReceipt ⟨[113, 50], [82], 0, 1, [], none, [],
        [113, 50, 46, 112, 110, 103], 0, 0⟩)
      stagedQ1Uri .merge 0 (by decide) (by decide) (by decide) (by decide)
      (by decide) (by decide) (by decide) (by decide) (by decide) (by decide)
      (by decide)⟩

/-- Counterexample to the claim that a missing attachment is recorded as an
error and counted as skipped: importing the q archive — one staged file, for
q1 only — imports both records, skips none and records no error, and q2
keeps its archived image path. -/
theorem c5_counterexample :
    (processReceipts .merge (some [stagedQ1Uri]) 0 [] [entryQ1, entryQ2]
        ⟨[], 0, 0, []⟩).1 = none ∧
    (processReceipts .merge (some [stagedQ1Uri]) 0 [] [entryQ1, entryQ2]
        ⟨[], 0, 0, []⟩).2.imported = 2 ∧
    (processReceipts .merge (some [stagedQ1Uri]) 0 [] [entryQ1, entryQ2]
        ⟨[], 0, 0, []⟩).2.skipped = 0 ∧
    (processReceipts .merge (some [stagedQ1Uri]) 0 [] [entryQ1, entryQ2]
        ⟨[], 0, 0, []⟩).2.errors = [] ∧
    (processReceipts .merge (some [stagedQ1Uri]) 0 [] [entryQ1, entryQ2]
        ⟨[], 0, 0, []⟩).2.store.map (fun r => r.image_uri) =
      [strReceiptsDir ++ [113, 49] ++ strDotJpg, [113, 50, 46, 112, 110, 103]] := by
  decide

/-- Escaping a sub-256 code unit emits only sub-256 units. -/
theorem escapeChar_lt256 (c : Nat) (hc : c < 256) :
    ∀ d ∈ escapeChar c, d < 256 := by
  intro d hd
  unfold escapeChar at hd
  have h16a := hexDigit_spec (c / 16)
  have h16b := hexDigit_spec c
  split_ifs at hd <;> simp only [List.mem_cons, List.mem_singleton,
    List.not_mem_nil, or_false] at hd <;> omega

/-- Printed integers are ASCII. -/
theorem printInt_lt256 (i : Int) : ∀ c ∈ printInt i, c < 256 := by
  intro c hc
  unfold printInt at hc
  split_ifs at hc
  · rcases List.mem_cons.1 hc with rfl | hc
    · omega
    · have := printNat_digits _ _ hc
      omega
  · have := printNat_digits _ _ hc
    omega

/-- A quoted string of sub-256 units prints to sub-256 units. -/
theorem quoteStr_lt256 (s : Str) (hs : s.all (fun c => decide (c < 256)) = true) :
    ∀ c ∈ quoteStr s, c < 256 := by
  intro c hc
  rcases List.mem_cons.1 hc with rfl | hc
  · omega
  rcases List.mem_append.1 hc with hc | hc
  · simp only [escapeStr, List.mem_flatMap] at hc
    obtain ⟨a, ha, hmem⟩ := hc
    have ha256 : a < 256 := by
      rw [List.all_eq_true] at hs
      have := hs a ha
      simpa using this
    exact escapeChar_lt256 a ha256 c hmem
  · simp only [List.mem_singleton] at hc
    omega

/-- Indentation is ASCII. -/
theorem spaces_lt256 (n : Nat) : ∀ c ∈ spaces n, c < 256 := by
  intro c hc
  simp only [spaces, List.mem_replicate] at hc
  omega

/-- Printing a value whose strings stay below 256 yields only units below
256: the structural characters, escapes and digits are ASCII and string
units pass through unescaped. -/
theorem latin1_print : ∀ n : Nat,
    (∀ v ind, jweight v ≤ n → latin1V v = true → ∀ c ∈ printV ind v, c < 256) ∧
    (∀ vs ind, jweightList vs + 1 ≤ n → latin1L vs = true →
      ∀ c ∈ printItems ind vs, c < 256) ∧
    (∀ kvs ind, jweightMembers kvs + 1 ≤ n → latin1M kvs = true →
      ∀ c ∈ printMembers ind kvs, c < 256) := by
  intro n
  induction n with
  | zero =>
    refine ⟨?_, ?_, ?_⟩
    · intro v ind hw
      have := jweight_pos v
      omega
    · intro vs ind hw
      omega
    · intro kvs ind hw
      omega
  | succ n ih =>
    obtain ⟨ihP, ihQ, ihR⟩ := ih
    refine ⟨?_, ?_, ?_⟩
    · intro v ind hw hl c hc
      cases v with
      | jnull =>
        simp only [printV, List.mem_cons, List.not_mem_nil, or_false] at hc
        omega
      | jbool b =>
        cases b <;>
          simp only [printV, List.mem_cons, List.not_mem_nil, or_false] at hc <;>
          omega
      | jnum m => exact printInt_lt256 m c hc
      | jstr s =>
        simp only [printV] at hc
        exact quoteStr_lt256 s (by simpa [latin1V] using hl) c hc
      | jarr vs =>
        cases vs with
        | nil =>
          simp only [printV, List.mem_cons, List.not_mem_nil, or_false] at hc
          omega
        | cons v vs =>
          simp only [printV] at hc
          rcases List.mem_append.1 hc with hc | hc
          · simp only [List.mem_cons, List.not_mem_nil, or_false] at hc
            omega
          · exact ihQ (v :: vs) ind (by simp only [jweight] at hw; omega)
              (by simpa [latin1V] using hl) c hc
      | jobj kvs =>
        cases kvs with
        | nil =>
          simp only [printV, List.mem_cons, List.not_mem_nil, or_false] at hc
          omega
        | cons kv kvs =>
          simp only [printV] at hc
          rcases List.mem_append.1 hc with hc | hc
          · simp only [List.mem_cons, List.not_mem_nil, or_false] at hc
            omega
          · exact ihR (kv :: kvs) ind (by simp only [jweight] at hw; omega)
              (by simpa [latin1V] using hl) c hc
    · intro vs ind hw hl c hc
      rcases vs with _ | ⟨v, vs⟩
      · simp [printItems] at hc
      have hlv : latin1V v = true ∧ latin1L vs = true := by
        simpa [latin1L, Bool.and_eq_true] using hl
      have hwv : jweight v ≤ n := by
        have := jweight_pos v
        simp only [jweightList] at hw
        omega
      cases vs with
      | nil =>
        simp only [printItems] at hc
        rcases List.mem_append.1 hc with hc | hc
        rotate_left
        · simp only [List.mem_singleton] at hc
          omega
        rcases List.mem_append.1 hc with hc | hc
        rotate_left
        · exact spaces_lt256 _ c hc
        rcases List.mem_append.1 hc with hc | hc
        rotate_left
        · simp only [List.mem_singleton] at hc
          omega
        rcases List.mem_append.1 hc with hc | hc
        · exact spaces_lt256 _ c hc
        · exact ihP v (ind + 2) hwv hlv.1 c hc
      | cons v2 vs2 =>
        simp only [printItems] at hc
        rcases List.mem_append.1 hc with hc | hc
        rotate_left
        · exact ihQ (v2 :: vs2) ind
            (by simp only [jweightList] at hw ⊢; omega) hlv.2 c hc
        rcases List.mem_append.1 hc with hc | hc
        rotate_left
        · simp only [List.mem_cons, List.not_mem_nil, or_false] at hc
          omega
        rcases List.mem_append.1 hc with hc | hc
        · exact spaces_lt256 _ c hc
        · exact ihP v (ind + 2) hwv hlv.1 c hc
    · intro kvs ind hw hl c hc
      rcases kvs with _ | ⟨⟨k, v⟩, kvs⟩
      · simp [printMembers] at hc
      have hlv : k.all (fun c => decide (c < 256)) = true ∧ latin1V v = true ∧
          latin1M kvs = true := by
        simpa [latin1M, Bool.and_eq_true, and_assoc] using hl
      have hwv : jweight v ≤ n := by
        have := jweight_pos v
        simp only [jweightMembers] at hw
        omega
      cases kvs with
      | nil =>
        simp only [printMembers] at hc
        rcases List.mem_append.1 hc with hc | hc
        rotate_left
        · simp only [List.mem_singleton] at hc
          omega
        rcases List.mem_append.1 hc with hc | hc
        rotate_left
        · exact spaces_lt256 _ c hc
        rcases List.mem_append.1 hc with hc | hc
        rotate_left
        · simp only [List.mem_singleton] at hc
          omega
        rcases List.mem_append.1 hc with hc | hc
        rotate_left
        · exact ihP v (ind + 2) hwv hlv.2.1 c hc
        rcases List.mem_append.1 hc with hc | hc
        rotate_left
        · simp only [List.mem_cons, List.not_mem_nil, or_false] at hc
          omega
        rcases List.mem_append.1 hc with hc | hc
        · exact spaces_lt256 _ c hc
        · exact quoteStr_lt256 k hlv.1 c hc
      | cons kv2 kvs2 =>
        simp only [printMembers] at hc
        rcases List.mem_append.1 hc with hc | hc
        rotate_left
        · exact ihR (kv2 :: kvs2) ind
            (by simp only [jweightMembers] at hw ⊢; omega) hlv.2.2 c hc
        rcases List.mem_append.1 hc with hc | hc
        rotate_left
        · simp only [List.mem_cons, List.not_mem_nil, or_false] at hc
          omega
        rcases List.mem_append.1 hc with hc | hc
        rotate_left
        · exact ihP v (ind + 2) hwv hlv.2.1 c hc
        rcases List.mem_append.1 hc with hc | hc
        rotate_left
        · simp only [List.mem_cons, List.not_mem_nil, or_false] at hc
          omega
        rcases List.mem_append.1 hc with hc | hc
        · exact spaces_lt256 _ c hc
        · exact quoteStr_lt256 k hlv.1 c hc

/-- Two-digit pads are ASCII. -/
theorem pad2_lt256 (n : Nat) : ∀ c ∈ pad2 n, c < 256 := by
  intro c hc
  simp only [pad2, List.mem_cons, List.not_mem_nil, or_false] at hc
  omega

/-- Three-digit pads are ASCII. -/
theorem pad3_lt256 (n : Nat) : ∀ c ∈ pad3 n, c < 256 := by
  intro c hc
  simp only [pad3, List.mem_cons, List.not_mem_nil, or_false] at hc
  omega

/-- Four-digit pads are ASCII. -/
theorem pad4_lt256 (n : Nat) : ∀ c ∈ pad4 n, c < 256 := by
  intro c hc
  simp only [pad4, List.mem_cons, List.not_mem_nil, or_false] at hc
  omega

/-- Six-digit pads are ASCII. -/
theorem pad6_lt256 (n : Nat) : ∀ c ∈ pad6 n, c < 256 := by
  intro c hc
  simp only [pad6, List.mem_cons, List.not_mem_nil, or_false] at hc
  omega

/-- Rendered years are ASCII. -/
theorem yearStr_lt256 (y : Int) : ∀ c ∈ yearStr y, c < 256 := by
  intro c hc
  unfold yearStr at hc
  split_ifs at hc
  · exact pad4_lt256 _ c hc
  · rcases List.mem_cons.1 hc with rfl | hc
    · omega
    · exact pad6_lt256 _ c hc
  · rcases List.mem_cons.1 hc with rfl | hc
    · omega
    · exact pad6_lt256 _ c hc

/-- ISO timestamps are ASCII. -/
theorem toISOString_lt256 (t : Int) : ∀ c ∈ toISOString t, c < 256 := by
  intro c hc
  unfold toISOString printIsoOf at hc
  simp only [List.append_assoc, List.mem_append, List.mem_singleton] at hc
  rcases hc with hc | rfl | hc | rfl | hc | rfl | hc | rfl | hc | rfl | hc | rfl | hc | rfl
  · exact yearStr_lt256 _ c hc
  · omega
  · exact pad2_lt256 _ c hc
  · omega
  · exact pad2_lt256 _ c hc
  · omega
  · exact pad2_lt256 _ c hc
  · omega
  · exact pad2_lt256 _ c hc
  · omega
  · exact pad2_lt256 _ c hc
  · omega
  · exact pad3_lt256 _ c hc
  · omega

/-- ISO timestamps pass the latin1 test. -/
theorem toISOString_all256 (t : Int) :
    (toISOString t).all (fun c => decide (c < 256)) = true := by
  rw [List.all_eq_true]
  intro c hc
  simpa using toISOString_lt256 t c hc

/-- Mapped string arrays pass the latin1 test when their strings do. -/
theorem latin1L_map_jstr (l : List Str)
    (h : l.all (fun t => t.all (fun c => decide (c < 256))) = true) :
    latin1L (l.map JValue.jstr) = true := by
  induction l with
  | nil => rfl
  | cons s t ih =>
    simp only [List.all_cons, Bool.and_eq_true] at h
    simp only [List.map_cons, latin1L, latin1V, Bool.and_eq_true]
    exact ⟨h.1, ih h.2⟩

/-- Member lists are latin1-clean exactly when every key and value is. -/
theorem latin1M_iff (kvs : List (Str × JValue)) :
    latin1M kvs = true ↔
      ∀ kv ∈ kvs, kv.1.all (fun c => decide (c < 256)) = true ∧ latin1V kv.2 = true := by
  induction kvs with
  | nil => simp [latin1M]
  | cons kv kvs ih =>
    simp only [latin1M, Bool.and_eq_true, ih, List.mem_cons]
    constructor
    · rintro ⟨⟨hk, hv⟩, hrest⟩ x (rfl | hx)
      · exact ⟨hk, hv⟩
      · exact hrest x hx
    · intro h
      exact ⟨⟨(h kv (Or.inl rfl)).1, (h kv (Or.inl rfl)).2⟩,
        fun x hx => h x (Or.inr hx)⟩

/-- A serialized receipt read from a latin1-clean row is latin1-clean. -/
theorem latin1V_serialize (row : Row) (h : rowLatin1 row = true) :
    latin1V (serializeReceipt (mapRowToReceipt row)) = true := by
  simp only [rowLatin1, Bool.and_eq_true] at h
  obtain ⟨⟨⟨⟨⟨hid, hsn⟩, htg⟩, hnt⟩, hoc⟩, him⟩ := h
  obtain ⟨i, sn, d, ta, tg, notes, oc, im, ca, ua⟩ := row
  simp only at hid hsn htg hnt hoc him
  have Hid : latin1V (.jstr i) = true := by simp only [latin1V]; exact hid
  have Hsn : latin1V (.jstr sn) = true := by simp only [latin1V]; exact hsn
  have Hoc : latin1V (.jstr oc) = true := by simp only [latin1V]; exact hoc
  have Him : latin1V (.jstr im) = true := by simp only [latin1V]; exact him
  have Hnum : ∀ z : Int, latin1V (.jnum z) = true := fun z => by simp [latin1V]
  have Hnull : latin1V .jnull = true := by simp [latin1V]
  have Hiso : ∀ t : Int, latin1V (.jstr (toISOString t)) = true := fun t => by
    simp only [latin1V]
    exact toISOString_all256 t
  have Htags : latin1V (.jarr (tg.map JValue.jstr)) = true := by
    simp only [latin1V]
    exact latin1L_map_jstr tg (by
      rw [List.all_eq_true] at htg ⊢
      intro x hx
      exact htg x hx)
  rcases notes with _ | s
  · rw [show serializeReceipt (mapRowToReceipt ⟨i, sn, d, ta, tg, none, oc, im, ca, ua⟩) =
      JValue.jobj [(strIdKey, .jstr i), (strStoreNameKey, .jstr sn),
        (strDateKey, .jstr (toISOString d)), (strTotalAmountKey, .jnum ta),
        (strTagsKey, .jarr (tg.map JValue.jstr)), (strNotesKey, .jnull),
        (strOcrTextKey, .jstr oc), (strImageUriKey, .jstr im),
        (strCreatedAtKey, .jstr (toISOString ca)),
        (strUpdatedAtKey, .jstr (toISOString ua))] from rfl]
    simp only [latin1V]
    rw [latin1M_iff]
    intro kv hkv
    simp only [List.mem_cons, List.not_mem_nil, or_false] at hkv
    rcases hkv with rfl | rfl | rfl | rfl | rfl | rfl | rfl | rfl | rfl | rfl
    · exact ⟨rfl, Hid⟩
    · exact ⟨rfl, Hsn⟩
    · exact ⟨rfl, Hiso d⟩
    · exact ⟨rfl, Hnum ta⟩
    · exact ⟨rfl, Htags⟩
    · exact ⟨rfl, Hnull⟩
    · exact ⟨rfl, Hoc⟩
    · exact ⟨rfl, Him⟩
    · exact ⟨rfl, Hiso ca⟩
    · exact ⟨rfl, Hiso ua⟩
  · have Hs : latin1V (.jstr s) = true := by
      simp only [latin1V]
      simpa using hnt
    rw [show serializeReceipt (mapRowToReceipt ⟨i, sn, d, ta, tg, some s, oc, im, ca, ua⟩) =
      JValue.jobj [(strIdKey, .jstr i), (strStoreNameKey, .jstr sn),
        (strDateKey, .jstr (toISOString d)), (strTotalAmountKey, .jnum ta),
        (strTagsKey, .jarr (tg.map JValue.jstr)), (strNotesKey, .jstr s),
        (strOcrTextKey, .jstr oc), (strImageUriKey, .jstr im),
        (strCreatedAtKey, .jstr (toISOString ca)),
        (strUpdatedAtKey, .jstr (toISOString ua))] from rfl]
    simp only [latin1V]
    rw [latin1M_iff]
    intro kv hkv
    simp only [List.mem_cons, List.not_mem_nil, or_false] at hkv
    rcases hkv with rfl | rfl | rfl | rfl | rfl | rfl | rfl | rfl | rfl | rfl
    · exact ⟨rfl, Hid⟩
    · exact ⟨rfl, Hsn⟩
    · exact ⟨rfl, Hiso d⟩
    · exact ⟨rfl, Hnum ta⟩
    · exact ⟨rfl, Htags⟩
    · exact ⟨rfl, Hs⟩
    · exact ⟨rfl, Hoc⟩
    · exact ⟨rfl, Him⟩
    · exact ⟨rfl, Hiso ca⟩
    · exact ⟨rfl, Hiso ua⟩

/-- The image rewrite only ever touches the imageUri field. -/
theorem entryReceipt_shape (images? : Option (List Str)) (rid : Str) (y : Receipt) :
    ∃ u, entryReceipt images? rid y = { y with imageUri := u } := by
  unfold entryReceipt
  cases images? with
  | none => exact ⟨y.imageUri, rfl⟩
  | some files =>
    simp only []
    cases hf : files.find? (fun uri => decide (rid <:+: uri)) with
    | none =>
      simp only [hf]
      exact ⟨y.imageUri, rfl⟩
    | some uri =>
      simp only [hf]
      exact ⟨saveImage uri rid, rfl⟩

/-- The image rewrite keeps the id. -/
theorem entryReceipt_id (images? : Option (List Str)) (rid : Str) (y : Receipt) :
    (entryReceipt images? rid y).id = y.id := by
  obtain ⟨u, hu⟩ := entryReceipt_shape images? rid y
  rw [hu]

/-- The image rewrite keeps a receipt valid. -/
theorem validateReceipt_entryReceipt (images? : Option (List Str)) (rid : Str)
    (y : Receipt) (hval : validateReceipt y = true) :
    validateReceipt (entryReceipt images? rid y) = true := by
  unfold entryReceipt
  cases images? with
  | none => exact hval
  | some files =>
    simp only []
    cases hf : files.find? (fun uri => decide (rid <:+: uri)) with
    | none =>
      simp only [hf]
      exact hval
    | some uri =>
      simp only [hf]
      exact validateReceipt_setImage y uri rid hval

/-- The row the loop inserts for a serialized row matches the original on
every column except the image path, notes included, as long as the notes are
not the empty string the INSERT would null out. -/
theorem rowEqExceptImage_entry (images? : Option (List Str)) (row : Row)
    (hnotes : ¬ row.notes = some []) :
    rowEqExceptImage (rowOfReceipt (entryReceipt images? row.id (mapRowToReceipt row)))
      row := by
  obtain ⟨u, hu⟩ := entryReceipt_shape images? row.id (mapRowToReceipt row)
  rw [hu]
  obtain ⟨i, sn, d, ta, tg, notes, oc, im, ca, ua⟩ := row
  simp only at hnotes
  refine ⟨rfl, rfl, rfl, rfl, rfl, ?_, rfl, rfl, rfl⟩
  rcases notes with _ | s
  · rfl
  · cases s with
    | nil => exact absurd rfl hnotes
    | cons a t => rfl

/-- The serialized receipt list of latin1-clean rows is latin1-clean. -/
theorem latin1L_serialize_map (rows : List Row)
    (h : ∀ r ∈ rows, rowLatin1 r = true) :
    latin1L ((rows.map mapRowToReceipt).map serializeReceipt) = true := by
  induction rows with
  | nil => rfl
  | cons r rows ih =>
    simp only [List.map_cons, latin1L, Bool.and_eq_true]
    exact ⟨latin1V_serialize r (h r (List.mem_cons_self r rows)),
      ih (fun x hx => h x (List.mem_cons_of_mem r hx))⟩

/-- The export metadata of latin1-clean rows is latin1-clean throughout. -/
theorem latin1V_exportMetadata (rows : List Row) (now : Int)
    (h : ∀ r ∈ rows, rowLatin1 r = true) :
    latin1V (exportMetadata (rows.map mapRowToReceipt) now) = true := by
  simp only [exportMetadata, latin1V]
  rw [latin1M_iff]
  intro kv hkv
  simp only [List.mem_cons, List.not_mem_nil, or_false] at hkv
  rcases hkv with rfl | rfl | rfl | rfl
  · exact ⟨rfl, rfl⟩
  · refine ⟨rfl, ?_⟩
    simp only [latin1V]
    exact toISOString_all256 now
  · exact ⟨rfl, by simp [latin1V]⟩
  · refine ⟨rfl, ?_⟩
    simp only [latin1V]
    exact latin1L_serialize_map rows h

/-- Narrowing to bytes is the identity on latin1-clean text. -/
theorem map_mod256_eq_self (l : Str) (h : ∀ c ∈ l, c < 256) :
    l.map (fun c => c % 256) = l := by
  have h2 : l.map (fun c => c % 256) = l.map id :=
    List.map_congr_left (fun c hc => by simp [Nat.mod_eq_of_lt (h c hc)])
  rw [h2, List.map_id]

/-- Importing serialized fresh rows inserts one row per record — equal to
its source on everything but the image path — and records no skip and no
error, whatever the strategy and staged files. -/
theorem processReceipts_fresh_inserts (strategy : ImportStrategy)
    (images? : Option (List Str)) (now : Int) :
    ∀ (rows : List Row) (store : List Row) (imp skp : Nat) (errs : List Str),
      (∀ r ∈ rows, validateReceipt (mapRowToReceipt r) = true ∧
        timeClipRange r.date ∧ timeClipRange r.created_at ∧
        timeClipRange r.updated_at ∧ ¬ r.notes = some []) →
      ((rows.map Row.id).Nodup) →
      (∀ r ∈ rows, ∀ s ∈ store, ¬ s.id = r.id) →
      ∃ rows2, List.Forall₂ rowEqExceptImage rows2 rows ∧
        processReceipts strategy images? now []
          (rows.map (fun r => serializeReceipt (mapRowToReceipt r)))
          ⟨store, imp, skp, errs⟩ =
        (none, ⟨store ++ rows2, imp + rows.length, skp, errs⟩) := by
  intro rows
  induction rows with
  | nil =>
    intro store imp skp errs _ _ _
    refine ⟨[], List.Forall₂.nil, ?_⟩
    rw [List.map_nil, processReceipts]
    simp
  | cons r rows ih =>
    intro store imp skp errs hwf hnodup hfresh
    obtain ⟨hval, hd, hc, hu, hnt⟩ := hwf r (List.mem_cons_self r rows)
    rw [List.map_cons] at hnodup
    rw [List.map_cons, processReceipts,
      if_neg (by rw [isJNull_serializeReceipt]; exact Bool.false_ne_true)]
    have he : processEntry strategy images? now []
        (serializeReceipt (mapRowToReceipt r)) ⟨store, imp, skp, errs⟩ =
        ⟨store ++ [rowOfReceipt (entryReceipt images? r.id (mapRowToReceipt r))],
          imp + 1, skp, errs⟩ := by
      simp only [processEntry, rawId_serializeReceipt]
      rw [if_neg (fun h => List.not_mem_nil _ h.1)]
      rw [decodeReceipt_serializeReceipt (mapRowToReceipt r) hd hc hu]
      simp only []
      rw [if_neg (fun h => List.not_mem_nil _ h.1)]
      have hst : entryStore strategy [] (mapRowToReceipt r).id store = store := by
        unfold entryStore
        rw [if_neg (fun h => List.not_mem_nil _ h.1)]
      rw [hst]
      rw [saveReceipt_insert _ store
        (validateReceipt_entryReceipt images? (mapRowToReceipt r).id
          (mapRowToReceipt r) hval)
        (by
          intro s hs
          rw [entryReceipt_id]
          exact hfresh r (List.mem_cons_self r rows) s hs)]
      rfl
    rw [he]
    have hfresh2 : ∀ r2 ∈ rows,
        ∀ s ∈ store ++ [rowOfReceipt (entryReceipt images? r.id (mapRowToReceipt r))],
        ¬ s.id = r2.id := by
      intro r2 hr2 s hs
      rcases List.mem_append.1 hs with hs | hs
      · exact hfresh r2 (List.mem_cons_of_mem r hr2) s hs
      · rw [List.mem_singleton] at hs
        subst hs
        intro hh
        have hmem2 : r2.id ∈ rows.map Row.id := List.mem_map_of_mem _ hr2
        rw [← hh] at hmem2
        rw [show (rowOfReceipt (entryReceipt images? r.id (mapRowToReceipt r))).id = r.id
          from entryReceipt_id images? r.id (mapRowToReceipt r)] at hmem2
        exact (List.nodup_cons.1 hnodup).1 hmem2
    obtain ⟨rows2, hf2, heq⟩ := ih
      (store ++ [rowOfReceipt (entryReceipt images? r.id (mapRowToReceipt r))])
      (imp + 1) skp errs
      (fun x hx => hwf x (List.mem_cons_of_mem r hx))
      (List.nodup_cons.1 hnodup).2 hfresh2
    refine ⟨rowOfReceipt (entryReceipt images? r.id (mapRowToReceipt r)) :: rows2,
      List.Forall₂.cons (rowEqExceptImage_entry images? r hnt) hf2, ?_⟩
    rw [heq]
    have e1 : (store ++ [rowOfReceipt (entryReceipt images? r.id (mapRowToReceipt r))])
        ++ rows2 =
        store ++ rowOfReceipt (entryReceipt images? r.id (mapRowToReceipt r)) :: rows2 := by
      simp
    have e2 : imp + 1 + rows.length = imp + (rows.length + 1) := by omega
    rw [e1, e2, List.length_cons]

/-- Unfolding importData on an archive whose ciphertext decrypts to printed
metadata with a receipts array. -/
theorem importData_printed (salt enc : Str) (files? : Option (List Str))
    (password : Str) (strategy : ImportStrategy) (store : List Row) (now : Int)
    (metadata : JValue) (receiptList : List JValue)
    (hdec : decryptDataWithPassword enc password salt = printJson metadata)
    (hmr : metadataReceipts metadata = some receiptList) :
    importData ⟨some salt, some enc, files?⟩ password strategy store now =
      processEnd (processReceipts strategy files? now (store.map (fun r => r.id))
        receiptList ⟨store, 0, 0, []⟩) := by
  simp only [importData]
  rw [hdec, parseJson_printJson]
  simp only []
  rw [hmr]

/-- C1: export followed by import with the same password and the replace
strategy against an empty store restores every record field-for-field,
modulo the rewritten attachment path, provided the records keep their
string units below 256 — the cipher narrows UTF-16 code units to bytes, so
only latin1-clean stores round-trip (see the counterexample). The store
invariants assumed here — validating fields, distinct ids, notes never the
empty string, representable timestamps — hold of every row the storage
layer inserts. -/
theorem c1_export_import_roundtrip (rows : List Row) (images : List Str)
    (password seed pre : Str) (nowE nowI : Int)
    (hne : ¬ rows = [])
    (hwf : ∀ r ∈ rows, validateReceipt (mapRowToReceipt r) = true ∧
      timeClipRange r.date ∧ timeClipRange r.created_at ∧
      timeClipRange r.updated_at ∧ ¬ r.notes = some [] ∧ rowLatin1 r = true)
    (hnodup : (rows.map Row.id).Nodup) :
    ∃ ar, exportData rows images password seed nowE = .ok ar ∧
      ∃ res store2,
        importData ⟨ar.salt?, ar.metadataEnc?,
          ar.imageFiles?.map (List.map (fun f => pre ++ f))⟩ password .replace [] nowI =
          (.ok res, store2) ∧
        res.success = true ∧ res.imported = rows.length ∧ res.skipped = 0 ∧
        res.errors = [] ∧ List.Forall₂ rowEqExceptImage store2 rows := by
  have hempty : (List.map mapRowToReceipt rows).isEmpty = false := by
    cases rows with
    | nil => exact absurd rfl hne
    | cons a l => rfl
  have hexp : exportData rows images password seed nowE =
      .ok ⟨some (encryptDataWithPassword
          (printJson (exportMetadata (rows.map mapRowToReceipt) nowE)) password seed).2,
        some (encryptDataWithPassword
          (printJson (exportMetadata (rows.map mapRowToReceipt) nowE)) password seed).1,
        some (rows.filterMap (fun r => (getImage r.id images).map
          (fun uri => r.id ++ 46 :: stagedExtension uri)))⟩ := by
    simp only [exportData]
    rw [if_neg (by rw [hempty]; exact Bool.false_ne_true)]
  have h256 : ∀ c ∈ printJson (exportMetadata (rows.map mapRowToReceipt) nowE),
      c < 256 :=
    fun c hc =>
      (latin1_print (jweight (exportMetadata (rows.map mapRowToReceipt) nowE))).1
        _ 0 le_rfl
        (latin1V_exportMetadata rows nowE (fun r hr => (hwf r hr).2.2.2.2.2)) c hc
  have hdecJ : decryptDataWithPassword
      (encryptDataWithPassword
        (printJson (exportMetadata (rows.map mapRowToReceipt) nowE)) password seed).1
      password
      (encryptDataWithPassword
        (printJson (exportMetadata (rows.map mapRowToReceipt) nowE)) password seed).2 =
      printJson (exportMetadata (rows.map mapRowToReceipt) nowE) := by
    rw [decrypt_encrypt_mod]
    exact map_mod256_eq_self _ h256
  obtain ⟨rows2, hf2, heq⟩ := processReceipts_fresh_inserts .replace
    (some ((rows.filterMap (fun r => (getImage r.id images).map
      (fun uri => r.id ++ 46 :: stagedExtension uri))).map (fun f => pre ++ f)))
    nowI rows [] 0 0 []
    (fun r hr => ⟨(hwf r hr).1, (hwf r hr).2.1, (hwf r hr).2.2.1,
      (hwf r hr).2.2.2.1, (hwf r hr).2.2.2.2.1⟩)
    hnodup
    (fun r _ s hs => absurd hs (List.not_mem_nil s))
  have himp : importData ⟨some (encryptDataWithPassword
        (printJson (exportMetadata (rows.map mapRowToReceipt) nowE)) password seed).2,
      some (encryptDataWithPassword
        (printJson (exportMetadata (rows.map mapRowToReceipt) nowE)) password seed).1,
      some ((rows.filterMap (fun r => (getImage r.id images).map
        (fun uri => r.id ++ 46 :: stagedExtension uri))).map (fun f => pre ++ f))⟩
      password .replace [] nowI = (.ok ⟨true, rows.length, 0, []⟩, rows2) := by
    rw [importData_printed _ _ _ _ _ _ _ _
      ((rows.map mapRowToReceipt).map serializeReceipt) hdecJ rfl]
    rw [show (rows.map mapRowToReceipt).map serializeReceipt =
      rows.map (fun r => serializeReceipt (mapRowToReceipt r)) from by
        rw [List.map_map]
        rfl]
    rw [show (([] : List Row).map (fun r => r.id)) = [] from rfl]
    rw [heq]
    simp only [processEnd, List.nil_append, Nat.zero_add]
  refine ⟨_, hexp, ⟨true, rows.length, 0, []⟩, rows2, ?_, rfl, rfl, rfl, rfl, hf2⟩
  simpa only [Option.map_some, Option.map_some'] using himp

/-- Witness for C1 at a one-row latin1-clean store. -/
theorem c1_export_import_roundtrip_witness :
    (¬ ([rowX0] : List Row) = [] ∧
      (∀ r ∈ ([rowX0] : List Row), validateReceipt (mapRowToReceipt r) = true ∧
        timeClipRange r.date ∧ timeClipRange r.created_at ∧
        timeClipRange r.updated_at ∧ ¬ r.notes = some [] ∧ rowLatin1 r = true) ∧
      (([rowX0] : List Row).map Row.id).Nodup) ∧
    (∃ ar, exportData [rowX0] [] [112] [115] 0 = .ok ar ∧
      ∃ res store2,
        importData ⟨ar.salt?, ar.metadataEnc?,
          ar.imageFiles?.map (List.map (fun f => [116, 47] ++ f))⟩ [112] .replace [] 5 =
          (.ok res, store2) ∧
        res.success = true ∧ res.imported = ([rowX0] : List Row).length ∧
        res.skipped = 0 ∧ res.errors = [] ∧
        List.Forall₂ rowEqExceptImage store2 [rowX0]) :=
  ⟨⟨by decide, by decide, by decide⟩,
    c1_export_import_roundtrip [rowX0] [] [112] [115] [116, 47] 0 5
      (by decide) (by decide) (by decide)⟩

/-- Bytes are escape-safe. -/
theorem safeUnit_of_lt256 (c : Nat) (h : c < 256) : safeUnit c = true := by
  simp [safeUnit, h]

/-- Sub-256 strings are escape-safe. -/
theorem all_safeUnit_of_lt256 (s : Str) (h : ∀ c ∈ s, c < 256) :
    s.all safeUnit = true := by
  rw [List.all_eq_true]
  exact fun c hc => safeUnit_of_lt256 c (h c hc)

/-- The default branch of the escape table: a unit that is none of the
escaped characters and not a control prints as itself. -/
theorem escapeChar_default (c : Nat) (h34 : ¬ c = 34) (h92 : ¬ c = 92)
    (h8 : ¬ c = 8) (h9 : ¬ c = 9) (h10 : ¬ c = 10) (h12 : ¬ c = 12)
    (h13 : ¬ c = 13) (h32 : ¬ c < 32) : escapeChar c = [c] := by
  unfold escapeChar
  rw [if_neg h34, if_neg h92, if_neg h8, if_neg h9, if_neg h10, if_neg h12,
    if_neg h13, if_neg h32]

/-- Byte narrowing commutes with escaping on safe units. -/
theorem escapeChar_map256 (c : Nat) (h : safeUnit c = true) :
    (escapeChar c).map (fun x => x % 256) = escapeChar (c % 256) := by
  by_cases hc : c < 256
  · have hm : c % 256 = c := Nat.mod_eq_of_lt hc
    rw [hm]
    unfold escapeChar
    have h16a := hexDigit_spec (c / 16)
    have h16b := hexDigit_spec c
    split_ifs with h1 h2 h3 h4 h5 h6 h7 h8
    · subst h1; rfl
    · subst h2; rfl
    · subst h3; rfl
    · subst h4; rfl
    · subst h5; rfl
    · subst h6; rfl
    · subst h7; rfl
    · have a1 : hexDigit (c / 16) % 256 = hexDigit (c / 16) :=
        Nat.mod_eq_of_lt (by omega)
      have a2 : hexDigit c % 256 = hexDigit c := Nat.mod_eq_of_lt (by omega)
      simp [a1, a2]
    · simp [Nat.mod_eq_of_lt hc]
  · simp only [safeUnit, Bool.or_eq_true, Bool.and_eq_true, Bool.not_eq_true',
      decide_eq_true_eq, decide_eq_false_iff_not] at h
    rcases h with h | ⟨⟨hge, h34⟩, h92⟩
    · omega
    · rw [escapeChar_default c (by omega) (by omega) (by omega) (by omega)
        (by omega) (by omega) (by omega) (by omega)]
      rw [escapeChar_default (c % 256) h34 h92 (by omega) (by omega) (by omega)
        (by omega) (by omega) (by omega)]
      rfl

/-- Byte narrowing commutes with string-body escaping on safe strings. -/
theorem escapeStr_map256 (s : Str) (h : s.all safeUnit = true) :
    (escapeStr s).map (fun x => x % 256) = escapeStr (s.map (fun c => c % 256)) := by
  induction s with
  | nil => rfl
  | cons c t ih =>
    simp only [List.all_cons, Bool.and_eq_true] at h
    simp only [escapeStr, List.flatMap_cons, List.map_append, List.map_cons]
    rw [escapeChar_map256 c h.1]
    simp only [escapeStr] at ih
    rw [ih h.2]

/-- Byte narrowing commutes with string quoting on safe strings. -/
theorem quoteStr_map256 (s : Str) (h : s.all safeUnit = true) :
    (quoteStr s).map (fun x => x % 256) = quoteStr (s.map (fun c => c % 256)) := by
  simp only [quoteStr, List.map_cons, List.map_append, List.map_nil]
  rw [escapeStr_map256 s h]

/-- Indentation is untouched by byte narrowing. -/
theorem spaces_map256 (n : Nat) : (spaces n).map (fun x => x % 256) = spaces n :=
  map_mod256_eq_self _ (spaces_lt256 n)

/-- Printed integers are untouched by byte narrowing. -/
theorem printInt_map256 (i : Int) : (printInt i).map (fun x => x % 256) = printInt i :=
  map_mod256_eq_self _ (printInt_lt256 i)

/-- Byte narrowing of the printed form is the printed form of the
unit-narrowed value, on escape-safe values. -/
theorem print_map256 : ∀ n : Nat,
    (∀ v ind, jweight v ≤ n → jsafe v = true →
      (printV ind v).map (fun c => c % 256) = printV ind (jmap256 v)) ∧
    (∀ vs ind, jweightList vs + 1 ≤ n → jsafeL vs = true →
      (printItems ind vs).map (fun c => c % 256) = printItems ind (jmapL256 vs)) ∧
    (∀ kvs ind, jweightMembers kvs + 1 ≤ n → jsafeM kvs = true →
      (printMembers ind kvs).map (fun c => c % 256) = printMembers ind (jmapM256 kvs)) := by
  intro n
  induction n with
  | zero =>
    refine ⟨?_, ?_, ?_⟩
    · intro v ind hw
      have := jweight_pos v
      omega
    · intro vs ind hw
      omega
    · intro kvs ind hw
      omega
  | succ n ih =>
    obtain ⟨ihP, ihQ, ihR⟩ := ih
    refine ⟨?_, ?_, ?_⟩
    · intro v ind hw hs
      cases v with
      | jnull => simp [printV, jmap256]
      | jbool b => cases b <;> simp [printV, jmap256]
      | jnum m =>
        simp only [jmap256, printV]
        exact printInt_map256 m
      | jstr s =>
        simp only [jmap256, printV]
        exact quoteStr_map256 s (by simpa [jsafe] using hs)
      | jarr vs =>
        cases vs with
        | nil => simp [printV, jmap256, jmapL256]
        | cons v vs =>
          have hq := ihQ (v :: vs) ind (by simp only [jweight] at hw; omega)
            (by simpa [jsafe] using hs)
          simp [printV, jmap256, jmapL256, hq]
      | jobj kvs =>
        cases kvs with
        | nil => simp [printV, jmap256, jmapM256]
        | cons kv kvs =>
          have hr := ihR (kv :: kvs) ind (by simp only [jweight] at hw; omega)
            (by simpa [jsafe] using hs)
          simp [printV, jmap256, jmapM256, hr]
    · intro vs ind hw hs
      rcases vs with _ | ⟨v, vs⟩
      · simp [printItems, jmapL256]
      have hsv : jsafe v = true ∧ jsafeL vs = true := by
        simpa [jsafeL, Bool.and_eq_true] using hs
      have hwv : jweight v ≤ n := by
        have := jweight_pos v
        simp only [jweightList] at hw
        omega
      have hp := ihP v (ind + 2) hwv hsv.1
      cases vs with
      | nil => simp [printItems, jmapL256, spaces_map256, hp]
      | cons v2 vs2 =>
        have hq := ihQ (v2 :: vs2) ind
          (by simp only [jweightList] at hw ⊢; omega) hsv.2
        simp [printItems, jmapL256, spaces_map256, hp, hq]
    · intro kvs ind hw hs
      rcases kvs with _ | ⟨⟨k, v⟩, kvs⟩
      · simp [printMembers, jmapM256]
      have hsv := hs
      simp only [jsafeM, Bool.and_eq_true] at hsv
      obtain ⟨⟨hk1, hv1⟩, hm1⟩ := hsv
      have hwv : jweight v ≤ n := by
        have := jweight_pos v
        simp only [jweightMembers] at hw
        omega
      have hp := ihP v (ind + 2) hwv hv1
      have hk := quoteStr_map256 k hk1
      cases kvs with
      | nil => simp [printMembers, jmapM256, spaces_map256, hp, hk]
      | cons kv2 kvs2 =>
        have hr := ihR (kv2 :: kvs2) ind
          (by simp only [jweightMembers] at hw ⊢; omega) hm1
        simp [printMembers, jmapM256, spaces_map256, hp, hk, hr]

/-- Byte narrowing of a stringified value is the stringification of the
unit-narrowed value, on escape-safe values. -/
theorem printJson_map256 (v : JValue) (h : jsafe v = true) :
    (printJson v).map (fun c => c % 256) = printJson (jmap256 v) :=
  (print_map256 (jweight v)).1 v 0 le_rfl h

/-- Membership form of `jsafeM`. -/
theorem jsafeM_iff (kvs : List (Str × JValue)) :
    jsafeM kvs = true ↔
      ∀ kv ∈ kvs, kv.1.all safeUnit = true ∧ jsafe kv.2 = true := by
  induction kvs with
  | nil => simp [jsafeM]
  | cons kv kvs ih =>
    simp only [jsafeM, Bool.and_eq_true, ih, List.mem_cons]
    constructor
    · rintro ⟨⟨hk, hv⟩, hrest⟩ x (rfl | hx)
      · exact ⟨hk, hv⟩
      · exact hrest x hx
    · intro h
      exact ⟨⟨(h kv (Or.inl rfl)).1, (h kv (Or.inl rfl)).2⟩,
        fun x hx => h x (Or.inr hx)⟩

/-- The serialized counterexample row is escape-safe: its only non-byte
unit, the 321 of the store name, narrows to a plain letter. -/
theorem jsafe_serialize_rowHi :
    jsafe (serializeReceipt (mapRowToReceipt rowHi)) = true := by
  rw [show serializeReceipt (mapRowToReceipt rowHi) =
    JValue.jobj [(strIdKey, .jstr [120]), (strStoreNameKey, .jstr [321]),
      (strDateKey, .jstr (toISOString 0)), (strTotalAmountKey, .jnum 1),
      (strTagsKey, .jarr []), (strNotesKey, .jnull),
      (strOcrTextKey, .jstr []), (strImageUriKey, .jstr [105]),
      (strCreatedAtKey, .jstr (toISOString 0)),
      (strUpdatedAtKey, .jstr (toISOString 0))] from rfl]
  have Hiso : (toISOString (0 : Int)).all safeUnit = true :=
    all_safeUnit_of_lt256 _ (toISOString_lt256 0)
  simp only [jsafe]
  rw [jsafeM_iff]
  intro kv hkv
  simp only [List.mem_cons, List.not_mem_nil, or_false] at hkv
  rcases hkv with rfl | rfl | rfl | rfl | rfl | rfl | rfl | rfl | rfl | rfl
  · exact ⟨by decide, by simp only [jsafe]; decide⟩
  · exact ⟨by decide, by simp only [jsafe]; decide⟩
  · exact ⟨by decide, by simp only [jsafe]; exact Hiso⟩
  · exact ⟨by decide, by simp [jsafe]⟩
  · exact ⟨by decide, by simp [jsafe, jsafeL]⟩
  · exact ⟨by decide, by simp [jsafe]⟩
  · exact ⟨by decide, by simp only [jsafe]; decide⟩
  · exact ⟨by decide, by simp only [jsafe]; decide⟩
  · exact ⟨by decide, by simp only [jsafe]; exact Hiso⟩
  · exact ⟨by decide, by simp only [jsafe]; exact Hiso⟩

/-- The counterexample export metadata is escape-safe throughout. -/
theorem jsafe_exportMetadata_rowHi :
    jsafe (exportMetadata [mapRowToReceipt rowHi] 0) = true := by
  rw [show exportMetadata [mapRowToReceipt rowHi] 0 =
    JValue.jobj [(strVersionKey, .jstr strVersionValue),
      (strExportDateKey, .jstr (toISOString 0)),
      (strReceiptCountKey, .jnum 1),
      (strReceiptsKey, .jarr [serializeReceipt (mapRowToReceipt rowHi)])] from rfl]
  simp only [jsafe]
  rw [jsafeM_iff]
  intro kv hkv
  simp only [List.mem_cons, List.not_mem_nil, or_false] at hkv
  rcases hkv with rfl | rfl | rfl | rfl
  · exact ⟨by decide, by simp only [jsafe]; decide⟩
  · refine ⟨by decide, ?_⟩
    simp only [jsafe]
    exact all_safeUnit_of_lt256 _ (toISOString_lt256 0)
  · exact ⟨by decide, by simp [jsafe]⟩
  · refine ⟨by decide, ?_⟩
    simp only [jsafe, jsafeL, Bool.and_eq_true]
    exact ⟨jsafe_serialize_rowHi, trivial⟩

/-- Narrowing the counterexample metadata to bytes turns the 321 of the
store name into 65 and leaves everything else alone. -/
theorem jmap256_exportMetadata_rowHi :
    jmap256 (exportMetadata [mapRowToReceipt rowHi] 0) =
      exportMetadata [mapRowToReceipt rowLo] 0 := by
  have hiso : (toISOString (0 : Int)).map (fun c => c % 256) = toISOString 0 :=
    map_mod256_eq_self _ (toISOString_lt256 0)
  simp [exportMetadata, serializeReceipt, mapRowToReceipt, rowHi, rowLo,
    jmap256, jmapM256, jmapL256, hiso]
  decide

/-- C1 counterexample: a store row that passes every storage-layer invariant
but carries the code unit 321 in its store name exports and imports back
without any error, yet the restored store name is the narrowed 65 — the
cipher transport truncates UTF-16 code units to bytes, so the
field-for-field roundtrip claimed without the latin1 restriction fails. -/
theorem c1_counterexample :
    (¬ ([rowHi] : List Row) = []) ∧
    (∀ r ∈ ([rowHi] : List Row), validateReceipt (mapRowToReceipt r) = true ∧
      timeClipRange r.date ∧ timeClipRange r.created_at ∧
      timeClipRange r.updated_at ∧ ¬ r.notes = some []) ∧
    (([rowHi].map Row.id).Nodup) ∧
    ∀ ar, exportData [rowHi] [] [112] [115] 0 = .ok ar →
      ∀ res store2,
        importData ar [112] .replace [] 0 = (.ok res, store2) →
        ¬ store2.map Row.store_name = [rowHi].map Row.store_name := by
  refine ⟨by decide, by decide, by decide, ?_⟩
  intro ar har res store2 himp
  have hexp : exportData [rowHi] [] [112] [115] 0 =
      .ok ⟨some esHi.2, some esHi.1, some []⟩ := rfl
  rw [hexp] at har
  have harr : (⟨some esHi.2, some esHi.1, some []⟩ : Archive) = ar := by
    injection har
  subst harr
  have hdec : decryptDataWithPassword esHi.1 [112] esHi.2 =
      printJson (exportMetadata [mapRowToReceipt rowLo] 0) := by
    rw [show esHi = encryptDataWithPassword
      (printJson (exportMetadata [mapRowToReceipt rowHi] 0)) [112] [115] from rfl]
    rw [decrypt_encrypt_mod]
    rw [printJson_map256 _ jsafe_exportMetadata_rowHi, jmap256_exportMetadata_rowHi]
  have hprinted := importData_printed esHi.2 esHi.1 (some []) [112] .replace [] 0
    (exportMetadata [mapRowToReceipt rowLo] 0)
    [serializeReceipt (mapRowToReceipt rowLo)] hdec rfl
  obtain ⟨rows2, hf2, heq⟩ := processReceipts_fresh_inserts .replace (some []) 0
    [rowLo] [] 0 0 []
    (by decide)
    (by decide)
    (fun r _ s hs => absurd hs (List.not_mem_nil s))
  have himpLo : importData ⟨some esHi.2, some esHi.1, some []⟩ [112] .replace [] 0 =
      (.ok ⟨true, 1, 0, []⟩, rows2) := by
    rw [hprinted]
    rw [show (([] : List Row).map (fun r => r.id)) = [] from rfl]
    rw [show [serializeReceipt (mapRowToReceipt rowLo)] =
      [rowLo].map (fun r => serializeReceipt (mapRowToReceipt r)) from rfl]
    rw [heq]
    simp only [processEnd, List.nil_append, Nat.zero_add, List.length_cons,
      List.length_nil]
  rw [himpLo] at himp
  injection himp with h1 h2
  subst h2
  cases hf2 with
  | cons hre hnil =>
    cases hnil
    intro hcon
    simp only [List.map_cons, List.map_nil, List.cons.injEq, and_true] at hcon
    rw [hre.2.1] at hcon
    exact absurd hcon (by decide)

end Paperkeep
